import Mathlib

/-!
# Verification of the kg-tree core (document tree model + opath evaluator)

Shallow embedding of the `kg-tree` repository:

* `src/tree/mod.rs`, `src/tree/metadata.rs` — the mutable document tree
  (`NodeRef`, `Metadata`, structural mutation, `deep_copy`);
* `src/opath/opath.rs` — `Opath` (canonical paths, `apply_one`);
* `src/opath/expr/mod.rs` — the expression AST, node sets, the recursive
  evaluator `Expr::apply_to`, structural equality and hashing of expressions.

Modelling decisions:

* The `Rc<RefCell<Node>>` graph is embedded as an arena (`Store`): a node
  handle (`NodeRef`) is an index (`NodeId`) into an array of nodes, and
  mutation is explicit state passing of the store.  `Rc::ptr_eq` is equality
  of indices.
* Rust `f64` is embedded as `F64`: `nan`, signed infinities, or a finite
  rational value.  Finite rounding (round-to-nearest, ties-to-even, with
  binary64 precision and overflow to infinity) is implemented on `ℚ`.
  The two zeroes of IEEE 754 are collapsed into `0` and NaN payload bits are
  collapsed into a single `nan`; no claim below depends on the distinction.
* Rust panics (`unimplemented!()`, etc.) are a distinct outcome constructor,
  never silently identified with returning an error value.
* Code of the repository that is not under `src/` (notably `tree/node.rs`
  with the `Node` value coercions `as_string`/`as_float`/…, and the
  `Properties` ordered map) is modelled from the spec; each such definition
  carries a doc comment starting with `Modelled from the spec:`.
-/

/-! ## Binary64 model -/

/-- A canonical dyadic rational `m * 2 ^ e` (`m` odd, or `m = 0 ∧ e = 0`):
the exact value of a finite binary64 number.  All arithmetic below is plain
`Nat`/`Int` arithmetic so that concrete values evaluate in the kernel. -/
structure Dyadic where
  m : Int
  e : Int
deriving DecidableEq, Repr

/-- Model of Rust `f64`: NaN, a signed infinity, or a finite dyadic value.
The two IEEE zeroes are collapsed (`finite ⟨0, 0⟩`) and all NaN bit patterns
are collapsed into `nan`; no claim below depends on the distinction. -/
inductive F64 where
  | nan : F64
  | inf (neg : Bool) : F64
  | finite (val : Dyadic) : F64
deriving DecidableEq, Repr

/-- Structural fuel-based floor of the base-2 logarithm of a natural number
(`log2fuel fuel n = ⌊log₂ n⌋` whenever `fuel ≥ n` and `n > 0`). -/
def log2fuel : Nat → Nat → Nat
  | 0, _ => 0
  | fuel + 1, n => if n < 2 then 0 else log2fuel fuel (n / 2) + 1

/-- `⌊log₂ n⌋` for positive `n` (0 for `n = 0`). -/
def natLog2 (n : Nat) : Nat := log2fuel n n

/-- Smallest `j` with `2 ^ j ≥ c` (for `c ≥ 1`). -/
def natClog2 (c : Nat) : Nat := if c ≤ 1 then 0 else natLog2 (c - 1) + 1

/-- `⌊log₂ (N / D)⌋` for positive naturals `N`, `D`. -/
def floorLog2Frac (N D : Nat) : Int :=
  if N ≥ D then (natLog2 (N / D) : Int)
  else -(natClog2 ((D + N - 1) / N) : Int)

/-- Strip factors of two: `oddify fuel m e = (m', e')` with `m' * 2^e' = m * 2^e`
and `m'` odd (given enough fuel and `m ≠ 0`). -/
def oddify : Nat → Nat → Int → Nat × Int
  | 0, m, e => (m, e)
  | fuel + 1, m, e => if m % 2 = 0 ∧ m ≠ 0 then oddify fuel (m / 2) (e + 1) else (m, e)

/-- Round the fraction `±N / D` to the nearest binary64 value (round-to-nearest,
ties-to-even, subnormals at exponent `-1074`, overflow to an infinity). -/
def roundF64N (neg : Bool) (N D : Nat) : F64 :=
  if N = 0 ∨ D = 0 then .finite ⟨0, 0⟩
  else
    let e := floorLog2Frac N D
    let pe := max (e - 52) (-1074)
    let N1 := N * 2 ^ (max (-pe) 0).toNat
    let D1 := D * 2 ^ (max pe 0).toNat
    let q := N1 / D1
    let r := N1 % D1
    let m := if 2 * r < D1 then q
             else if 2 * r > D1 then q + 1
             else if q % 2 = 0 then q else q + 1
    let ovf := if pe ≥ 0 then m * 2 ^ pe.toNat ≥ 2 ^ 1024
               else m ≥ 2 ^ 1024 * 2 ^ (-pe).toNat
    if ovf then .inf neg
    else if m = 0 then .finite ⟨0, 0⟩
    else
      let me := oddify m m pe
      .finite ⟨if neg then -(me.1 : Int) else (me.1 : Int), me.2⟩

/-- The (sign, numerator, denominator) fraction of a raw dyadic `m * 2 ^ e`. -/
def dyFrac (m : Int) (e : Int) : Bool × Nat × Nat :=
  if e ≥ 0 then (m < 0, m.natAbs * 2 ^ e.toNat, 1)
  else (m < 0, m.natAbs, 2 ^ (-e).toNat)

/-- Round a raw (non-canonical) dyadic `m * 2 ^ e` to binary64. -/
def roundDy (m : Int) (e : Int) : F64 :=
  let f := dyFrac m e
  roundF64N f.1 f.2.1 f.2.2

/-- Rust `i64 as f64` conversion (round to nearest). -/
def f64OfInt (i : Int) : F64 := roundF64N (i < 0) i.natAbs 1

def F64.add : F64 → F64 → F64
  | .nan, _ => .nan
  | _, .nan => .nan
  | .inf s, .inf t => if s = t then .inf s else .nan
  | .inf s, .finite _ => .inf s
  | .finite _, .inf t => .inf t
  | .finite a, .finite b =>
    let emin := min a.e b.e
    roundDy (a.m * 2 ^ (a.e - emin).toNat + b.m * 2 ^ (b.e - emin).toNat) emin

def F64.neg : F64 → F64
  | .nan => .nan
  | .inf s => .inf (!s)
  | .finite a => .finite ⟨-a.m, if a.m = 0 then 0 else a.e⟩

def F64.sub (a b : F64) : F64 := a.add b.neg

def F64.mul : F64 → F64 → F64
  | .nan, _ => .nan
  | _, .nan => .nan
  | .inf s, .inf t => .inf (s != t)
  | .inf s, .finite b => if b.m = 0 then .nan else .inf (s != decide (b.m < 0))
  | .finite a, .inf t => if a.m = 0 then .nan else .inf (t != decide (a.m < 0))
  | .finite a, .finite b => roundDy (a.m * b.m) (a.e + b.e)

def F64.div : F64 → F64 → F64
  | .nan, _ => .nan
  | _, .nan => .nan
  | .inf _, .inf _ => .nan
  | .inf s, .finite b => .inf (s != decide (b.m < 0))
  | .finite _, .inf _ => .finite ⟨0, 0⟩
  | .finite a, .finite b =>
    if b.m = 0 then (if a.m = 0 then .nan else .inf (decide (a.m < 0)))
    else
      let neg := decide (a.m < 0) != decide (b.m < 0)
      let ediff := a.e - b.e
      let N := a.m.natAbs * 2 ^ (max ediff 0).toNat
      let D := b.m.natAbs * 2 ^ (max (-ediff) 0).toNat
      roundF64N neg N D

/-- Rust `f64 as i64` cast: NaN to 0, saturating at the i64 bounds,
truncation toward zero otherwise. -/
def f64ToIntCast : F64 → Int
  | .nan => 0
  | .inf neg => if neg then -(2 ^ 63) else 2 ^ 63 - 1
  | .finite d =>
    let t : Int :=
      if d.e ≥ 0 then d.m * 2 ^ d.e.toNat
      else (if d.m < 0 then -(d.m.natAbs / 2 ^ (-d.e).toNat : Nat) else (d.m.natAbs / 2 ^ (-d.e).toNat : Nat))
    if t < -(2 ^ 63) then -(2 ^ 63)
    else if t > 2 ^ 63 - 1 then 2 ^ 63 - 1
    else t

/-- `f64::is_nan`. -/
def F64.isNan : F64 → Bool
  | .nan => true
  | _ => false

/-- IEEE equality `==` on our model (NaN equal to nothing; finite values are
canonical, so equality of payloads is value equality). -/
def F64.ieeeEq : F64 → F64 → Bool
  | .nan, _ => false
  | _, .nan => false
  | .inf s, .inf t => s = t
  | .inf _, .finite _ => false
  | .finite _, .inf _ => false
  | .finite a, .finite b => a = b

/-- IEEE partial comparison (`f64::partial_cmp`): `none` on NaN. -/
def F64.pcmp : F64 → F64 → Option Ordering
  | .nan, _ => none
  | _, .nan => none
  | .inf s, .inf t =>
    some (if s = t then .eq else if s then .lt else .gt)
  | .inf s, .finite _ => some (if s then .lt else .gt)
  | .finite _, .inf t => some (if t then .gt else .lt)
  | .finite a, .finite b =>
    let emin := min a.e b.e
    let x := a.m * 2 ^ (a.e - emin).toNat
    let y := b.m * 2 ^ (b.e - emin).toNat
    some (if x < y then .lt else if x = y then .eq else .gt)

/-- An injective encoding of `F64` into `ℕ`, standing in for `f64::to_bits`
(used by expression hashing; equal model values have equal encodings). -/
def F64.keyNat : F64 → Nat
  | .nan => 0
  | .inf false => 1
  | .inf true => 2
  | .finite d =>
    3 + Nat.pair (Nat.pair d.m.natAbs (if d.m < 0 then 1 else 0))
                 (Nat.pair d.e.natAbs (if d.e < 0 then 1 else 0))

/-- The float value NaN as produced by `f64::NAN`. -/
def F64.nanValue : F64 := .nan

/-- Shorthand for a finite float holding an integer value. -/
def F64.ofNat' (n : Nat) : F64 := roundF64N false n 1

/-- i64 range predicate. -/
def i64InRange (n : Int) : Prop := -(2 ^ 63) ≤ n ∧ n ≤ 2 ^ 63 - 1

instance (n : Int) : Decidable (i64InRange n) := by unfold i64InRange; infer_instance

/-! ## Document tree model (src/tree/mod.rs, src/tree/metadata.rs)

`Rc<RefCell<Node>>` handles are embedded as indices into an arena `Store`;
`Rc::ptr_eq` (`NodeRef::is_ref_eq`) is index equality. -/

/-- A node handle identity. -/
abbrev NodeId := Nat

/-- `Value`: tagged sum of the node data (children held by handle). -/
inductive Val where
  | null : Val
  | boolean (b : Bool) : Val
  | integer (n : Int) : Val
  | float (f : F64) : Val
  | string (s : String) : Val
  | binary (bytes : List Nat) : Val
  | array (elems : List NodeId) : Val
  | object (props : List (String × NodeId)) : Val
deriving DecidableEq, Repr

/-- `Kind`: the value tag, used in tree error payloads. -/
inductive Kind where
  | null | boolean | integer | float | string | binary | array | object
deriving DecidableEq, Repr

def Val.kind : Val → Kind
  | .null => .null
  | .boolean _ => .boolean
  | .integer _ => .integer
  | .float _ => .float
  | .string _ => .string
  | .binary _ => .binary
  | .array _ => .array
  | .object _ => .object

/-- `FileType` (metadata.rs). -/
inductive FileType where
  | file | dir
deriving DecidableEq, Repr

/-- `FileFormat` (metadata.rs). -/
inductive FileFormat where
  | binary | text | json | yaml | toml
deriving DecidableEq, Repr

/-- `FileInfo` (metadata.rs): absolute path, file type, file format. -/
structure FileInfo where
  path : String
  ftype : FileType
  fformat : FileFormat
deriving DecidableEq, Repr

/-- A source position (offset + line/column), from the `Span` provenance. -/
structure SrcPos where
  offset : Nat
  line : Nat
  column : Nat
deriving DecidableEq, Repr

/-- A source span: start and end position. -/
structure Span where
  from_ : SrcPos
  to_ : SrcPos
deriving DecidableEq, Repr

/-- `Metadata` (metadata.rs): parent back-reference, positional index,
key, optional file info, optional span. -/
structure Meta where
  parent : Option NodeId
  index : Nat
  key : String
  file : Option FileInfo
  span : Option Span
deriving DecidableEq, Repr

/-- `Metadata::new()`. -/
def Meta.new : Meta := ⟨none, 0, "", none, none⟩

/-- `Metadata::detach()`: clears parent, index, key; file/span kept. -/
def Meta.detach (m : Meta) : Meta := { m with parent := none, index := 0, key := "" }

/-- `Metadata::deep_copy()`: no parent, index 0, empty key; file/span cloned. -/
def Meta.deepCopy (m : Meta) : Meta := ⟨none, 0, "", m.file, m.span⟩

/-- `Node`: a `(Value, Metadata)` pair. -/
structure Node where
  value : Val
  meta : Meta
deriving DecidableEq, Repr

def Node.nullNode : Node := ⟨.null, Meta.new⟩

/-- The arena of live nodes; a `NodeId` is an index into `nodes`. -/
structure Store where
  nodes : List Node
deriving DecidableEq, Repr

/-- Dereference a handle (total; a dangling id yields the null node, which
never happens for handles produced by the API). -/
def Store.get (st : Store) (id : NodeId) : Node := (st.nodes.get? id).getD Node.nullNode

def Store.size (st : Store) : Nat := st.nodes.length

def Store.validId (st : Store) (id : NodeId) : Prop := id < st.size

instance (st : Store) (id : NodeId) : Decidable (st.validId id) := by
  unfold Store.validId
  infer_instance

/-- Replace the node behind a live handle (no-op on a dangling id). -/
def Store.modifyNode (st : Store) (id : NodeId) (f : Node → Node) : Store :=
  match st.nodes.get? id with
  | some n => ⟨st.nodes.set id (f n)⟩
  | none => st

/-- Allocate a fresh node, returning its handle. -/
def Store.alloc (st : Store) (n : Node) : Store × NodeId :=
  (⟨st.nodes ++ [n]⟩, st.nodes.length)

/-! ### Properties (ordered key → handle map)

Modelled from the spec: the `Properties` ordered map (from the external
`kg-utils` crate, not under `src/`) is an insertion-ordered mapping from
string key to node handle with unique keys, stable under `insert_at`. -/

/-- Modelled from the spec: ordered-map lookup (first entry with the key). -/
def propsGet (props : List (String × NodeId)) (k : String) : Option NodeId :=
  (props.find? (fun e => e.1 = k)).map (·.2)

/-- Modelled from the spec: `insert` — replace the value in place when the key
exists (returning the old value), append otherwise. -/
def propsInsert (props : List (String × NodeId)) (k : String) (v : NodeId) :
    List (String × NodeId) × Option NodeId :=
  match props.findIdx? (fun e => e.1 = k) with
  | some i => (props.set i (k, v), (props.get? i).map (·.2))
  | none => (props ++ [(k, v)], none)

/-- Modelled from the spec: `insert_at i k v` — remove an existing entry for
the key (returning its old value), then insert the entry at position `i`. -/
def propsInsertAt (props : List (String × NodeId)) (i : Nat) (k : String) (v : NodeId) :
    List (String × NodeId) × Option NodeId :=
  match props.findIdx? (fun e => e.1 = k) with
  | some j =>
    let old := (props.get? j).map (·.2)
    let rest := props.eraseIdx j
    (rest.take (min i rest.length) ++ [(k, v)] ++ rest.drop (min i rest.length), old)
  | none => (props.take (min i props.length) ++ [(k, v)] ++ props.drop (min i props.length), none)

/-- Modelled from the spec: `remove k`. -/
def propsRemove (props : List (String × NodeId)) (k : String) :
    List (String × NodeId) × Option NodeId :=
  match props.findIdx? (fun e => e.1 = k) with
  | some j => (props.eraseIdx j, (props.get? j).map (·.2))
  | none => (props, none)

/-- Modelled from the spec: `remove_at i`. -/
def propsRemoveAt (props : List (String × NodeId)) (i : Nat) :
    List (String × NodeId) × Option NodeId :=
  match props.get? i with
  | some e => (props.eraseIdx i, some e.2)
  | none => (props, none)

/-! ### Structural mutation (src/tree/mod.rs) -/

/-- `TreeErrorDetail` outcomes; `panicked` models a Rust panic (out-of-bounds
`Vec` insert/index, or a `RefCell` double borrow). -/
inductive TreeErr where
  | addChildInvalidType (kind : Kind)
  | removeChildInvalidType (kind : Kind)
  | extendIncompatibleTypes (target source : Kind)
  | panicked
deriving DecidableEq, Repr

abbrev TreeRes (α : Type) := Except TreeErr α

/-- The `(key, child)` entries of a container in positional order: array
children are keyed by their decimal index, object children by their map key. -/
def Store.childEntries (st : Store) (p : NodeId) : List (String × NodeId) :=
  match (st.get p).value with
  | .array elems => elems.enum.map (fun e => (toString e.1, e.2))
  | .object props => props
  | _ => []

/-- The child handles of a container in positional order. -/
def Store.childIds (st : Store) (p : NodeId) : List NodeId :=
  match (st.get p).value with
  | .array elems => elems
  | .object props => props.map (·.2)
  | _ => []

/-- One step of `update_children_metadata`: set a child's key, index, parent. -/
def setChildMeta (st : Store) (p : NodeId) (i : Nat) (k : String) (c : NodeId) : Store :=
  st.modifyNode c (fun n => { n with meta := { n.meta with parent := some p, index := i, key := k } })

/-- The `for` loop of `update_children_metadata` over the remaining entries,
`i` being the position of the first. -/
def updateMetaLoop (st : Store) (p : NodeId) (i : Nat) :
    List (String × NodeId) → Store
  | [] => st
  | (k, c) :: rest => updateMetaLoop (setChildMeta st p i k c) p (i + 1) rest

/-- `NodeRef::update_children_metadata`: re-establish parent/index/key on each
child of `p`.  Returns `none` (a `RefCell` double-borrow panic) when `p` is
contained in its own children, since the loop borrows each child mutably while
`p`'s data is already borrowed. -/
def Store.updateChildrenMetadata (st : Store) (p : NodeId) : Option Store :=
  let es := st.childEntries p
  if p ∈ es.map (·.2) then none
  else some (updateMetaLoop st p 0 es)

/-- `Metadata::detach` applied behind a handle. -/
def Store.detachNode (st : Store) (id : NodeId) : Store :=
  st.modifyNode id (fun n => { n with meta := n.meta.detach })

/-- Replace the value of a node (inside its `RefCell`). -/
def Store.setVal (st : Store) (id : NodeId) (v : Val) : Store :=
  st.modifyNode id (fun n => { n with value := v })

/-- `NodeRef::add_child`.  Returns the updated store and the displaced child
(for an object insert over an existing key). -/
def Store.addChild (st : Store) (self : NodeId) (index : Option Nat)
    (key : Option String) (value : NodeId) : TreeRes (Store × Option NodeId) := do
  let kind := (st.get self).value.kind
  let (st1, n) ← (do
    match (st.get self).value with
    | .array elems =>
      match index with
      | some i =>
        if i ≤ elems.length then
          pure (st.setVal self (.array (elems.insertIdx i value)), none)
        else .error .panicked  -- Vec::insert out of bounds
      | none => pure (st.setVal self (.array (elems ++ [value])), none)
    | .object props =>
      match key with
      | some k =>
        let (props', n) := match index with
          | some i => propsInsertAt props i k value
          | none => propsInsert props k value
        pure (st.setVal self (.object props'), n)
      | none => pure (st, none)
    | _ => .error (.addChildInvalidType kind) : TreeRes (Store × Option NodeId))
  match st1.updateChildrenMetadata self with
  | none => .error .panicked
  | some st2 =>
    let st3 := match n with
      | some r => st2.detachNode r
      | none => st2
    pure (st3, n)

/-- `NodeRef::set_child` (note: its error branch raises `AddChildInvalidType`,
exactly as in the source). -/
def Store.setChild (st : Store) (self : NodeId) (index : Option Nat)
    (key : Option String) (value : NodeId) : TreeRes (Store × Option NodeId) := do
  let kind := (st.get self).value.kind
  let (st1, n) ← (do
    match (st.get self).value with
    | .array elems =>
      match index with
      | some i =>
        if i < elems.length then
          pure (st.setVal self (.array (elems.set i value)), none)
        else .error .panicked  -- indexing out of bounds
      | none => pure (st.setVal self (.array (elems ++ [value])), none)
    | .object props =>
      match key with
      | some k =>
        let (props', n) := match index with
          | some i => propsInsertAt props i k value
          | none => propsInsert props k value
        pure (st.setVal self (.object props'), n)
      | none => pure (st, none)
    | _ => .error (.addChildInvalidType kind) : TreeRes (Store × Option NodeId))
  match st1.updateChildrenMetadata self with
  | none => .error .panicked
  | some st2 =>
    let st3 := match n with
      | some r => st2.detachNode r
      | none => st2
    pure (st3, n)

/-- `NodeRef::remove_child`.  The removed node is detached first, then the
metadata of the remaining children is updated (both only when something was
actually removed). -/
def Store.removeChild (st : Store) (self : NodeId) (index : Option Nat)
    (key : Option String) : TreeRes (Store × Option NodeId) := do
  let kind := (st.get self).value.kind
  let (st1, n) ← (do
    match (st.get self).value with
    | .array elems =>
      match index with
      | some i =>
        if i < elems.length then
          pure (st.setVal self (.array (elems.eraseIdx i)), elems.get? i)
        else pure (st, none)
      | none =>
        match elems.getLast? with
        | some l => pure (st.setVal self (.array (elems.dropLast)), some l)
        | none => pure (st, none)
    | .object props =>
      match key with
      | some k =>
        let (props', n) := propsRemove props k
        pure (st.setVal self (.object props'), n)
      | none =>
        match index with
        | some i =>
          let (props', n) := propsRemoveAt props i
          pure (st.setVal self (.object props'), n)
        | none => pure (st, none)
    | _ => .error (.removeChildInvalidType kind) : TreeRes (Store × Option NodeId))
  match n with
  | some r =>
    let st2 := st1.detachNode r
    match st2.updateChildrenMetadata self with
    | none => .error .panicked
    | some st3 => pure (st3, n)
  | none => pure (st1, none)

/-- `NodeRef::add_children`: batched insert; displaced object children are
detached during the loop (when `drop` is false, they are also collected),
and the children metadata is updated once at the end. -/
def Store.addChildren (st : Store) (self : NodeId) (drop : Bool)
    (items : List (Option Nat × Option String × NodeId)) :
    TreeRes (Store × List NodeId) := do
  let kind := (st.get self).value.kind
  let (st1, res) ← (do
    match (st.get self).value with
    | .array _ =>
      let st1 ← items.foldlM (fun s it => do
        match (s.get self).value with
        | .array elems =>
          match it.1 with
          | some i =>
            if i ≤ elems.length then
              pure (s.setVal self (.array (elems.insertIdx i it.2.2)))
            else .error TreeErr.panicked
          | none => pure (s.setVal self (.array (elems ++ [it.2.2])))
        | _ => pure s) st
      pure (st1, ([] : List NodeId))
    | .object _ =>
      let (st1, res) ← items.foldlM (fun sr it => do
        let (s, res) := sr
        match (s.get self).value with
        | .object props =>
          match it.2.1 with
          | some k =>
            let (props', n) := match it.1 with
              | some i => propsInsertAt props i k it.2.2
              | none => propsInsert props k it.2.2
            let s1 := s.setVal self (.object props')
            match n with
            | some r => if drop then pure (s1, res) else pure (s1.detachNode r, res ++ [r])
            | none => pure (s1, res)
          | none => pure (s, res)
        | _ => pure (s, res)) (st, ([] : List NodeId))
      pure (st1, res)
    | _ => .error (.addChildInvalidType kind) : TreeRes (Store × List NodeId))
  match st1.updateChildrenMetadata self with
  | none => .error .panicked
  | some st2 => pure (st2, res)

/-- `NodeRef::remove_children`: batched removal; removed children are detached
during the loop (collected when `drop` is false); metadata of the remaining
children is updated once at the end. -/
def Store.removeChildren (st : Store) (self : NodeId) (drop : Bool)
    (items : List (Option Nat × Option String)) :
    TreeRes (Store × List NodeId) := do
  let kind := (st.get self).value.kind
  let (st1, res) ← (do
    match (st.get self).value with
    | .array _ =>
      items.foldlM (fun sr it => do
        let (s, res) := sr
        match (s.get self).value with
        | .array elems =>
          let (elems', n) := match it.1 with
            | some i =>
              if i < elems.length then (elems.eraseIdx i, elems.get? i)
              else (elems, none)
            | none =>
              match elems.getLast? with
              | some l => (elems.dropLast, some l)
              | none => (elems, none)
          let s1 := s.setVal self (.array elems')
          match n with
          | some r => if drop then pure (s1, res) else pure (s1.detachNode r, res ++ [r])
          | none => pure (s1, res)
        | _ => pure (s, res)) (st, ([] : List NodeId))
    | .object _ =>
      items.foldlM (fun sr it => do
        let (s, res) := sr
        match (s.get self).value with
        | .object props =>
          let (props', n) := match it.2 with
            | some k => propsRemove props k
            | none =>
              match it.1 with
              | some i => propsRemoveAt props i
              | none => (props, none)
          let s1 := s.setVal self (.object props')
          match n with
          | some r => if drop then pure (s1, res) else pure (s1.detachNode r, res ++ [r])
          | none => pure (s1, res)
        | _ => pure (s, res)) (st, ([] : List NodeId))
    | _ => .error (.removeChildInvalidType kind) : TreeRes (Store × List NodeId))
  match st1.updateChildrenMetadata self with
  | none => .error .panicked
  | some st2 => pure (st2, res)

/-- The object-draining loop of `extend_internal` with an insertion position:
`pop_front` each source entry and `insert_at` it, advancing the position. -/
def extendObjLoop (nprops : List (String × NodeId)) (i : Nat) :
    List (String × NodeId) → List (String × NodeId)
  | [] => nprops
  | (k, v) :: rest => extendObjLoop (propsInsertAt nprops i k v).1 (i + 1) rest

/-- `NodeRef::extend_internal`: move all children of `o` into `self`
(optionally at a position); `Ok(false)` and no change when `self` and `o` are
the same node; `ExtendIncompatibleTypes` when the kinds do not match. -/
def Store.extendInternal (st : Store) (self o : NodeId) (index : Option Nat) :
    TreeRes (Store × Bool) :=
  if self = o then .ok (st, false)
  else
    match (st.get self).value, (st.get o).value with
    | .array nelems, .array oelems =>
      let newElems := match index with
        | some i =>
          if i < nelems.length then nelems.take i ++ oelems ++ nelems.drop i
          else nelems ++ oelems
        | none => nelems ++ oelems
      .ok (((st.setVal self (.array newElems)).setVal o (.array [])), true)
    | .object nprops, .object oprops =>
      let newProps := match index with
        | some i =>
          if i < nprops.length then extendObjLoop nprops i oprops
          else (oprops.foldl (fun ps kv => (propsInsert ps kv.1 kv.2).1) nprops)
        | none => oprops.foldl (fun ps kv => (propsInsert ps kv.1 kv.2).1) nprops
      .ok (((st.setVal self (.object newProps)).setVal o (.object [])), true)
    | nv, ov => .error (.extendIncompatibleTypes nv.kind ov.kind)

/-- `NodeRef::extend`. -/
def Store.extend (st : Store) (self o : NodeId) (index : Option Nat) :
    TreeRes Store := do
  let (st1, updated) ← st.extendInternal self o index
  if updated then
    match st1.updateChildrenMetadata self with
    | none => .error .panicked
    | some st2 => pure st2
  else pure st1

/-- `NodeRef::extend_multiple`. -/
def Store.extendMultiple (st : Store) (self : NodeId)
    (extends_ : List (NodeId × Option Nat)) : TreeRes Store := do
  let (st1, updated) ← extends_.foldlM (fun su ex => do
    let (s, u) := su
    let (s', u') ← s.extendInternal self ex.1 ex.2
    pure (s', u || u')) (st, false)
  if updated then
    match st1.updateChildrenMetadata self with
    | none => .error .panicked
    | some st2 => pure st2
  else pure st1

/-- The structural mutations of the claim "P1 / invariants" family, as one
operation type. -/
inductive MutOp where
  | addChildOp (index : Option Nat) (key : Option String) (value : NodeId)
  | setChildOp (index : Option Nat) (key : Option String) (value : NodeId)
  | removeChildOp (index : Option Nat) (key : Option String)
  | addChildrenOp (drop : Bool) (items : List (Option Nat × Option String × NodeId))
  | removeChildrenOp (drop : Bool) (items : List (Option Nat × Option String))
  | extendOp (o : NodeId) (index : Option Nat)
  | extendMultipleOp (extends_ : List (NodeId × Option Nat))

/-- Run a structural mutation on parent `p`; the second component collects the
nodes the operation removed or displaced (and returned to the caller). -/
def Store.runOp (st : Store) (p : NodeId) : MutOp → TreeRes (Store × List NodeId)
  | .addChildOp index key value => do
    let (st', n) ← st.addChild p index key value
    pure (st', n.toList)
  | .setChildOp index key value => do
    let (st', n) ← st.setChild p index key value
    pure (st', n.toList)
  | .removeChildOp index key => do
    let (st', n) ← st.removeChild p index key
    pure (st', n.toList)
  | .addChildrenOp drop items => st.addChildren p drop items
  | .removeChildrenOp drop items => st.removeChildren p drop items
  | .extendOp o index => do
    let st' ← st.extend p o index
    pure (st', [])
  | .extendMultipleOp exs => do
    let st' ← st.extendMultiple p exs
    pure (st', [])

/-- The metadata invariant of a container `p` (spec P1): every child, at its
position, has `p` as parent, its position as index, and its entry key (the
decimal position for arrays) as key. -/
def Store.childrenOk (st : Store) (p : NodeId) : Prop :=
  ∀ e ∈ (st.childEntries p).enum,
    (st.get e.2.2).meta.parent = some p ∧
    (st.get e.2.2).meta.index = e.1 ∧
    (st.get e.2.2).meta.key = e.2.1

instance (st : Store) (p : NodeId) : Decidable (st.childrenOk p) := by
  unfold Store.childrenOk; infer_instance

/-- Side conditions under which the invariant is re-established: the children
handles are pairwise distinct and live. -/
def Store.childrenWF (st : Store) (p : NodeId) : Prop :=
  (st.childIds p).Nodup ∧ ∀ c ∈ st.childIds p, st.validId c

/-! ### Deep copy (`NodeRef::deep_copy`; `Node::deep_copy` is in the missing
`tree/node.rs` and is modelled from the spec) -/

/-- Modelled from the spec: `Node::deep_copy` duplicates the entire subtree
(fresh handles throughout), resets parent/index/key via `Metadata::deep_copy`,
and preserves file/span; each copied container re-establishes its children
metadata via `NodeRef::new` (which calls `update_children_metadata`).  Fuel
bounds the recursion depth (`none` = nontermination on a cyclic store). -/
def deepCopyRef (fuel : Nat) (st : Store) (id : NodeId) : Option (Store × NodeId) :=
  match fuel with
  | 0 => none
  | f + 1 =>
    let nd := st.get id
    match nd.value with
    | .array elems =>
      match elems.foldlM
          (fun (acc : Store × List NodeId) c =>
            (deepCopyRef f acc.1 c).map (fun r => (r.1, acc.2 ++ [r.2])))
          (st, []) with
      | some (st1, elems') =>
        let an := st1.alloc ⟨.array elems', nd.meta.deepCopy⟩
        (an.1.updateChildrenMetadata an.2).map (fun st3 => (st3, an.2))
      | none => none
    | .object props =>
      match props.foldlM
          (fun (acc : Store × List (String × NodeId)) kv =>
            (deepCopyRef f acc.1 kv.2).map (fun r => (r.1, acc.2 ++ [(kv.1, r.2)])))
          (st, []) with
      | some (st1, props') =>
        let an := st1.alloc ⟨.object props', nd.meta.deepCopy⟩
        (an.1.updateChildrenMetadata an.2).map (fun st3 => (st3, an.2))
      | none => none
    | v =>
      let an := st.alloc ⟨v, nd.meta.deepCopy⟩
      some (an.1, an.2)

/-- The pure value tree of a node (its serialization shape), with fuel. -/
inductive PVal where
  | null : PVal
  | boolean (b : Bool) : PVal
  | integer (n : Int) : PVal
  | float (f : F64) : PVal
  | string (s : String) : PVal
  | binary (bytes : List Nat) : PVal
  | array (elems : List PVal) : PVal
  | object (props : List (String × PVal)) : PVal
deriving Repr

/-- Project a node into its pure value tree (what serialization walks over);
`none` when the fuel does not cover the depth. -/
def toPure (fuel : Nat) (st : Store) (id : NodeId) : Option PVal :=
  match fuel with
  | 0 => none
  | f + 1 =>
    match (st.get id).value with
    | .null => some .null
    | .boolean b => some (.boolean b)
    | .integer n => some (.integer n)
    | .float x => some (.float x)
    | .string s => some (.string s)
    | .binary bs => some (.binary bs)
    | .array elems => (elems.mapM (toPure f st)).map .array
    | .object props =>
      (props.mapM (fun kv => (toPure f st kv.2).map (fun v => (kv.1, v)))).map .object

/-- Handles reachable from `a` through child edges (the subtree of `a`). -/
inductive Reach (st : Store) : NodeId → NodeId → Prop
  | refl (a : NodeId) : Reach st a a
  | child {a b c : NodeId} : Reach st a b → c ∈ st.childIds b → Reach st a c

/-- Store closedness: every child handle of every live node is live. -/
def Store.closed (st : Store) : Prop :=
  ∀ id, st.validId id → ∀ c ∈ st.childIds id, st.validId c

/-- Store extension: the new store is at least as large and agrees on the
values of the old nodes (their metadata may have changed). -/
def StExt (st st' : Store) : Prop :=
  st.size ≤ st'.size ∧ ∀ q, q < st.size → (st'.get q).value = (st.get q).value

/-- The child handles a value carries. -/
def valChildren : Val → List NodeId
  | .array elems => elems
  | .object props => props.map (·.2)
  | _ => []

/-! ## Expression AST (src/opath/expr/mod.rs) -/

/-- `IdKind` (expr/mod.rs). -/
inductive IdKind where
  | plain | quoted | encoded
deriving DecidableEq, Repr

/-- `Id`: an identifier plus its rendering kind (named `Ident` here since
`Id` is taken by the Lean prelude). -/
structure Ident where
  name : String
  kind : IdKind
deriving DecidableEq, Repr

/-- `Id::new`: classify the identifier.  A leading digit or a character other
than alphanumeric/`_`/`$`/`@` makes it quoted; a control character makes it
encoded.  (Rust uses the Unicode `is_alphanumeric`; the model uses the ASCII
classification, which agrees on every identifier appearing below.) -/
def Ident.new (s : String) : Ident :=
  let step := fun (acc : IdKind × Bool) (c : Char) =>
    let k1 := if acc.2 ∧ c.isDigit then IdKind.quoted else acc.1
    let k2 :=
      if c < ' ' then IdKind.encoded
      else if k1 = IdKind.plain ∧ ¬c.isAlphanum ∧ c ≠ '_' ∧ c ≠ '$' ∧ c ≠ '@' then IdKind.quoted
      else k1
    (k2, false)
  ⟨s, (s.toList.foldl step (IdKind.plain, true)).1⟩

/-- `Attr`: the closed enum of virtual attributes. -/
inductive Attr where
  | key | index | level | type | kind
  | file | fileAbs | fileType | fileFormat | filePath | filePathAbs
  | fileName | fileStem | fileExt | filePathComponents | dir | dirAbs | path
deriving DecidableEq, Repr

/-- `Attr::from_str`. -/
def attrFromStr (s : String) : Option Attr :=
  if s = "@key" then some .key
  else if s = "@index" then some .index
  else if s = "@level" then some .level
  else if s = "@type" then some .type
  else if s = "@kind" then some .kind
  else if s = "@file" then some .file
  else if s = "@file_abs" then some .fileAbs
  else if s = "@file_type" then some .fileType
  else if s = "@file_format" then some .fileFormat
  else if s = "@file_path" then some .filePath
  else if s = "@file_path_abs" then some .filePathAbs
  else if s = "@file_name" then some .fileName
  else if s = "@file_stem" then some .fileStem
  else if s = "@file_ext" then some .fileExt
  else if s = "@file_path_components" then some .filePathComponents
  else if s = "@dir" then some .dir
  else if s = "@dir_abs" then some .dirAbs
  else if s = "@path" then some .path
  else none

/-- `PathSegment`. -/
inductive PathSegment where
  | keySeg (id : Ident)
  | indexSeg (i : Nat)
deriving DecidableEq, Repr

/-- `Expr` — the expression AST.  Constructors are declared in the source
declaration order (their position is the discriminant used by hashing).
`LevelRange`, `NumberRange`, `MethodCall` and `FuncCall` payloads are inlined;
`MethodId`/`FuncId` (from the external function registry) are modelled as
strings. -/
inductive Expr where
  | path (segments : List PathSegment)
  | string (s : String)
  | integer (n : Int)
  | float (f : F64)
  | boolean (b : Bool)
  | null
  | concat (elems : List Expr)
  | neg (a : Expr)
  | add (a b : Expr)
  | sub (a b : Expr)
  | mul (a b : Expr)
  | div (a b : Expr)
  | not (a : Expr)
  | and (a b : Expr)
  | or (a b : Expr)
  | startsWith (a b : Expr)
  | endsWith (a b : Expr)
  | containsOp (a b : Expr)
  | eq (a b : Expr)
  | ne (a b : Expr)
  | gt (a b : Expr)
  | ge (a b : Expr)
  | lt (a b : Expr)
  | le (a b : Expr)
  | root
  | current
  | parent
  | all
  | ancestors (min max : Expr)
  | descendants (min max : Expr)
  | attr (a : Attr)
  | property (id : Ident)
  | propertyExpr (e : Expr)
  | index (i : Int)
  | indexExpr (e : Expr)
  | range (start step stop : Option Expr)
  | group (elems : List Expr)
  | sequence (elems : List Expr)
  | methodCall (id : String) (args : List Expr)
  | funcCall (id : String) (args : List Expr)
  | var (id : Ident)
  | varExpr (e : Expr)
  | env (id : Ident)
  | envExpr (e : Expr)
deriving Repr

/-- `Expr::tag`: the discriminant byte (declaration order). -/
def Expr.tag : Expr → Nat
  | .path _ => 0
  | .string _ => 1
  | .integer _ => 2
  | .float _ => 3
  | .boolean _ => 4
  | .null => 5
  | .concat _ => 6
  | .neg _ => 7
  | .add _ _ => 8
  | .sub _ _ => 9
  | .mul _ _ => 10
  | .div _ _ => 11
  | .not _ => 12
  | .and _ _ => 13
  | .or _ _ => 14
  | .startsWith _ _ => 15
  | .endsWith _ _ => 16
  | .containsOp _ _ => 17
  | .eq _ _ => 18
  | .ne _ _ => 19
  | .gt _ _ => 20
  | .ge _ _ => 21
  | .lt _ _ => 22
  | .le _ _ => 23
  | .root => 24
  | .current => 25
  | .parent => 26
  | .all => 27
  | .ancestors _ _ => 28
  | .descendants _ _ => 29
  | .attr _ => 30
  | .property _ => 31
  | .propertyExpr _ => 32
  | .index _ => 33
  | .indexExpr _ => 34
  | .range _ _ _ => 35
  | .group _ => 36
  | .sequence _ => 37
  | .methodCall _ _ => 38
  | .funcCall _ _ => 39
  | .var _ => 40
  | .varExpr _ => 41
  | .env _ => 42
  | .envExpr _ => 43

/-! ### Structural equality and hashing of expressions -/

mutual
/-- `impl PartialEq for Expr` (expr/mod.rs 1841): structural equality; `Float`
compares `to_bits`, here the canonical `F64` payload (so NaN equals NaN). -/
def exprEq : Expr → Expr → Bool
  | .path seg1, .path seg2 => seg1 == seg2
  | .string s1, .string s2 => s1 == s2
  | .integer n1, .integer n2 => n1 == n2
  | .float n1, .float n2 => n1 == n2
  | .boolean b1, .boolean b2 => b1 == b2
  | .null, .null => true
  | .concat elems1, .concat elems2 => exprEqList elems1 elems2
  | .neg a1, .neg a2 => exprEq a1 a2
  | .add a1 b1, .add a2 b2 => exprEq a1 a2 && exprEq b1 b2
  | .sub a1 b1, .sub a2 b2 => exprEq a1 a2 && exprEq b1 b2
  | .mul a1 b1, .mul a2 b2 => exprEq a1 a2 && exprEq b1 b2
  | .div a1 b1, .div a2 b2 => exprEq a1 a2 && exprEq b1 b2
  | .not a1, .not a2 => exprEq a1 a2
  | .and a1 b1, .and a2 b2 => exprEq a1 a2 && exprEq b1 b2
  | .or a1 b1, .or a2 b2 => exprEq a1 a2 && exprEq b1 b2
  | .startsWith a1 b1, .startsWith a2 b2 => exprEq a1 a2 && exprEq b1 b2
  | .endsWith a1 b1, .endsWith a2 b2 => exprEq a1 a2 && exprEq b1 b2
  | .containsOp a1 b1, .containsOp a2 b2 => exprEq a1 a2 && exprEq b1 b2
  | .eq a1 b1, .eq a2 b2 => exprEq a1 a2 && exprEq b1 b2
  | .ne a1 b1, .ne a2 b2 => exprEq a1 a2 && exprEq b1 b2
  | .gt a1 b1, .gt a2 b2 => exprEq a1 a2 && exprEq b1 b2
  | .ge a1 b1, .ge a2 b2 => exprEq a1 a2 && exprEq b1 b2
  | .lt a1 b1, .lt a2 b2 => exprEq a1 a2 && exprEq b1 b2
  | .le a1 b1, .le a2 b2 => exprEq a1 a2 && exprEq b1 b2
  | .root, .root => true
  | .current, .current => true
  | .parent, .parent => true
  | .all, .all => true
  | .ancestors min1 max1, .ancestors min2 max2 => exprEq min1 min2 && exprEq max1 max2
  | .descendants min1 max1, .descendants min2 max2 => exprEq min1 min2 && exprEq max1 max2
  | .attr a1, .attr a2 => a1 == a2
  | .property id1, .property id2 => id1 == id2
  | .propertyExpr e1, .propertyExpr e2 => exprEq e1 e2
  | .index i1, .index i2 => i1 == i2
  | .indexExpr e1, .indexExpr e2 => exprEq e1 e2
  | .range s1 p1 t1, .range s2 p2 t2 =>
    exprEqOpt s1 s2 && exprEqOpt p1 p2 && exprEqOpt t1 t2
  | .group elems1, .group elems2 => exprEqList elems1 elems2
  | .sequence elems1, .sequence elems2 => exprEqList elems1 elems2
  | .methodCall id1 args1, .methodCall id2 args2 => id1 == id2 && exprEqList args1 args2
  | .funcCall id1 args1, .funcCall id2 args2 => id1 == id2 && exprEqList args1 args2
  | .var id1, .var id2 => id1 == id2
  | .varExpr e1, .varExpr e2 => exprEq e1 e2
  | .env id1, .env id2 => id1 == id2
  | .envExpr e1, .envExpr e2 => exprEq e1 e2
  | _, _ => false

/-- Equality of expression lists (`Vec<Expr> == Vec<Expr>`). -/
def exprEqList : List Expr → List Expr → Bool
  | [], [] => true
  | a :: as_, b :: bs => exprEq a b && exprEqList as_ bs
  | _, _ => false

/-- Equality of optional expressions (`Option<Expr> == Option<Expr>`). -/
def exprEqOpt : Option Expr → Option Expr → Bool
  | none, none => true
  | some a, some b => exprEq a b
  | _, _ => false
end

/-- The hash stream of a string (`str::hash`: the bytes plus a 0xff marker). -/
def stringHashStream (s : String) : List Nat :=
  s.toUTF8.toList.map (fun b => b.toNat) ++ [255]

/-- The hash stream of an `Id` (derived `Hash`: name, then kind tag). -/
def identHashStream (id : Ident) : List Nat :=
  identKindTag id.kind :: stringHashStream id.name
where identKindTag : IdKind → Nat
  | .plain => 0
  | .quoted => 1
  | .encoded => 2

/-- The hash stream of a `PathSegment` (derived `Hash`). -/
def segHashStream : PathSegment → List Nat
  | .keySeg id => 0 :: identHashStream id
  | .indexSeg i => [1, i]

/-- The discriminant of an `Attr` (derived `Hash`). -/
def attrTag : Attr → Nat
  | .key => 0 | .index => 1 | .level => 2 | .type => 3 | .kind => 4
  | .file => 5 | .fileAbs => 6 | .fileType => 7 | .fileFormat => 8
  | .filePath => 9 | .filePathAbs => 10 | .fileName => 11 | .fileStem => 12
  | .fileExt => 13 | .filePathComponents => 14 | .dir => 15 | .dirAbs => 16
  | .path => 17

/-- An injective encoding of `Int` into `ℕ` for hash streams. -/
def intKey (n : Int) : Nat := Nat.pair n.natAbs (if n < 0 then 1 else 0)

mutual
/-- `impl Hash for Expr` (expr/mod.rs 1905), modelled as the stream of hasher
writes: the discriminant byte (`Expr::tag`) followed by the field hashes;
`Float` writes its `to_bits` encoding (`F64.keyNat`). -/
def exprHash : Expr → List Nat
  | .path segments => 0 :: segments.length :: (segments.map segHashStream).flatten
  | .string s => 1 :: stringHashStream s
  | .integer n => [2, intKey n]
  | .float f => [3, f.keyNat]
  | .boolean b => [4, if b then 1 else 0]
  | .null => [5]
  | .concat elems => 6 :: exprHashList elems
  | .neg a => 7 :: exprHash a
  | .add a b => 8 :: (exprHash a ++ exprHash b)
  | .sub a b => 9 :: (exprHash a ++ exprHash b)
  | .mul a b => 10 :: (exprHash a ++ exprHash b)
  | .div a b => 11 :: (exprHash a ++ exprHash b)
  | .not a => 12 :: exprHash a
  | .and a b => 13 :: (exprHash a ++ exprHash b)
  | .or a b => 14 :: (exprHash a ++ exprHash b)
  | .startsWith a b => 15 :: (exprHash a ++ exprHash b)
  | .endsWith a b => 16 :: (exprHash a ++ exprHash b)
  | .containsOp a b => 17 :: (exprHash a ++ exprHash b)
  | .eq a b => 18 :: (exprHash a ++ exprHash b)
  | .ne a b => 19 :: (exprHash a ++ exprHash b)
  | .gt a b => 20 :: (exprHash a ++ exprHash b)
  | .ge a b => 21 :: (exprHash a ++ exprHash b)
  | .lt a b => 22 :: (exprHash a ++ exprHash b)
  | .le a b => 23 :: (exprHash a ++ exprHash b)
  | .root => [24]
  | .current => [25]
  | .parent => [26]
  | .all => [27]
  | .ancestors min_ max_ => 28 :: (exprHash min_ ++ exprHash max_)
  | .descendants min_ max_ => 29 :: (exprHash min_ ++ exprHash max_)
  | .attr a => [30, attrTag a]
  | .property id => 31 :: identHashStream id
  | .propertyExpr e => 32 :: exprHash e
  | .index i => [33, intKey i]
  | .indexExpr e => 34 :: exprHash e
  | .range s p t => 35 :: (exprHashOpt s ++ exprHashOpt p ++ exprHashOpt t)
  | .group elems => 36 :: exprHashList elems
  | .sequence elems => 37 :: exprHashList elems
  | .methodCall id args => 38 :: (stringHashStream id ++ exprHashList args)
  | .funcCall id args => 39 :: (stringHashStream id ++ exprHashList args)
  | .var id => 40 :: identHashStream id
  | .varExpr e => 41 :: exprHash e
  | .env id => 42 :: identHashStream id
  | .envExpr e => 43 :: exprHash e

/-- Hash stream of a `Vec<Expr>` (length, then each element). -/
def exprHashList (elems : List Expr) : List Nat :=
  elems.length :: exprHashFlat elems

/-- The concatenated element hash streams of a `Vec<Expr>`. -/
def exprHashFlat : List Expr → List Nat
  | [] => []
  | e :: es => exprHash e ++ exprHashFlat es

/-- Hash stream of an `Option<Expr>` (discriminant, then the value). -/
def exprHashOpt : Option Expr → List Nat
  | none => [0]
  | some e => 1 :: exprHash e
end

/-- Split a true Boolean conjunction. -/
theorem bandElim {a b : Bool} (h : (a && b) = true) : a = true ∧ b = true := by
  cases a <;> cases b <;> simp_all

/-- Induction hypothesis for the soundness of `exprEq`, indexed by a size
bound on the first expression. -/
def exprEqIH (n : Nat) : Prop :=
  ∀ e1 e2 : Expr, sizeOf e1 < n → exprEq e1 e2 = true → e1 = e2

/-- Soundness of `exprEqList`, given soundness below the size bound. -/
def exprEqSndList (n : Nat) (ih : exprEqIH n) :
    (l1 l2 : List Expr) → sizeOf l1 ≤ n → exprEqList l1 l2 = true → l1 = l2
  | [], [], _, _ => rfl
  | a :: as_, b :: bs, hsz, h => by
    have hh : (exprEq a b && exprEqList as_ bs) = true := h
    obtain ⟨h1, h2⟩ := bandElim hh
    simp only [List.cons.sizeOf_spec] at hsz
    rw [ih a b (by omega) h1, exprEqSndList n ih as_ bs (by omega) h2]
  | [], _ :: _, _, h => nomatch h
  | _ :: _, [], _, h => nomatch h

/-- Soundness of `exprEqOpt`, given soundness below the size bound. -/
def exprEqSndOpt (n : Nat) (ih : exprEqIH n) :
    (o1 o2 : Option Expr) → sizeOf o1 ≤ n → exprEqOpt o1 o2 = true → o1 = o2
  | none, none, _, _ => rfl
  | some a, some b, hsz, h => by
    have hh : exprEq a b = true := h
    simp only [Option.some.sizeOf_spec] at hsz
    exact congrArg some (ih a b (by omega) hh)
  | none, some _, _, h => nomatch h
  | some _, none, _, h => nomatch h

/-- Soundness of `exprEq` at a first argument built by `path`. -/
def exprEqSndPath (n : Nat) (ih : exprEqIH n) (x0 : List PathSegment)
    (hsz : sizeOf (Expr.path x0) ≤ n) :
    (e2 : Expr) → exprEq (.path x0) e2 = true → Expr.path x0 = e2
  | .path y0, h => congrArg Expr.path (eq_of_beq h)
  | .string _, h => nomatch h
  | .integer _, h => nomatch h
  | .float _, h => nomatch h
  | .boolean _, h => nomatch h
  | .null, h => nomatch h
  | .concat _, h => nomatch h
  | .neg _, h => nomatch h
  | .add _ _, h => nomatch h
  | .sub _ _, h => nomatch h
  | .mul _ _, h => nomatch h
  | .div _ _, h => nomatch h
  | .not _, h => nomatch h
  | .and _ _, h => nomatch h
  | .or _ _, h => nomatch h
  | .startsWith _ _, h => nomatch h
  | .endsWith _ _, h => nomatch h
  | .containsOp _ _, h => nomatch h
  | .eq _ _, h => nomatch h
  | .ne _ _, h => nomatch h
  | .gt _ _, h => nomatch h
  | .ge _ _, h => nomatch h
  | .lt _ _, h => nomatch h
  | .le _ _, h => nomatch h
  | .root, h => nomatch h
  | .current, h => nomatch h
  | .parent, h => nomatch h
  | .all, h => nomatch h
  | .ancestors _ _, h => nomatch h
  | .descendants _ _, h => nomatch h
  | .attr _, h => nomatch h
  | .property _, h => nomatch h
  | .propertyExpr _, h => nomatch h
  | .index _, h => nomatch h
  | .indexExpr _, h => nomatch h
  | .range _ _ _, h => nomatch h
  | .group _, h => nomatch h
  | .sequence _, h => nomatch h
  | .methodCall _ _, h => nomatch h
  | .funcCall _ _, h => nomatch h
  | .var _, h => nomatch h
  | .varExpr _, h => nomatch h
  | .env _, h => nomatch h
  | .envExpr _, h => nomatch h

/-- Soundness of `exprEq` at a first argument built by `string`. -/
def exprEqSndString (n : Nat) (ih : exprEqIH n) (x0 : String)
    (hsz : sizeOf (Expr.string x0) ≤ n) :
    (e2 : Expr) → exprEq (.string x0) e2 = true → Expr.string x0 = e2
  | .string y0, h => congrArg Expr.string (eq_of_beq h)
  | .path _, h => nomatch h
  | .integer _, h => nomatch h
  | .float _, h => nomatch h
  | .boolean _, h => nomatch h
  | .null, h => nomatch h
  | .concat _, h => nomatch h
  | .neg _, h => nomatch h
  | .add _ _, h => nomatch h
  | .sub _ _, h => nomatch h
  | .mul _ _, h => nomatch h
  | .div _ _, h => nomatch h
  | .not _, h => nomatch h
  | .and _ _, h => nomatch h
  | .or _ _, h => nomatch h
  | .startsWith _ _, h => nomatch h
  | .endsWith _ _, h => nomatch h
  | .containsOp _ _, h => nomatch h
  | .eq _ _, h => nomatch h
  | .ne _ _, h => nomatch h
  | .gt _ _, h => nomatch h
  | .ge _ _, h => nomatch h
  | .lt _ _, h => nomatch h
  | .le _ _, h => nomatch h
  | .root, h => nomatch h
  | .current, h => nomatch h
  | .parent, h => nomatch h
  | .all, h => nomatch h
  | .ancestors _ _, h => nomatch h
  | .descendants _ _, h => nomatch h
  | .attr _, h => nomatch h
  | .property _, h => nomatch h
  | .propertyExpr _, h => nomatch h
  | .index _, h => nomatch h
  | .indexExpr _, h => nomatch h
  | .range _ _ _, h => nomatch h
  | .group _, h => nomatch h
  | .sequence _, h => nomatch h
  | .methodCall _ _, h => nomatch h
  | .funcCall _ _, h => nomatch h
  | .var _, h => nomatch h
  | .varExpr _, h => nomatch h
  | .env _, h => nomatch h
  | .envExpr _, h => nomatch h

/-- Soundness of `exprEq` at a first argument built by `integer`. -/
def exprEqSndInteger (n : Nat) (ih : exprEqIH n) (x0 : Int)
    (hsz : sizeOf (Expr.integer x0) ≤ n) :
    (e2 : Expr) → exprEq (.integer x0) e2 = true → Expr.integer x0 = e2
  | .integer y0, h => congrArg Expr.integer (eq_of_beq h)
  | .path _, h => nomatch h
  | .string _, h => nomatch h
  | .float _, h => nomatch h
  | .boolean _, h => nomatch h
  | .null, h => nomatch h
  | .concat _, h => nomatch h
  | .neg _, h => nomatch h
  | .add _ _, h => nomatch h
  | .sub _ _, h => nomatch h
  | .mul _ _, h => nomatch h
  | .div _ _, h => nomatch h
  | .not _, h => nomatch h
  | .and _ _, h => nomatch h
  | .or _ _, h => nomatch h
  | .startsWith _ _, h => nomatch h
  | .endsWith _ _, h => nomatch h
  | .containsOp _ _, h => nomatch h
  | .eq _ _, h => nomatch h
  | .ne _ _, h => nomatch h
  | .gt _ _, h => nomatch h
  | .ge _ _, h => nomatch h
  | .lt _ _, h => nomatch h
  | .le _ _, h => nomatch h
  | .root, h => nomatch h
  | .current, h => nomatch h
  | .parent, h => nomatch h
  | .all, h => nomatch h
  | .ancestors _ _, h => nomatch h
  | .descendants _ _, h => nomatch h
  | .attr _, h => nomatch h
  | .property _, h => nomatch h
  | .propertyExpr _, h => nomatch h
  | .index _, h => nomatch h
  | .indexExpr _, h => nomatch h
  | .range _ _ _, h => nomatch h
  | .group _, h => nomatch h
  | .sequence _, h => nomatch h
  | .methodCall _ _, h => nomatch h
  | .funcCall _ _, h => nomatch h
  | .var _, h => nomatch h
  | .varExpr _, h => nomatch h
  | .env _, h => nomatch h
  | .envExpr _, h => nomatch h

/-- Soundness of `exprEq` at a first argument built by `float`. -/
def exprEqSndFloat (n : Nat) (ih : exprEqIH n) (x0 : F64)
    (hsz : sizeOf (Expr.float x0) ≤ n) :
    (e2 : Expr) → exprEq (.float x0) e2 = true → Expr.float x0 = e2
  | .float y0, h => congrArg Expr.float (eq_of_beq h)
  | .path _, h => nomatch h
  | .string _, h => nomatch h
  | .integer _, h => nomatch h
  | .boolean _, h => nomatch h
  | .null, h => nomatch h
  | .concat _, h => nomatch h
  | .neg _, h => nomatch h
  | .add _ _, h => nomatch h
  | .sub _ _, h => nomatch h
  | .mul _ _, h => nomatch h
  | .div _ _, h => nomatch h
  | .not _, h => nomatch h
  | .and _ _, h => nomatch h
  | .or _ _, h => nomatch h
  | .startsWith _ _, h => nomatch h
  | .endsWith _ _, h => nomatch h
  | .containsOp _ _, h => nomatch h
  | .eq _ _, h => nomatch h
  | .ne _ _, h => nomatch h
  | .gt _ _, h => nomatch h
  | .ge _ _, h => nomatch h
  | .lt _ _, h => nomatch h
  | .le _ _, h => nomatch h
  | .root, h => nomatch h
  | .current, h => nomatch h
  | .parent, h => nomatch h
  | .all, h => nomatch h
  | .ancestors _ _, h => nomatch h
  | .descendants _ _, h => nomatch h
  | .attr _, h => nomatch h
  | .property _, h => nomatch h
  | .propertyExpr _, h => nomatch h
  | .index _, h => nomatch h
  | .indexExpr _, h => nomatch h
  | .range _ _ _, h => nomatch h
  | .group _, h => nomatch h
  | .sequence _, h => nomatch h
  | .methodCall _ _, h => nomatch h
  | .funcCall _ _, h => nomatch h
  | .var _, h => nomatch h
  | .varExpr _, h => nomatch h
  | .env _, h => nomatch h
  | .envExpr _, h => nomatch h

/-- Soundness of `exprEq` at a first argument built by `boolean`. -/
def exprEqSndBoolean (n : Nat) (ih : exprEqIH n) (x0 : Bool)
    (hsz : sizeOf (Expr.boolean x0) ≤ n) :
    (e2 : Expr) → exprEq (.boolean x0) e2 = true → Expr.boolean x0 = e2
  | .boolean y0, h => congrArg Expr.boolean (eq_of_beq h)
  | .path _, h => nomatch h
  | .string _, h => nomatch h
  | .integer _, h => nomatch h
  | .float _, h => nomatch h
  | .null, h => nomatch h
  | .concat _, h => nomatch h
  | .neg _, h => nomatch h
  | .add _ _, h => nomatch h
  | .sub _ _, h => nomatch h
  | .mul _ _, h => nomatch h
  | .div _ _, h => nomatch h
  | .not _, h => nomatch h
  | .and _ _, h => nomatch h
  | .or _ _, h => nomatch h
  | .startsWith _ _, h => nomatch h
  | .endsWith _ _, h => nomatch h
  | .containsOp _ _, h => nomatch h
  | .eq _ _, h => nomatch h
  | .ne _ _, h => nomatch h
  | .gt _ _, h => nomatch h
  | .ge _ _, h => nomatch h
  | .lt _ _, h => nomatch h
  | .le _ _, h => nomatch h
  | .root, h => nomatch h
  | .current, h => nomatch h
  | .parent, h => nomatch h
  | .all, h => nomatch h
  | .ancestors _ _, h => nomatch h
  | .descendants _ _, h => nomatch h
  | .attr _, h => nomatch h
  | .property _, h => nomatch h
  | .propertyExpr _, h => nomatch h
  | .index _, h => nomatch h
  | .indexExpr _, h => nomatch h
  | .range _ _ _, h => nomatch h
  | .group _, h => nomatch h
  | .sequence _, h => nomatch h
  | .methodCall _ _, h => nomatch h
  | .funcCall _ _, h => nomatch h
  | .var _, h => nomatch h
  | .varExpr _, h => nomatch h
  | .env _, h => nomatch h
  | .envExpr _, h => nomatch h

/-- Soundness of `exprEq` at a first argument built by `null`. -/
def exprEqSndNull (n : Nat) (ih : exprEqIH n)
    (hsz : sizeOf (Expr.null) ≤ n) :
    (e2 : Expr) → exprEq (.null) e2 = true → Expr.null = e2
  | .null, _ => rfl
  | .path _, h => nomatch h
  | .string _, h => nomatch h
  | .integer _, h => nomatch h
  | .float _, h => nomatch h
  | .boolean _, h => nomatch h
  | .concat _, h => nomatch h
  | .neg _, h => nomatch h
  | .add _ _, h => nomatch h
  | .sub _ _, h => nomatch h
  | .mul _ _, h => nomatch h
  | .div _ _, h => nomatch h
  | .not _, h => nomatch h
  | .and _ _, h => nomatch h
  | .or _ _, h => nomatch h
  | .startsWith _ _, h => nomatch h
  | .endsWith _ _, h => nomatch h
  | .containsOp _ _, h => nomatch h
  | .eq _ _, h => nomatch h
  | .ne _ _, h => nomatch h
  | .gt _ _, h => nomatch h
  | .ge _ _, h => nomatch h
  | .lt _ _, h => nomatch h
  | .le _ _, h => nomatch h
  | .root, h => nomatch h
  | .current, h => nomatch h
  | .parent, h => nomatch h
  | .all, h => nomatch h
  | .ancestors _ _, h => nomatch h
  | .descendants _ _, h => nomatch h
  | .attr _, h => nomatch h
  | .property _, h => nomatch h
  | .propertyExpr _, h => nomatch h
  | .index _, h => nomatch h
  | .indexExpr _, h => nomatch h
  | .range _ _ _, h => nomatch h
  | .group _, h => nomatch h
  | .sequence _, h => nomatch h
  | .methodCall _ _, h => nomatch h
  | .funcCall _ _, h => nomatch h
  | .var _, h => nomatch h
  | .varExpr _, h => nomatch h
  | .env _, h => nomatch h
  | .envExpr _, h => nomatch h

/-- Soundness of `exprEq` at a first argument built by `concat`. -/
def exprEqSndConcat (n : Nat) (ih : exprEqIH n) (x0 : List Expr)
    (hsz : sizeOf (Expr.concat x0) ≤ n) :
    (e2 : Expr) → exprEq (.concat x0) e2 = true → Expr.concat x0 = e2
  | .concat y0, h => by
    have hh : exprEqList x0 y0 = true := h
    simp only [Expr.concat.sizeOf_spec] at hsz
    exact congrArg Expr.concat (exprEqSndList n ih x0 y0 (by omega) hh)
  | .path _, h => nomatch h
  | .string _, h => nomatch h
  | .integer _, h => nomatch h
  | .float _, h => nomatch h
  | .boolean _, h => nomatch h
  | .null, h => nomatch h
  | .neg _, h => nomatch h
  | .add _ _, h => nomatch h
  | .sub _ _, h => nomatch h
  | .mul _ _, h => nomatch h
  | .div _ _, h => nomatch h
  | .not _, h => nomatch h
  | .and _ _, h => nomatch h
  | .or _ _, h => nomatch h
  | .startsWith _ _, h => nomatch h
  | .endsWith _ _, h => nomatch h
  | .containsOp _ _, h => nomatch h
  | .eq _ _, h => nomatch h
  | .ne _ _, h => nomatch h
  | .gt _ _, h => nomatch h
  | .ge _ _, h => nomatch h
  | .lt _ _, h => nomatch h
  | .le _ _, h => nomatch h
  | .root, h => nomatch h
  | .current, h => nomatch h
  | .parent, h => nomatch h
  | .all, h => nomatch h
  | .ancestors _ _, h => nomatch h
  | .descendants _ _, h => nomatch h
  | .attr _, h => nomatch h
  | .property _, h => nomatch h
  | .propertyExpr _, h => nomatch h
  | .index _, h => nomatch h
  | .indexExpr _, h => nomatch h
  | .range _ _ _, h => nomatch h
  | .group _, h => nomatch h
  | .sequence _, h => nomatch h
  | .methodCall _ _, h => nomatch h
  | .funcCall _ _, h => nomatch h
  | .var _, h => nomatch h
  | .varExpr _, h => nomatch h
  | .env _, h => nomatch h
  | .envExpr _, h => nomatch h

/-- Soundness of `exprEq` at a first argument built by `neg`. -/
def exprEqSndNeg (n : Nat) (ih : exprEqIH n) (x0 : Expr)
    (hsz : sizeOf (Expr.neg x0) ≤ n) :
    (e2 : Expr) → exprEq (.neg x0) e2 = true → Expr.neg x0 = e2
  | .neg y0, h => by
    have hh : exprEq x0 y0 = true := h
    simp only [Expr.neg.sizeOf_spec] at hsz
    exact congrArg Expr.neg (ih x0 y0 (by omega) hh)
  | .path _, h => nomatch h
  | .string _, h => nomatch h
  | .integer _, h => nomatch h
  | .float _, h => nomatch h
  | .boolean _, h => nomatch h
  | .null, h => nomatch h
  | .concat _, h => nomatch h
  | .add _ _, h => nomatch h
  | .sub _ _, h => nomatch h
  | .mul _ _, h => nomatch h
  | .div _ _, h => nomatch h
  | .not _, h => nomatch h
  | .and _ _, h => nomatch h
  | .or _ _, h => nomatch h
  | .startsWith _ _, h => nomatch h
  | .endsWith _ _, h => nomatch h
  | .containsOp _ _, h => nomatch h
  | .eq _ _, h => nomatch h
  | .ne _ _, h => nomatch h
  | .gt _ _, h => nomatch h
  | .ge _ _, h => nomatch h
  | .lt _ _, h => nomatch h
  | .le _ _, h => nomatch h
  | .root, h => nomatch h
  | .current, h => nomatch h
  | .parent, h => nomatch h
  | .all, h => nomatch h
  | .ancestors _ _, h => nomatch h
  | .descendants _ _, h => nomatch h
  | .attr _, h => nomatch h
  | .property _, h => nomatch h
  | .propertyExpr _, h => nomatch h
  | .index _, h => nomatch h
  | .indexExpr _, h => nomatch h
  | .range _ _ _, h => nomatch h
  | .group _, h => nomatch h
  | .sequence _, h => nomatch h
  | .methodCall _ _, h => nomatch h
  | .funcCall _ _, h => nomatch h
  | .var _, h => nomatch h
  | .varExpr _, h => nomatch h
  | .env _, h => nomatch h
  | .envExpr _, h => nomatch h

/-- Soundness of `exprEq` at a first argument built by `add`. -/
def exprEqSndAdd (n : Nat) (ih : exprEqIH n) (x0 : Expr) (x1 : Expr)
    (hsz : sizeOf (Expr.add x0 x1) ≤ n) :
    (e2 : Expr) → exprEq (.add x0 x1) e2 = true → Expr.add x0 x1 = e2
  | .add y0 y1, h => by
    have hh : (exprEq x0 y0 && exprEq x1 y1) = true := h
    obtain ⟨h1, h2⟩ := bandElim hh
    simp only [Expr.add.sizeOf_spec] at hsz
    rw [ih x0 y0 (by omega) h1, ih x1 y1 (by omega) h2]
  | .path _, h => nomatch h
  | .string _, h => nomatch h
  | .integer _, h => nomatch h
  | .float _, h => nomatch h
  | .boolean _, h => nomatch h
  | .null, h => nomatch h
  | .concat _, h => nomatch h
  | .neg _, h => nomatch h
  | .sub _ _, h => nomatch h
  | .mul _ _, h => nomatch h
  | .div _ _, h => nomatch h
  | .not _, h => nomatch h
  | .and _ _, h => nomatch h
  | .or _ _, h => nomatch h
  | .startsWith _ _, h => nomatch h
  | .endsWith _ _, h => nomatch h
  | .containsOp _ _, h => nomatch h
  | .eq _ _, h => nomatch h
  | .ne _ _, h => nomatch h
  | .gt _ _, h => nomatch h
  | .ge _ _, h => nomatch h
  | .lt _ _, h => nomatch h
  | .le _ _, h => nomatch h
  | .root, h => nomatch h
  | .current, h => nomatch h
  | .parent, h => nomatch h
  | .all, h => nomatch h
  | .ancestors _ _, h => nomatch h
  | .descendants _ _, h => nomatch h
  | .attr _, h => nomatch h
  | .property _, h => nomatch h
  | .propertyExpr _, h => nomatch h
  | .index _, h => nomatch h
  | .indexExpr _, h => nomatch h
  | .range _ _ _, h => nomatch h
  | .group _, h => nomatch h
  | .sequence _, h => nomatch h
  | .methodCall _ _, h => nomatch h
  | .funcCall _ _, h => nomatch h
  | .var _, h => nomatch h
  | .varExpr _, h => nomatch h
  | .env _, h => nomatch h
  | .envExpr _, h => nomatch h

/-- Soundness of `exprEq` at a first argument built by `sub`. -/
def exprEqSndSub (n : Nat) (ih : exprEqIH n) (x0 : Expr) (x1 : Expr)
    (hsz : sizeOf (Expr.sub x0 x1) ≤ n) :
    (e2 : Expr) → exprEq (.sub x0 x1) e2 = true → Expr.sub x0 x1 = e2
  | .sub y0 y1, h => by
    have hh : (exprEq x0 y0 && exprEq x1 y1) = true := h
    obtain ⟨h1, h2⟩ := bandElim hh
    simp only [Expr.sub.sizeOf_spec] at hsz
    rw [ih x0 y0 (by omega) h1, ih x1 y1 (by omega) h2]
  | .path _, h => nomatch h
  | .string _, h => nomatch h
  | .integer _, h => nomatch h
  | .float _, h => nomatch h
  | .boolean _, h => nomatch h
  | .null, h => nomatch h
  | .concat _, h => nomatch h
  | .neg _, h => nomatch h
  | .add _ _, h => nomatch h
  | .mul _ _, h => nomatch h
  | .div _ _, h => nomatch h
  | .not _, h => nomatch h
  | .and _ _, h => nomatch h
  | .or _ _, h => nomatch h
  | .startsWith _ _, h => nomatch h
  | .endsWith _ _, h => nomatch h
  | .containsOp _ _, h => nomatch h
  | .eq _ _, h => nomatch h
  | .ne _ _, h => nomatch h
  | .gt _ _, h => nomatch h
  | .ge _ _, h => nomatch h
  | .lt _ _, h => nomatch h
  | .le _ _, h => nomatch h
  | .root, h => nomatch h
  | .current, h => nomatch h
  | .parent, h => nomatch h
  | .all, h => nomatch h
  | .ancestors _ _, h => nomatch h
  | .descendants _ _, h => nomatch h
  | .attr _, h => nomatch h
  | .property _, h => nomatch h
  | .propertyExpr _, h => nomatch h
  | .index _, h => nomatch h
  | .indexExpr _, h => nomatch h
  | .range _ _ _, h => nomatch h
  | .group _, h => nomatch h
  | .sequence _, h => nomatch h
  | .methodCall _ _, h => nomatch h
  | .funcCall _ _, h => nomatch h
  | .var _, h => nomatch h
  | .varExpr _, h => nomatch h
  | .env _, h => nomatch h
  | .envExpr _, h => nomatch h

/-- Soundness of `exprEq` at a first argument built by `mul`. -/
def exprEqSndMul (n : Nat) (ih : exprEqIH n) (x0 : Expr) (x1 : Expr)
    (hsz : sizeOf (Expr.mul x0 x1) ≤ n) :
    (e2 : Expr) → exprEq (.mul x0 x1) e2 = true → Expr.mul x0 x1 = e2
  | .mul y0 y1, h => by
    have hh : (exprEq x0 y0 && exprEq x1 y1) = true := h
    obtain ⟨h1, h2⟩ := bandElim hh
    simp only [Expr.mul.sizeOf_spec] at hsz
    rw [ih x0 y0 (by omega) h1, ih x1 y1 (by omega) h2]
  | .path _, h => nomatch h
  | .string _, h => nomatch h
  | .integer _, h => nomatch h
  | .float _, h => nomatch h
  | .boolean _, h => nomatch h
  | .null, h => nomatch h
  | .concat _, h => nomatch h
  | .neg _, h => nomatch h
  | .add _ _, h => nomatch h
  | .sub _ _, h => nomatch h
  | .div _ _, h => nomatch h
  | .not _, h => nomatch h
  | .and _ _, h => nomatch h
  | .or _ _, h => nomatch h
  | .startsWith _ _, h => nomatch h
  | .endsWith _ _, h => nomatch h
  | .containsOp _ _, h => nomatch h
  | .eq _ _, h => nomatch h
  | .ne _ _, h => nomatch h
  | .gt _ _, h => nomatch h
  | .ge _ _, h => nomatch h
  | .lt _ _, h => nomatch h
  | .le _ _, h => nomatch h
  | .root, h => nomatch h
  | .current, h => nomatch h
  | .parent, h => nomatch h
  | .all, h => nomatch h
  | .ancestors _ _, h => nomatch h
  | .descendants _ _, h => nomatch h
  | .attr _, h => nomatch h
  | .property _, h => nomatch h
  | .propertyExpr _, h => nomatch h
  | .index _, h => nomatch h
  | .indexExpr _, h => nomatch h
  | .range _ _ _, h => nomatch h
  | .group _, h => nomatch h
  | .sequence _, h => nomatch h
  | .methodCall _ _, h => nomatch h
  | .funcCall _ _, h => nomatch h
  | .var _, h => nomatch h
  | .varExpr _, h => nomatch h
  | .env _, h => nomatch h
  | .envExpr _, h => nomatch h

/-- Soundness of `exprEq` at a first argument built by `div`. -/
def exprEqSndDiv (n : Nat) (ih : exprEqIH n) (x0 : Expr) (x1 : Expr)
    (hsz : sizeOf (Expr.div x0 x1) ≤ n) :
    (e2 : Expr) → exprEq (.div x0 x1) e2 = true → Expr.div x0 x1 = e2
  | .div y0 y1, h => by
    have hh : (exprEq x0 y0 && exprEq x1 y1) = true := h
    obtain ⟨h1, h2⟩ := bandElim hh
    simp only [Expr.div.sizeOf_spec] at hsz
    rw [ih x0 y0 (by omega) h1, ih x1 y1 (by omega) h2]
  | .path _, h => nomatch h
  | .string _, h => nomatch h
  | .integer _, h => nomatch h
  | .float _, h => nomatch h
  | .boolean _, h => nomatch h
  | .null, h => nomatch h
  | .concat _, h => nomatch h
  | .neg _, h => nomatch h
  | .add _ _, h => nomatch h
  | .sub _ _, h => nomatch h
  | .mul _ _, h => nomatch h
  | .not _, h => nomatch h
  | .and _ _, h => nomatch h
  | .or _ _, h => nomatch h
  | .startsWith _ _, h => nomatch h
  | .endsWith _ _, h => nomatch h
  | .containsOp _ _, h => nomatch h
  | .eq _ _, h => nomatch h
  | .ne _ _, h => nomatch h
  | .gt _ _, h => nomatch h
  | .ge _ _, h => nomatch h
  | .lt _ _, h => nomatch h
  | .le _ _, h => nomatch h
  | .root, h => nomatch h
  | .current, h => nomatch h
  | .parent, h => nomatch h
  | .all, h => nomatch h
  | .ancestors _ _, h => nomatch h
  | .descendants _ _, h => nomatch h
  | .attr _, h => nomatch h
  | .property _, h => nomatch h
  | .propertyExpr _, h => nomatch h
  | .index _, h => nomatch h
  | .indexExpr _, h => nomatch h
  | .range _ _ _, h => nomatch h
  | .group _, h => nomatch h
  | .sequence _, h => nomatch h
  | .methodCall _ _, h => nomatch h
  | .funcCall _ _, h => nomatch h
  | .var _, h => nomatch h
  | .varExpr _, h => nomatch h
  | .env _, h => nomatch h
  | .envExpr _, h => nomatch h

/-- Soundness of `exprEq` at a first argument built by `not`. -/
def exprEqSndNot (n : Nat) (ih : exprEqIH n) (x0 : Expr)
    (hsz : sizeOf (Expr.not x0) ≤ n) :
    (e2 : Expr) → exprEq (.not x0) e2 = true → Expr.not x0 = e2
  | .not y0, h => by
    have hh : exprEq x0 y0 = true := h
    simp only [Expr.not.sizeOf_spec] at hsz
    exact congrArg Expr.not (ih x0 y0 (by omega) hh)
  | .path _, h => nomatch h
  | .string _, h => nomatch h
  | .integer _, h => nomatch h
  | .float _, h => nomatch h
  | .boolean _, h => nomatch h
  | .null, h => nomatch h
  | .concat _, h => nomatch h
  | .neg _, h => nomatch h
  | .add _ _, h => nomatch h
  | .sub _ _, h => nomatch h
  | .mul _ _, h => nomatch h
  | .div _ _, h => nomatch h
  | .and _ _, h => nomatch h
  | .or _ _, h => nomatch h
  | .startsWith _ _, h => nomatch h
  | .endsWith _ _, h => nomatch h
  | .containsOp _ _, h => nomatch h
  | .eq _ _, h => nomatch h
  | .ne _ _, h => nomatch h
  | .gt _ _, h => nomatch h
  | .ge _ _, h => nomatch h
  | .lt _ _, h => nomatch h
  | .le _ _, h => nomatch h
  | .root, h => nomatch h
  | .current, h => nomatch h
  | .parent, h => nomatch h
  | .all, h => nomatch h
  | .ancestors _ _, h => nomatch h
  | .descendants _ _, h => nomatch h
  | .attr _, h => nomatch h
  | .property _, h => nomatch h
  | .propertyExpr _, h => nomatch h
  | .index _, h => nomatch h
  | .indexExpr _, h => nomatch h
  | .range _ _ _, h => nomatch h
  | .group _, h => nomatch h
  | .sequence _, h => nomatch h
  | .methodCall _ _, h => nomatch h
  | .funcCall _ _, h => nomatch h
  | .var _, h => nomatch h
  | .varExpr _, h => nomatch h
  | .env _, h => nomatch h
  | .envExpr _, h => nomatch h

/-- Soundness of `exprEq` at a first argument built by `and`. -/
def exprEqSndAnd (n : Nat) (ih : exprEqIH n) (x0 : Expr) (x1 : Expr)
    (hsz : sizeOf (Expr.and x0 x1) ≤ n) :
    (e2 : Expr) → exprEq (.and x0 x1) e2 = true → Expr.and x0 x1 = e2
  | .and y0 y1, h => by
    have hh : (exprEq x0 y0 && exprEq x1 y1) = true := h
    obtain ⟨h1, h2⟩ := bandElim hh
    simp only [Expr.and.sizeOf_spec] at hsz
    rw [ih x0 y0 (by omega) h1, ih x1 y1 (by omega) h2]
  | .path _, h => nomatch h
  | .string _, h => nomatch h
  | .integer _, h => nomatch h
  | .float _, h => nomatch h
  | .boolean _, h => nomatch h
  | .null, h => nomatch h
  | .concat _, h => nomatch h
  | .neg _, h => nomatch h
  | .add _ _, h => nomatch h
  | .sub _ _, h => nomatch h
  | .mul _ _, h => nomatch h
  | .div _ _, h => nomatch h
  | .not _, h => nomatch h
  | .or _ _, h => nomatch h
  | .startsWith _ _, h => nomatch h
  | .endsWith _ _, h => nomatch h
  | .containsOp _ _, h => nomatch h
  | .eq _ _, h => nomatch h
  | .ne _ _, h => nomatch h
  | .gt _ _, h => nomatch h
  | .ge _ _, h => nomatch h
  | .lt _ _, h => nomatch h
  | .le _ _, h => nomatch h
  | .root, h => nomatch h
  | .current, h => nomatch h
  | .parent, h => nomatch h
  | .all, h => nomatch h
  | .ancestors _ _, h => nomatch h
  | .descendants _ _, h => nomatch h
  | .attr _, h => nomatch h
  | .property _, h => nomatch h
  | .propertyExpr _, h => nomatch h
  | .index _, h => nomatch h
  | .indexExpr _, h => nomatch h
  | .range _ _ _, h => nomatch h
  | .group _, h => nomatch h
  | .sequence _, h => nomatch h
  | .methodCall _ _, h => nomatch h
  | .funcCall _ _, h => nomatch h
  | .var _, h => nomatch h
  | .varExpr _, h => nomatch h
  | .env _, h => nomatch h
  | .envExpr _, h => nomatch h

/-- Soundness of `exprEq` at a first argument built by `or`. -/
def exprEqSndOr (n : Nat) (ih : exprEqIH n) (x0 : Expr) (x1 : Expr)
    (hsz : sizeOf (Expr.or x0 x1) ≤ n) :
    (e2 : Expr) → exprEq (.or x0 x1) e2 = true → Expr.or x0 x1 = e2
  | .or y0 y1, h => by
    have hh : (exprEq x0 y0 && exprEq x1 y1) = true := h
    obtain ⟨h1, h2⟩ := bandElim hh
    simp only [Expr.or.sizeOf_spec] at hsz
    rw [ih x0 y0 (by omega) h1, ih x1 y1 (by omega) h2]
  | .path _, h => nomatch h
  | .string _, h => nomatch h
  | .integer _, h => nomatch h
  | .float _, h => nomatch h
  | .boolean _, h => nomatch h
  | .null, h => nomatch h
  | .concat _, h => nomatch h
  | .neg _, h => nomatch h
  | .add _ _, h => nomatch h
  | .sub _ _, h => nomatch h
  | .mul _ _, h => nomatch h
  | .div _ _, h => nomatch h
  | .not _, h => nomatch h
  | .and _ _, h => nomatch h
  | .startsWith _ _, h => nomatch h
  | .endsWith _ _, h => nomatch h
  | .containsOp _ _, h => nomatch h
  | .eq _ _, h => nomatch h
  | .ne _ _, h => nomatch h
  | .gt _ _, h => nomatch h
  | .ge _ _, h => nomatch h
  | .lt _ _, h => nomatch h
  | .le _ _, h => nomatch h
  | .root, h => nomatch h
  | .current, h => nomatch h
  | .parent, h => nomatch h
  | .all, h => nomatch h
  | .ancestors _ _, h => nomatch h
  | .descendants _ _, h => nomatch h
  | .attr _, h => nomatch h
  | .property _, h => nomatch h
  | .propertyExpr _, h => nomatch h
  | .index _, h => nomatch h
  | .indexExpr _, h => nomatch h
  | .range _ _ _, h => nomatch h
  | .group _, h => nomatch h
  | .sequence _, h => nomatch h
  | .methodCall _ _, h => nomatch h
  | .funcCall _ _, h => nomatch h
  | .var _, h => nomatch h
  | .varExpr _, h => nomatch h
  | .env _, h => nomatch h
  | .envExpr _, h => nomatch h

/-- Soundness of `exprEq` at a first argument built by `startsWith`. -/
def exprEqSndStartsWith (n : Nat) (ih : exprEqIH n) (x0 : Expr) (x1 : Expr)
    (hsz : sizeOf (Expr.startsWith x0 x1) ≤ n) :
    (e2 : Expr) → exprEq (.startsWith x0 x1) e2 = true → Expr.startsWith x0 x1 = e2
  | .startsWith y0 y1, h => by
    have hh : (exprEq x0 y0 && exprEq x1 y1) = true := h
    obtain ⟨h1, h2⟩ := bandElim hh
    simp only [Expr.startsWith.sizeOf_spec] at hsz
    rw [ih x0 y0 (by omega) h1, ih x1 y1 (by omega) h2]
  | .path _, h => nomatch h
  | .string _, h => nomatch h
  | .integer _, h => nomatch h
  | .float _, h => nomatch h
  | .boolean _, h => nomatch h
  | .null, h => nomatch h
  | .concat _, h => nomatch h
  | .neg _, h => nomatch h
  | .add _ _, h => nomatch h
  | .sub _ _, h => nomatch h
  | .mul _ _, h => nomatch h
  | .div _ _, h => nomatch h
  | .not _, h => nomatch h
  | .and _ _, h => nomatch h
  | .or _ _, h => nomatch h
  | .endsWith _ _, h => nomatch h
  | .containsOp _ _, h => nomatch h
  | .eq _ _, h => nomatch h
  | .ne _ _, h => nomatch h
  | .gt _ _, h => nomatch h
  | .ge _ _, h => nomatch h
  | .lt _ _, h => nomatch h
  | .le _ _, h => nomatch h
  | .root, h => nomatch h
  | .current, h => nomatch h
  | .parent, h => nomatch h
  | .all, h => nomatch h
  | .ancestors _ _, h => nomatch h
  | .descendants _ _, h => nomatch h
  | .attr _, h => nomatch h
  | .property _, h => nomatch h
  | .propertyExpr _, h => nomatch h
  | .index _, h => nomatch h
  | .indexExpr _, h => nomatch h
  | .range _ _ _, h => nomatch h
  | .group _, h => nomatch h
  | .sequence _, h => nomatch h
  | .methodCall _ _, h => nomatch h
  | .funcCall _ _, h => nomatch h
  | .var _, h => nomatch h
  | .varExpr _, h => nomatch h
  | .env _, h => nomatch h
  | .envExpr _, h => nomatch h

/-- Soundness of `exprEq` at a first argument built by `endsWith`. -/
def exprEqSndEndsWith (n : Nat) (ih : exprEqIH n) (x0 : Expr) (x1 : Expr)
    (hsz : sizeOf (Expr.endsWith x0 x1) ≤ n) :
    (e2 : Expr) → exprEq (.endsWith x0 x1) e2 = true → Expr.endsWith x0 x1 = e2
  | .endsWith y0 y1, h => by
    have hh : (exprEq x0 y0 && exprEq x1 y1) = true := h
    obtain ⟨h1, h2⟩ := bandElim hh
    simp only [Expr.endsWith.sizeOf_spec] at hsz
    rw [ih x0 y0 (by omega) h1, ih x1 y1 (by omega) h2]
  | .path _, h => nomatch h
  | .string _, h => nomatch h
  | .integer _, h => nomatch h
  | .float _, h => nomatch h
  | .boolean _, h => nomatch h
  | .null, h => nomatch h
  | .concat _, h => nomatch h
  | .neg _, h => nomatch h
  | .add _ _, h => nomatch h
  | .sub _ _, h => nomatch h
  | .mul _ _, h => nomatch h
  | .div _ _, h => nomatch h
  | .not _, h => nomatch h
  | .and _ _, h => nomatch h
  | .or _ _, h => nomatch h
  | .startsWith _ _, h => nomatch h
  | .containsOp _ _, h => nomatch h
  | .eq _ _, h => nomatch h
  | .ne _ _, h => nomatch h
  | .gt _ _, h => nomatch h
  | .ge _ _, h => nomatch h
  | .lt _ _, h => nomatch h
  | .le _ _, h => nomatch h
  | .root, h => nomatch h
  | .current, h => nomatch h
  | .parent, h => nomatch h
  | .all, h => nomatch h
  | .ancestors _ _, h => nomatch h
  | .descendants _ _, h => nomatch h
  | .attr _, h => nomatch h
  | .property _, h => nomatch h
  | .propertyExpr _, h => nomatch h
  | .index _, h => nomatch h
  | .indexExpr _, h => nomatch h
  | .range _ _ _, h => nomatch h
  | .group _, h => nomatch h
  | .sequence _, h => nomatch h
  | .methodCall _ _, h => nomatch h
  | .funcCall _ _, h => nomatch h
  | .var _, h => nomatch h
  | .varExpr _, h => nomatch h
  | .env _, h => nomatch h
  | .envExpr _, h => nomatch h

/-- Soundness of `exprEq` at a first argument built by `containsOp`. -/
def exprEqSndContainsOp (n : Nat) (ih : exprEqIH n) (x0 : Expr) (x1 : Expr)
    (hsz : sizeOf (Expr.containsOp x0 x1) ≤ n) :
    (e2 : Expr) → exprEq (.containsOp x0 x1) e2 = true → Expr.containsOp x0 x1 = e2
  | .containsOp y0 y1, h => by
    have hh : (exprEq x0 y0 && exprEq x1 y1) = true := h
    obtain ⟨h1, h2⟩ := bandElim hh
    simp only [Expr.containsOp.sizeOf_spec] at hsz
    rw [ih x0 y0 (by omega) h1, ih x1 y1 (by omega) h2]
  | .path _, h => nomatch h
  | .string _, h => nomatch h
  | .integer _, h => nomatch h
  | .float _, h => nomatch h
  | .boolean _, h => nomatch h
  | .null, h => nomatch h
  | .concat _, h => nomatch h
  | .neg _, h => nomatch h
  | .add _ _, h => nomatch h
  | .sub _ _, h => nomatch h
  | .mul _ _, h => nomatch h
  | .div _ _, h => nomatch h
  | .not _, h => nomatch h
  | .and _ _, h => nomatch h
  | .or _ _, h => nomatch h
  | .startsWith _ _, h => nomatch h
  | .endsWith _ _, h => nomatch h
  | .eq _ _, h => nomatch h
  | .ne _ _, h => nomatch h
  | .gt _ _, h => nomatch h
  | .ge _ _, h => nomatch h
  | .lt _ _, h => nomatch h
  | .le _ _, h => nomatch h
  | .root, h => nomatch h
  | .current, h => nomatch h
  | .parent, h => nomatch h
  | .all, h => nomatch h
  | .ancestors _ _, h => nomatch h
  | .descendants _ _, h => nomatch h
  | .attr _, h => nomatch h
  | .property _, h => nomatch h
  | .propertyExpr _, h => nomatch h
  | .index _, h => nomatch h
  | .indexExpr _, h => nomatch h
  | .range _ _ _, h => nomatch h
  | .group _, h => nomatch h
  | .sequence _, h => nomatch h
  | .methodCall _ _, h => nomatch h
  | .funcCall _ _, h => nomatch h
  | .var _, h => nomatch h
  | .varExpr _, h => nomatch h
  | .env _, h => nomatch h
  | .envExpr _, h => nomatch h

/-- Soundness of `exprEq` at a first argument built by `eq`. -/
def exprEqSndEq (n : Nat) (ih : exprEqIH n) (x0 : Expr) (x1 : Expr)
    (hsz : sizeOf (Expr.eq x0 x1) ≤ n) :
    (e2 : Expr) → exprEq (.eq x0 x1) e2 = true → Expr.eq x0 x1 = e2
  | .eq y0 y1, h => by
    have hh : (exprEq x0 y0 && exprEq x1 y1) = true := h
    obtain ⟨h1, h2⟩ := bandElim hh
    simp only [Expr.eq.sizeOf_spec] at hsz
    rw [ih x0 y0 (by omega) h1, ih x1 y1 (by omega) h2]
  | .path _, h => nomatch h
  | .string _, h => nomatch h
  | .integer _, h => nomatch h
  | .float _, h => nomatch h
  | .boolean _, h => nomatch h
  | .null, h => nomatch h
  | .concat _, h => nomatch h
  | .neg _, h => nomatch h
  | .add _ _, h => nomatch h
  | .sub _ _, h => nomatch h
  | .mul _ _, h => nomatch h
  | .div _ _, h => nomatch h
  | .not _, h => nomatch h
  | .and _ _, h => nomatch h
  | .or _ _, h => nomatch h
  | .startsWith _ _, h => nomatch h
  | .endsWith _ _, h => nomatch h
  | .containsOp _ _, h => nomatch h
  | .ne _ _, h => nomatch h
  | .gt _ _, h => nomatch h
  | .ge _ _, h => nomatch h
  | .lt _ _, h => nomatch h
  | .le _ _, h => nomatch h
  | .root, h => nomatch h
  | .current, h => nomatch h
  | .parent, h => nomatch h
  | .all, h => nomatch h
  | .ancestors _ _, h => nomatch h
  | .descendants _ _, h => nomatch h
  | .attr _, h => nomatch h
  | .property _, h => nomatch h
  | .propertyExpr _, h => nomatch h
  | .index _, h => nomatch h
  | .indexExpr _, h => nomatch h
  | .range _ _ _, h => nomatch h
  | .group _, h => nomatch h
  | .sequence _, h => nomatch h
  | .methodCall _ _, h => nomatch h
  | .funcCall _ _, h => nomatch h
  | .var _, h => nomatch h
  | .varExpr _, h => nomatch h
  | .env _, h => nomatch h
  | .envExpr _, h => nomatch h

/-- Soundness of `exprEq` at a first argument built by `ne`. -/
def exprEqSndNe (n : Nat) (ih : exprEqIH n) (x0 : Expr) (x1 : Expr)
    (hsz : sizeOf (Expr.ne x0 x1) ≤ n) :
    (e2 : Expr) → exprEq (.ne x0 x1) e2 = true → Expr.ne x0 x1 = e2
  | .ne y0 y1, h => by
    have hh : (exprEq x0 y0 && exprEq x1 y1) = true := h
    obtain ⟨h1, h2⟩ := bandElim hh
    simp only [Expr.ne.sizeOf_spec] at hsz
    rw [ih x0 y0 (by omega) h1, ih x1 y1 (by omega) h2]
  | .path _, h => nomatch h
  | .string _, h => nomatch h
  | .integer _, h => nomatch h
  | .float _, h => nomatch h
  | .boolean _, h => nomatch h
  | .null, h => nomatch h
  | .concat _, h => nomatch h
  | .neg _, h => nomatch h
  | .add _ _, h => nomatch h
  | .sub _ _, h => nomatch h
  | .mul _ _, h => nomatch h
  | .div _ _, h => nomatch h
  | .not _, h => nomatch h
  | .and _ _, h => nomatch h
  | .or _ _, h => nomatch h
  | .startsWith _ _, h => nomatch h
  | .endsWith _ _, h => nomatch h
  | .containsOp _ _, h => nomatch h
  | .eq _ _, h => nomatch h
  | .gt _ _, h => nomatch h
  | .ge _ _, h => nomatch h
  | .lt _ _, h => nomatch h
  | .le _ _, h => nomatch h
  | .root, h => nomatch h
  | .current, h => nomatch h
  | .parent, h => nomatch h
  | .all, h => nomatch h
  | .ancestors _ _, h => nomatch h
  | .descendants _ _, h => nomatch h
  | .attr _, h => nomatch h
  | .property _, h => nomatch h
  | .propertyExpr _, h => nomatch h
  | .index _, h => nomatch h
  | .indexExpr _, h => nomatch h
  | .range _ _ _, h => nomatch h
  | .group _, h => nomatch h
  | .sequence _, h => nomatch h
  | .methodCall _ _, h => nomatch h
  | .funcCall _ _, h => nomatch h
  | .var _, h => nomatch h
  | .varExpr _, h => nomatch h
  | .env _, h => nomatch h
  | .envExpr _, h => nomatch h

/-- Soundness of `exprEq` at a first argument built by `gt`. -/
def exprEqSndGt (n : Nat) (ih : exprEqIH n) (x0 : Expr) (x1 : Expr)
    (hsz : sizeOf (Expr.gt x0 x1) ≤ n) :
    (e2 : Expr) → exprEq (.gt x0 x1) e2 = true → Expr.gt x0 x1 = e2
  | .gt y0 y1, h => by
    have hh : (exprEq x0 y0 && exprEq x1 y1) = true := h
    obtain ⟨h1, h2⟩ := bandElim hh
    simp only [Expr.gt.sizeOf_spec] at hsz
    rw [ih x0 y0 (by omega) h1, ih x1 y1 (by omega) h2]
  | .path _, h => nomatch h
  | .string _, h => nomatch h
  | .integer _, h => nomatch h
  | .float _, h => nomatch h
  | .boolean _, h => nomatch h
  | .null, h => nomatch h
  | .concat _, h => nomatch h
  | .neg _, h => nomatch h
  | .add _ _, h => nomatch h
  | .sub _ _, h => nomatch h
  | .mul _ _, h => nomatch h
  | .div _ _, h => nomatch h
  | .not _, h => nomatch h
  | .and _ _, h => nomatch h
  | .or _ _, h => nomatch h
  | .startsWith _ _, h => nomatch h
  | .endsWith _ _, h => nomatch h
  | .containsOp _ _, h => nomatch h
  | .eq _ _, h => nomatch h
  | .ne _ _, h => nomatch h
  | .ge _ _, h => nomatch h
  | .lt _ _, h => nomatch h
  | .le _ _, h => nomatch h
  | .root, h => nomatch h
  | .current, h => nomatch h
  | .parent, h => nomatch h
  | .all, h => nomatch h
  | .ancestors _ _, h => nomatch h
  | .descendants _ _, h => nomatch h
  | .attr _, h => nomatch h
  | .property _, h => nomatch h
  | .propertyExpr _, h => nomatch h
  | .index _, h => nomatch h
  | .indexExpr _, h => nomatch h
  | .range _ _ _, h => nomatch h
  | .group _, h => nomatch h
  | .sequence _, h => nomatch h
  | .methodCall _ _, h => nomatch h
  | .funcCall _ _, h => nomatch h
  | .var _, h => nomatch h
  | .varExpr _, h => nomatch h
  | .env _, h => nomatch h
  | .envExpr _, h => nomatch h

/-- Soundness of `exprEq` at a first argument built by `ge`. -/
def exprEqSndGe (n : Nat) (ih : exprEqIH n) (x0 : Expr) (x1 : Expr)
    (hsz : sizeOf (Expr.ge x0 x1) ≤ n) :
    (e2 : Expr) → exprEq (.ge x0 x1) e2 = true → Expr.ge x0 x1 = e2
  | .ge y0 y1, h => by
    have hh : (exprEq x0 y0 && exprEq x1 y1) = true := h
    obtain ⟨h1, h2⟩ := bandElim hh
    simp only [Expr.ge.sizeOf_spec] at hsz
    rw [ih x0 y0 (by omega) h1, ih x1 y1 (by omega) h2]
  | .path _, h => nomatch h
  | .string _, h => nomatch h
  | .integer _, h => nomatch h
  | .float _, h => nomatch h
  | .boolean _, h => nomatch h
  | .null, h => nomatch h
  | .concat _, h => nomatch h
  | .neg _, h => nomatch h
  | .add _ _, h => nomatch h
  | .sub _ _, h => nomatch h
  | .mul _ _, h => nomatch h
  | .div _ _, h => nomatch h
  | .not _, h => nomatch h
  | .and _ _, h => nomatch h
  | .or _ _, h => nomatch h
  | .startsWith _ _, h => nomatch h
  | .endsWith _ _, h => nomatch h
  | .containsOp _ _, h => nomatch h
  | .eq _ _, h => nomatch h
  | .ne _ _, h => nomatch h
  | .gt _ _, h => nomatch h
  | .lt _ _, h => nomatch h
  | .le _ _, h => nomatch h
  | .root, h => nomatch h
  | .current, h => nomatch h
  | .parent, h => nomatch h
  | .all, h => nomatch h
  | .ancestors _ _, h => nomatch h
  | .descendants _ _, h => nomatch h
  | .attr _, h => nomatch h
  | .property _, h => nomatch h
  | .propertyExpr _, h => nomatch h
  | .index _, h => nomatch h
  | .indexExpr _, h => nomatch h
  | .range _ _ _, h => nomatch h
  | .group _, h => nomatch h
  | .sequence _, h => nomatch h
  | .methodCall _ _, h => nomatch h
  | .funcCall _ _, h => nomatch h
  | .var _, h => nomatch h
  | .varExpr _, h => nomatch h
  | .env _, h => nomatch h
  | .envExpr _, h => nomatch h

/-- Soundness of `exprEq` at a first argument built by `lt`. -/
def exprEqSndLt (n : Nat) (ih : exprEqIH n) (x0 : Expr) (x1 : Expr)
    (hsz : sizeOf (Expr.lt x0 x1) ≤ n) :
    (e2 : Expr) → exprEq (.lt x0 x1) e2 = true → Expr.lt x0 x1 = e2
  | .lt y0 y1, h => by
    have hh : (exprEq x0 y0 && exprEq x1 y1) = true := h
    obtain ⟨h1, h2⟩ := bandElim hh
    simp only [Expr.lt.sizeOf_spec] at hsz
    rw [ih x0 y0 (by omega) h1, ih x1 y1 (by omega) h2]
  | .path _, h => nomatch h
  | .string _, h => nomatch h
  | .integer _, h => nomatch h
  | .float _, h => nomatch h
  | .boolean _, h => nomatch h
  | .null, h => nomatch h
  | .concat _, h => nomatch h
  | .neg _, h => nomatch h
  | .add _ _, h => nomatch h
  | .sub _ _, h => nomatch h
  | .mul _ _, h => nomatch h
  | .div _ _, h => nomatch h
  | .not _, h => nomatch h
  | .and _ _, h => nomatch h
  | .or _ _, h => nomatch h
  | .startsWith _ _, h => nomatch h
  | .endsWith _ _, h => nomatch h
  | .containsOp _ _, h => nomatch h
  | .eq _ _, h => nomatch h
  | .ne _ _, h => nomatch h
  | .gt _ _, h => nomatch h
  | .ge _ _, h => nomatch h
  | .le _ _, h => nomatch h
  | .root, h => nomatch h
  | .current, h => nomatch h
  | .parent, h => nomatch h
  | .all, h => nomatch h
  | .ancestors _ _, h => nomatch h
  | .descendants _ _, h => nomatch h
  | .attr _, h => nomatch h
  | .property _, h => nomatch h
  | .propertyExpr _, h => nomatch h
  | .index _, h => nomatch h
  | .indexExpr _, h => nomatch h
  | .range _ _ _, h => nomatch h
  | .group _, h => nomatch h
  | .sequence _, h => nomatch h
  | .methodCall _ _, h => nomatch h
  | .funcCall _ _, h => nomatch h
  | .var _, h => nomatch h
  | .varExpr _, h => nomatch h
  | .env _, h => nomatch h
  | .envExpr _, h => nomatch h

/-- Soundness of `exprEq` at a first argument built by `le`. -/
def exprEqSndLe (n : Nat) (ih : exprEqIH n) (x0 : Expr) (x1 : Expr)
    (hsz : sizeOf (Expr.le x0 x1) ≤ n) :
    (e2 : Expr) → exprEq (.le x0 x1) e2 = true → Expr.le x0 x1 = e2
  | .le y0 y1, h => by
    have hh : (exprEq x0 y0 && exprEq x1 y1) = true := h
    obtain ⟨h1, h2⟩ := bandElim hh
    simp only [Expr.le.sizeOf_spec] at hsz
    rw [ih x0 y0 (by omega) h1, ih x1 y1 (by omega) h2]
  | .path _, h => nomatch h
  | .string _, h => nomatch h
  | .integer _, h => nomatch h
  | .float _, h => nomatch h
  | .boolean _, h => nomatch h
  | .null, h => nomatch h
  | .concat _, h => nomatch h
  | .neg _, h => nomatch h
  | .add _ _, h => nomatch h
  | .sub _ _, h => nomatch h
  | .mul _ _, h => nomatch h
  | .div _ _, h => nomatch h
  | .not _, h => nomatch h
  | .and _ _, h => nomatch h
  | .or _ _, h => nomatch h
  | .startsWith _ _, h => nomatch h
  | .endsWith _ _, h => nomatch h
  | .containsOp _ _, h => nomatch h
  | .eq _ _, h => nomatch h
  | .ne _ _, h => nomatch h
  | .gt _ _, h => nomatch h
  | .ge _ _, h => nomatch h
  | .lt _ _, h => nomatch h
  | .root, h => nomatch h
  | .current, h => nomatch h
  | .parent, h => nomatch h
  | .all, h => nomatch h
  | .ancestors _ _, h => nomatch h
  | .descendants _ _, h => nomatch h
  | .attr _, h => nomatch h
  | .property _, h => nomatch h
  | .propertyExpr _, h => nomatch h
  | .index _, h => nomatch h
  | .indexExpr _, h => nomatch h
  | .range _ _ _, h => nomatch h
  | .group _, h => nomatch h
  | .sequence _, h => nomatch h
  | .methodCall _ _, h => nomatch h
  | .funcCall _ _, h => nomatch h
  | .var _, h => nomatch h
  | .varExpr _, h => nomatch h
  | .env _, h => nomatch h
  | .envExpr _, h => nomatch h

/-- Soundness of `exprEq` at a first argument built by `root`. -/
def exprEqSndRoot (n : Nat) (ih : exprEqIH n)
    (hsz : sizeOf (Expr.root) ≤ n) :
    (e2 : Expr) → exprEq (.root) e2 = true → Expr.root = e2
  | .root, _ => rfl
  | .path _, h => nomatch h
  | .string _, h => nomatch h
  | .integer _, h => nomatch h
  | .float _, h => nomatch h
  | .boolean _, h => nomatch h
  | .null, h => nomatch h
  | .concat _, h => nomatch h
  | .neg _, h => nomatch h
  | .add _ _, h => nomatch h
  | .sub _ _, h => nomatch h
  | .mul _ _, h => nomatch h
  | .div _ _, h => nomatch h
  | .not _, h => nomatch h
  | .and _ _, h => nomatch h
  | .or _ _, h => nomatch h
  | .startsWith _ _, h => nomatch h
  | .endsWith _ _, h => nomatch h
  | .containsOp _ _, h => nomatch h
  | .eq _ _, h => nomatch h
  | .ne _ _, h => nomatch h
  | .gt _ _, h => nomatch h
  | .ge _ _, h => nomatch h
  | .lt _ _, h => nomatch h
  | .le _ _, h => nomatch h
  | .current, h => nomatch h
  | .parent, h => nomatch h
  | .all, h => nomatch h
  | .ancestors _ _, h => nomatch h
  | .descendants _ _, h => nomatch h
  | .attr _, h => nomatch h
  | .property _, h => nomatch h
  | .propertyExpr _, h => nomatch h
  | .index _, h => nomatch h
  | .indexExpr _, h => nomatch h
  | .range _ _ _, h => nomatch h
  | .group _, h => nomatch h
  | .sequence _, h => nomatch h
  | .methodCall _ _, h => nomatch h
  | .funcCall _ _, h => nomatch h
  | .var _, h => nomatch h
  | .varExpr _, h => nomatch h
  | .env _, h => nomatch h
  | .envExpr _, h => nomatch h

/-- Soundness of `exprEq` at a first argument built by `current`. -/
def exprEqSndCurrent (n : Nat) (ih : exprEqIH n)
    (hsz : sizeOf (Expr.current) ≤ n) :
    (e2 : Expr) → exprEq (.current) e2 = true → Expr.current = e2
  | .current, _ => rfl
  | .path _, h => nomatch h
  | .string _, h => nomatch h
  | .integer _, h => nomatch h
  | .float _, h => nomatch h
  | .boolean _, h => nomatch h
  | .null, h => nomatch h
  | .concat _, h => nomatch h
  | .neg _, h => nomatch h
  | .add _ _, h => nomatch h
  | .sub _ _, h => nomatch h
  | .mul _ _, h => nomatch h
  | .div _ _, h => nomatch h
  | .not _, h => nomatch h
  | .and _ _, h => nomatch h
  | .or _ _, h => nomatch h
  | .startsWith _ _, h => nomatch h
  | .endsWith _ _, h => nomatch h
  | .containsOp _ _, h => nomatch h
  | .eq _ _, h => nomatch h
  | .ne _ _, h => nomatch h
  | .gt _ _, h => nomatch h
  | .ge _ _, h => nomatch h
  | .lt _ _, h => nomatch h
  | .le _ _, h => nomatch h
  | .root, h => nomatch h
  | .parent, h => nomatch h
  | .all, h => nomatch h
  | .ancestors _ _, h => nomatch h
  | .descendants _ _, h => nomatch h
  | .attr _, h => nomatch h
  | .property _, h => nomatch h
  | .propertyExpr _, h => nomatch h
  | .index _, h => nomatch h
  | .indexExpr _, h => nomatch h
  | .range _ _ _, h => nomatch h
  | .group _, h => nomatch h
  | .sequence _, h => nomatch h
  | .methodCall _ _, h => nomatch h
  | .funcCall _ _, h => nomatch h
  | .var _, h => nomatch h
  | .varExpr _, h => nomatch h
  | .env _, h => nomatch h
  | .envExpr _, h => nomatch h

/-- Soundness of `exprEq` at a first argument built by `parent`. -/
def exprEqSndParent (n : Nat) (ih : exprEqIH n)
    (hsz : sizeOf (Expr.parent) ≤ n) :
    (e2 : Expr) → exprEq (.parent) e2 = true → Expr.parent = e2
  | .parent, _ => rfl
  | .path _, h => nomatch h
  | .string _, h => nomatch h
  | .integer _, h => nomatch h
  | .float _, h => nomatch h
  | .boolean _, h => nomatch h
  | .null, h => nomatch h
  | .concat _, h => nomatch h
  | .neg _, h => nomatch h
  | .add _ _, h => nomatch h
  | .sub _ _, h => nomatch h
  | .mul _ _, h => nomatch h
  | .div _ _, h => nomatch h
  | .not _, h => nomatch h
  | .and _ _, h => nomatch h
  | .or _ _, h => nomatch h
  | .startsWith _ _, h => nomatch h
  | .endsWith _ _, h => nomatch h
  | .containsOp _ _, h => nomatch h
  | .eq _ _, h => nomatch h
  | .ne _ _, h => nomatch h
  | .gt _ _, h => nomatch h
  | .ge _ _, h => nomatch h
  | .lt _ _, h => nomatch h
  | .le _ _, h => nomatch h
  | .root, h => nomatch h
  | .current, h => nomatch h
  | .all, h => nomatch h
  | .ancestors _ _, h => nomatch h
  | .descendants _ _, h => nomatch h
  | .attr _, h => nomatch h
  | .property _, h => nomatch h
  | .propertyExpr _, h => nomatch h
  | .index _, h => nomatch h
  | .indexExpr _, h => nomatch h
  | .range _ _ _, h => nomatch h
  | .group _, h => nomatch h
  | .sequence _, h => nomatch h
  | .methodCall _ _, h => nomatch h
  | .funcCall _ _, h => nomatch h
  | .var _, h => nomatch h
  | .varExpr _, h => nomatch h
  | .env _, h => nomatch h
  | .envExpr _, h => nomatch h

/-- Soundness of `exprEq` at a first argument built by `all`. -/
def exprEqSndAll (n : Nat) (ih : exprEqIH n)
    (hsz : sizeOf (Expr.all) ≤ n) :
    (e2 : Expr) → exprEq (.all) e2 = true → Expr.all = e2
  | .all, _ => rfl
  | .path _, h => nomatch h
  | .string _, h => nomatch h
  | .integer _, h => nomatch h
  | .float _, h => nomatch h
  | .boolean _, h => nomatch h
  | .null, h => nomatch h
  | .concat _, h => nomatch h
  | .neg _, h => nomatch h
  | .add _ _, h => nomatch h
  | .sub _ _, h => nomatch h
  | .mul _ _, h => nomatch h
  | .div _ _, h => nomatch h
  | .not _, h => nomatch h
  | .and _ _, h => nomatch h
  | .or _ _, h => nomatch h
  | .startsWith _ _, h => nomatch h
  | .endsWith _ _, h => nomatch h
  | .containsOp _ _, h => nomatch h
  | .eq _ _, h => nomatch h
  | .ne _ _, h => nomatch h
  | .gt _ _, h => nomatch h
  | .ge _ _, h => nomatch h
  | .lt _ _, h => nomatch h
  | .le _ _, h => nomatch h
  | .root, h => nomatch h
  | .current, h => nomatch h
  | .parent, h => nomatch h
  | .ancestors _ _, h => nomatch h
  | .descendants _ _, h => nomatch h
  | .attr _, h => nomatch h
  | .property _, h => nomatch h
  | .propertyExpr _, h => nomatch h
  | .index _, h => nomatch h
  | .indexExpr _, h => nomatch h
  | .range _ _ _, h => nomatch h
  | .group _, h => nomatch h
  | .sequence _, h => nomatch h
  | .methodCall _ _, h => nomatch h
  | .funcCall _ _, h => nomatch h
  | .var _, h => nomatch h
  | .varExpr _, h => nomatch h
  | .env _, h => nomatch h
  | .envExpr _, h => nomatch h

/-- Soundness of `exprEq` at a first argument built by `ancestors`. -/
def exprEqSndAncestors (n : Nat) (ih : exprEqIH n) (x0 : Expr) (x1 : Expr)
    (hsz : sizeOf (Expr.ancestors x0 x1) ≤ n) :
    (e2 : Expr) → exprEq (.ancestors x0 x1) e2 = true → Expr.ancestors x0 x1 = e2
  | .ancestors y0 y1, h => by
    have hh : (exprEq x0 y0 && exprEq x1 y1) = true := h
    obtain ⟨h1, h2⟩ := bandElim hh
    simp only [Expr.ancestors.sizeOf_spec] at hsz
    rw [ih x0 y0 (by omega) h1, ih x1 y1 (by omega) h2]
  | .path _, h => nomatch h
  | .string _, h => nomatch h
  | .integer _, h => nomatch h
  | .float _, h => nomatch h
  | .boolean _, h => nomatch h
  | .null, h => nomatch h
  | .concat _, h => nomatch h
  | .neg _, h => nomatch h
  | .add _ _, h => nomatch h
  | .sub _ _, h => nomatch h
  | .mul _ _, h => nomatch h
  | .div _ _, h => nomatch h
  | .not _, h => nomatch h
  | .and _ _, h => nomatch h
  | .or _ _, h => nomatch h
  | .startsWith _ _, h => nomatch h
  | .endsWith _ _, h => nomatch h
  | .containsOp _ _, h => nomatch h
  | .eq _ _, h => nomatch h
  | .ne _ _, h => nomatch h
  | .gt _ _, h => nomatch h
  | .ge _ _, h => nomatch h
  | .lt _ _, h => nomatch h
  | .le _ _, h => nomatch h
  | .root, h => nomatch h
  | .current, h => nomatch h
  | .parent, h => nomatch h
  | .all, h => nomatch h
  | .descendants _ _, h => nomatch h
  | .attr _, h => nomatch h
  | .property _, h => nomatch h
  | .propertyExpr _, h => nomatch h
  | .index _, h => nomatch h
  | .indexExpr _, h => nomatch h
  | .range _ _ _, h => nomatch h
  | .group _, h => nomatch h
  | .sequence _, h => nomatch h
  | .methodCall _ _, h => nomatch h
  | .funcCall _ _, h => nomatch h
  | .var _, h => nomatch h
  | .varExpr _, h => nomatch h
  | .env _, h => nomatch h
  | .envExpr _, h => nomatch h

/-- Soundness of `exprEq` at a first argument built by `descendants`. -/
def exprEqSndDescendants (n : Nat) (ih : exprEqIH n) (x0 : Expr) (x1 : Expr)
    (hsz : sizeOf (Expr.descendants x0 x1) ≤ n) :
    (e2 : Expr) → exprEq (.descendants x0 x1) e2 = true → Expr.descendants x0 x1 = e2
  | .descendants y0 y1, h => by
    have hh : (exprEq x0 y0 && exprEq x1 y1) = true := h
    obtain ⟨h1, h2⟩ := bandElim hh
    simp only [Expr.descendants.sizeOf_spec] at hsz
    rw [ih x0 y0 (by omega) h1, ih x1 y1 (by omega) h2]
  | .path _, h => nomatch h
  | .string _, h => nomatch h
  | .integer _, h => nomatch h
  | .float _, h => nomatch h
  | .boolean _, h => nomatch h
  | .null, h => nomatch h
  | .concat _, h => nomatch h
  | .neg _, h => nomatch h
  | .add _ _, h => nomatch h
  | .sub _ _, h => nomatch h
  | .mul _ _, h => nomatch h
  | .div _ _, h => nomatch h
  | .not _, h => nomatch h
  | .and _ _, h => nomatch h
  | .or _ _, h => nomatch h
  | .startsWith _ _, h => nomatch h
  | .endsWith _ _, h => nomatch h
  | .containsOp _ _, h => nomatch h
  | .eq _ _, h => nomatch h
  | .ne _ _, h => nomatch h
  | .gt _ _, h => nomatch h
  | .ge _ _, h => nomatch h
  | .lt _ _, h => nomatch h
  | .le _ _, h => nomatch h
  | .root, h => nomatch h
  | .current, h => nomatch h
  | .parent, h => nomatch h
  | .all, h => nomatch h
  | .ancestors _ _, h => nomatch h
  | .attr _, h => nomatch h
  | .property _, h => nomatch h
  | .propertyExpr _, h => nomatch h
  | .index _, h => nomatch h
  | .indexExpr _, h => nomatch h
  | .range _ _ _, h => nomatch h
  | .group _, h => nomatch h
  | .sequence _, h => nomatch h
  | .methodCall _ _, h => nomatch h
  | .funcCall _ _, h => nomatch h
  | .var _, h => nomatch h
  | .varExpr _, h => nomatch h
  | .env _, h => nomatch h
  | .envExpr _, h => nomatch h

/-- Soundness of `exprEq` at a first argument built by `attr`. -/
def exprEqSndAttr (n : Nat) (ih : exprEqIH n) (x0 : Attr)
    (hsz : sizeOf (Expr.attr x0) ≤ n) :
    (e2 : Expr) → exprEq (.attr x0) e2 = true → Expr.attr x0 = e2
  | .attr y0, h => congrArg Expr.attr (eq_of_beq h)
  | .path _, h => nomatch h
  | .string _, h => nomatch h
  | .integer _, h => nomatch h
  | .float _, h => nomatch h
  | .boolean _, h => nomatch h
  | .null, h => nomatch h
  | .concat _, h => nomatch h
  | .neg _, h => nomatch h
  | .add _ _, h => nomatch h
  | .sub _ _, h => nomatch h
  | .mul _ _, h => nomatch h
  | .div _ _, h => nomatch h
  | .not _, h => nomatch h
  | .and _ _, h => nomatch h
  | .or _ _, h => nomatch h
  | .startsWith _ _, h => nomatch h
  | .endsWith _ _, h => nomatch h
  | .containsOp _ _, h => nomatch h
  | .eq _ _, h => nomatch h
  | .ne _ _, h => nomatch h
  | .gt _ _, h => nomatch h
  | .ge _ _, h => nomatch h
  | .lt _ _, h => nomatch h
  | .le _ _, h => nomatch h
  | .root, h => nomatch h
  | .current, h => nomatch h
  | .parent, h => nomatch h
  | .all, h => nomatch h
  | .ancestors _ _, h => nomatch h
  | .descendants _ _, h => nomatch h
  | .property _, h => nomatch h
  | .propertyExpr _, h => nomatch h
  | .index _, h => nomatch h
  | .indexExpr _, h => nomatch h
  | .range _ _ _, h => nomatch h
  | .group _, h => nomatch h
  | .sequence _, h => nomatch h
  | .methodCall _ _, h => nomatch h
  | .funcCall _ _, h => nomatch h
  | .var _, h => nomatch h
  | .varExpr _, h => nomatch h
  | .env _, h => nomatch h
  | .envExpr _, h => nomatch h

/-- Soundness of `exprEq` at a first argument built by `property`. -/
def exprEqSndProperty (n : Nat) (ih : exprEqIH n) (x0 : Ident)
    (hsz : sizeOf (Expr.property x0) ≤ n) :
    (e2 : Expr) → exprEq (.property x0) e2 = true → Expr.property x0 = e2
  | .property y0, h => congrArg Expr.property (eq_of_beq h)
  | .path _, h => nomatch h
  | .string _, h => nomatch h
  | .integer _, h => nomatch h
  | .float _, h => nomatch h
  | .boolean _, h => nomatch h
  | .null, h => nomatch h
  | .concat _, h => nomatch h
  | .neg _, h => nomatch h
  | .add _ _, h => nomatch h
  | .sub _ _, h => nomatch h
  | .mul _ _, h => nomatch h
  | .div _ _, h => nomatch h
  | .not _, h => nomatch h
  | .and _ _, h => nomatch h
  | .or _ _, h => nomatch h
  | .startsWith _ _, h => nomatch h
  | .endsWith _ _, h => nomatch h
  | .containsOp _ _, h => nomatch h
  | .eq _ _, h => nomatch h
  | .ne _ _, h => nomatch h
  | .gt _ _, h => nomatch h
  | .ge _ _, h => nomatch h
  | .lt _ _, h => nomatch h
  | .le _ _, h => nomatch h
  | .root, h => nomatch h
  | .current, h => nomatch h
  | .parent, h => nomatch h
  | .all, h => nomatch h
  | .ancestors _ _, h => nomatch h
  | .descendants _ _, h => nomatch h
  | .attr _, h => nomatch h
  | .propertyExpr _, h => nomatch h
  | .index _, h => nomatch h
  | .indexExpr _, h => nomatch h
  | .range _ _ _, h => nomatch h
  | .group _, h => nomatch h
  | .sequence _, h => nomatch h
  | .methodCall _ _, h => nomatch h
  | .funcCall _ _, h => nomatch h
  | .var _, h => nomatch h
  | .varExpr _, h => nomatch h
  | .env _, h => nomatch h
  | .envExpr _, h => nomatch h

/-- Soundness of `exprEq` at a first argument built by `propertyExpr`. -/
def exprEqSndPropertyExpr (n : Nat) (ih : exprEqIH n) (x0 : Expr)
    (hsz : sizeOf (Expr.propertyExpr x0) ≤ n) :
    (e2 : Expr) → exprEq (.propertyExpr x0) e2 = true → Expr.propertyExpr x0 = e2
  | .propertyExpr y0, h => by
    have hh : exprEq x0 y0 = true := h
    simp only [Expr.propertyExpr.sizeOf_spec] at hsz
    exact congrArg Expr.propertyExpr (ih x0 y0 (by omega) hh)
  | .path _, h => nomatch h
  | .string _, h => nomatch h
  | .integer _, h => nomatch h
  | .float _, h => nomatch h
  | .boolean _, h => nomatch h
  | .null, h => nomatch h
  | .concat _, h => nomatch h
  | .neg _, h => nomatch h
  | .add _ _, h => nomatch h
  | .sub _ _, h => nomatch h
  | .mul _ _, h => nomatch h
  | .div _ _, h => nomatch h
  | .not _, h => nomatch h
  | .and _ _, h => nomatch h
  | .or _ _, h => nomatch h
  | .startsWith _ _, h => nomatch h
  | .endsWith _ _, h => nomatch h
  | .containsOp _ _, h => nomatch h
  | .eq _ _, h => nomatch h
  | .ne _ _, h => nomatch h
  | .gt _ _, h => nomatch h
  | .ge _ _, h => nomatch h
  | .lt _ _, h => nomatch h
  | .le _ _, h => nomatch h
  | .root, h => nomatch h
  | .current, h => nomatch h
  | .parent, h => nomatch h
  | .all, h => nomatch h
  | .ancestors _ _, h => nomatch h
  | .descendants _ _, h => nomatch h
  | .attr _, h => nomatch h
  | .property _, h => nomatch h
  | .index _, h => nomatch h
  | .indexExpr _, h => nomatch h
  | .range _ _ _, h => nomatch h
  | .group _, h => nomatch h
  | .sequence _, h => nomatch h
  | .methodCall _ _, h => nomatch h
  | .funcCall _ _, h => nomatch h
  | .var _, h => nomatch h
  | .varExpr _, h => nomatch h
  | .env _, h => nomatch h
  | .envExpr _, h => nomatch h

/-- Soundness of `exprEq` at a first argument built by `index`. -/
def exprEqSndIndex (n : Nat) (ih : exprEqIH n) (x0 : Int)
    (hsz : sizeOf (Expr.index x0) ≤ n) :
    (e2 : Expr) → exprEq (.index x0) e2 = true → Expr.index x0 = e2
  | .index y0, h => congrArg Expr.index (eq_of_beq h)
  | .path _, h => nomatch h
  | .string _, h => nomatch h
  | .integer _, h => nomatch h
  | .float _, h => nomatch h
  | .boolean _, h => nomatch h
  | .null, h => nomatch h
  | .concat _, h => nomatch h
  | .neg _, h => nomatch h
  | .add _ _, h => nomatch h
  | .sub _ _, h => nomatch h
  | .mul _ _, h => nomatch h
  | .div _ _, h => nomatch h
  | .not _, h => nomatch h
  | .and _ _, h => nomatch h
  | .or _ _, h => nomatch h
  | .startsWith _ _, h => nomatch h
  | .endsWith _ _, h => nomatch h
  | .containsOp _ _, h => nomatch h
  | .eq _ _, h => nomatch h
  | .ne _ _, h => nomatch h
  | .gt _ _, h => nomatch h
  | .ge _ _, h => nomatch h
  | .lt _ _, h => nomatch h
  | .le _ _, h => nomatch h
  | .root, h => nomatch h
  | .current, h => nomatch h
  | .parent, h => nomatch h
  | .all, h => nomatch h
  | .ancestors _ _, h => nomatch h
  | .descendants _ _, h => nomatch h
  | .attr _, h => nomatch h
  | .property _, h => nomatch h
  | .propertyExpr _, h => nomatch h
  | .indexExpr _, h => nomatch h
  | .range _ _ _, h => nomatch h
  | .group _, h => nomatch h
  | .sequence _, h => nomatch h
  | .methodCall _ _, h => nomatch h
  | .funcCall _ _, h => nomatch h
  | .var _, h => nomatch h
  | .varExpr _, h => nomatch h
  | .env _, h => nomatch h
  | .envExpr _, h => nomatch h

/-- Soundness of `exprEq` at a first argument built by `indexExpr`. -/
def exprEqSndIndexExpr (n : Nat) (ih : exprEqIH n) (x0 : Expr)
    (hsz : sizeOf (Expr.indexExpr x0) ≤ n) :
    (e2 : Expr) → exprEq (.indexExpr x0) e2 = true → Expr.indexExpr x0 = e2
  | .indexExpr y0, h => by
    have hh : exprEq x0 y0 = true := h
    simp only [Expr.indexExpr.sizeOf_spec] at hsz
    exact congrArg Expr.indexExpr (ih x0 y0 (by omega) hh)
  | .path _, h => nomatch h
  | .string _, h => nomatch h
  | .integer _, h => nomatch h
  | .float _, h => nomatch h
  | .boolean _, h => nomatch h
  | .null, h => nomatch h
  | .concat _, h => nomatch h
  | .neg _, h => nomatch h
  | .add _ _, h => nomatch h
  | .sub _ _, h => nomatch h
  | .mul _ _, h => nomatch h
  | .div _ _, h => nomatch h
  | .not _, h => nomatch h
  | .and _ _, h => nomatch h
  | .or _ _, h => nomatch h
  | .startsWith _ _, h => nomatch h
  | .endsWith _ _, h => nomatch h
  | .containsOp _ _, h => nomatch h
  | .eq _ _, h => nomatch h
  | .ne _ _, h => nomatch h
  | .gt _ _, h => nomatch h
  | .ge _ _, h => nomatch h
  | .lt _ _, h => nomatch h
  | .le _ _, h => nomatch h
  | .root, h => nomatch h
  | .current, h => nomatch h
  | .parent, h => nomatch h
  | .all, h => nomatch h
  | .ancestors _ _, h => nomatch h
  | .descendants _ _, h => nomatch h
  | .attr _, h => nomatch h
  | .property _, h => nomatch h
  | .propertyExpr _, h => nomatch h
  | .index _, h => nomatch h
  | .range _ _ _, h => nomatch h
  | .group _, h => nomatch h
  | .sequence _, h => nomatch h
  | .methodCall _ _, h => nomatch h
  | .funcCall _ _, h => nomatch h
  | .var _, h => nomatch h
  | .varExpr _, h => nomatch h
  | .env _, h => nomatch h
  | .envExpr _, h => nomatch h

/-- Soundness of `exprEq` at a first argument built by `range`. -/
def exprEqSndRange (n : Nat) (ih : exprEqIH n) (x0 : Option Expr) (x1 : Option Expr) (x2 : Option Expr)
    (hsz : sizeOf (Expr.range x0 x1 x2) ≤ n) :
    (e2 : Expr) → exprEq (.range x0 x1 x2) e2 = true → Expr.range x0 x1 x2 = e2
  | .range y0 y1 y2, h => by
    have hh : ((exprEqOpt x0 y0 && exprEqOpt x1 y1) && exprEqOpt x2 y2) = true := h
    obtain ⟨h12, h3⟩ := bandElim hh
    obtain ⟨h1, h2⟩ := bandElim h12
    simp only [Expr.range.sizeOf_spec] at hsz
    rw [exprEqSndOpt n ih x0 y0 (by omega) h1,
      exprEqSndOpt n ih x1 y1 (by omega) h2,
      exprEqSndOpt n ih x2 y2 (by omega) h3]
  | .path _, h => nomatch h
  | .string _, h => nomatch h
  | .integer _, h => nomatch h
  | .float _, h => nomatch h
  | .boolean _, h => nomatch h
  | .null, h => nomatch h
  | .concat _, h => nomatch h
  | .neg _, h => nomatch h
  | .add _ _, h => nomatch h
  | .sub _ _, h => nomatch h
  | .mul _ _, h => nomatch h
  | .div _ _, h => nomatch h
  | .not _, h => nomatch h
  | .and _ _, h => nomatch h
  | .or _ _, h => nomatch h
  | .startsWith _ _, h => nomatch h
  | .endsWith _ _, h => nomatch h
  | .containsOp _ _, h => nomatch h
  | .eq _ _, h => nomatch h
  | .ne _ _, h => nomatch h
  | .gt _ _, h => nomatch h
  | .ge _ _, h => nomatch h
  | .lt _ _, h => nomatch h
  | .le _ _, h => nomatch h
  | .root, h => nomatch h
  | .current, h => nomatch h
  | .parent, h => nomatch h
  | .all, h => nomatch h
  | .ancestors _ _, h => nomatch h
  | .descendants _ _, h => nomatch h
  | .attr _, h => nomatch h
  | .property _, h => nomatch h
  | .propertyExpr _, h => nomatch h
  | .index _, h => nomatch h
  | .indexExpr _, h => nomatch h
  | .group _, h => nomatch h
  | .sequence _, h => nomatch h
  | .methodCall _ _, h => nomatch h
  | .funcCall _ _, h => nomatch h
  | .var _, h => nomatch h
  | .varExpr _, h => nomatch h
  | .env _, h => nomatch h
  | .envExpr _, h => nomatch h

/-- Soundness of `exprEq` at a first argument built by `group`. -/
def exprEqSndGroup (n : Nat) (ih : exprEqIH n) (x0 : List Expr)
    (hsz : sizeOf (Expr.group x0) ≤ n) :
    (e2 : Expr) → exprEq (.group x0) e2 = true → Expr.group x0 = e2
  | .group y0, h => by
    have hh : exprEqList x0 y0 = true := h
    simp only [Expr.group.sizeOf_spec] at hsz
    exact congrArg Expr.group (exprEqSndList n ih x0 y0 (by omega) hh)
  | .path _, h => nomatch h
  | .string _, h => nomatch h
  | .integer _, h => nomatch h
  | .float _, h => nomatch h
  | .boolean _, h => nomatch h
  | .null, h => nomatch h
  | .concat _, h => nomatch h
  | .neg _, h => nomatch h
  | .add _ _, h => nomatch h
  | .sub _ _, h => nomatch h
  | .mul _ _, h => nomatch h
  | .div _ _, h => nomatch h
  | .not _, h => nomatch h
  | .and _ _, h => nomatch h
  | .or _ _, h => nomatch h
  | .startsWith _ _, h => nomatch h
  | .endsWith _ _, h => nomatch h
  | .containsOp _ _, h => nomatch h
  | .eq _ _, h => nomatch h
  | .ne _ _, h => nomatch h
  | .gt _ _, h => nomatch h
  | .ge _ _, h => nomatch h
  | .lt _ _, h => nomatch h
  | .le _ _, h => nomatch h
  | .root, h => nomatch h
  | .current, h => nomatch h
  | .parent, h => nomatch h
  | .all, h => nomatch h
  | .ancestors _ _, h => nomatch h
  | .descendants _ _, h => nomatch h
  | .attr _, h => nomatch h
  | .property _, h => nomatch h
  | .propertyExpr _, h => nomatch h
  | .index _, h => nomatch h
  | .indexExpr _, h => nomatch h
  | .range _ _ _, h => nomatch h
  | .sequence _, h => nomatch h
  | .methodCall _ _, h => nomatch h
  | .funcCall _ _, h => nomatch h
  | .var _, h => nomatch h
  | .varExpr _, h => nomatch h
  | .env _, h => nomatch h
  | .envExpr _, h => nomatch h

/-- Soundness of `exprEq` at a first argument built by `sequence`. -/
def exprEqSndSequence (n : Nat) (ih : exprEqIH n) (x0 : List Expr)
    (hsz : sizeOf (Expr.sequence x0) ≤ n) :
    (e2 : Expr) → exprEq (.sequence x0) e2 = true → Expr.sequence x0 = e2
  | .sequence y0, h => by
    have hh : exprEqList x0 y0 = true := h
    simp only [Expr.sequence.sizeOf_spec] at hsz
    exact congrArg Expr.sequence (exprEqSndList n ih x0 y0 (by omega) hh)
  | .path _, h => nomatch h
  | .string _, h => nomatch h
  | .integer _, h => nomatch h
  | .float _, h => nomatch h
  | .boolean _, h => nomatch h
  | .null, h => nomatch h
  | .concat _, h => nomatch h
  | .neg _, h => nomatch h
  | .add _ _, h => nomatch h
  | .sub _ _, h => nomatch h
  | .mul _ _, h => nomatch h
  | .div _ _, h => nomatch h
  | .not _, h => nomatch h
  | .and _ _, h => nomatch h
  | .or _ _, h => nomatch h
  | .startsWith _ _, h => nomatch h
  | .endsWith _ _, h => nomatch h
  | .containsOp _ _, h => nomatch h
  | .eq _ _, h => nomatch h
  | .ne _ _, h => nomatch h
  | .gt _ _, h => nomatch h
  | .ge _ _, h => nomatch h
  | .lt _ _, h => nomatch h
  | .le _ _, h => nomatch h
  | .root, h => nomatch h
  | .current, h => nomatch h
  | .parent, h => nomatch h
  | .all, h => nomatch h
  | .ancestors _ _, h => nomatch h
  | .descendants _ _, h => nomatch h
  | .attr _, h => nomatch h
  | .property _, h => nomatch h
  | .propertyExpr _, h => nomatch h
  | .index _, h => nomatch h
  | .indexExpr _, h => nomatch h
  | .range _ _ _, h => nomatch h
  | .group _, h => nomatch h
  | .methodCall _ _, h => nomatch h
  | .funcCall _ _, h => nomatch h
  | .var _, h => nomatch h
  | .varExpr _, h => nomatch h
  | .env _, h => nomatch h
  | .envExpr _, h => nomatch h

/-- Soundness of `exprEq` at a first argument built by `methodCall`. -/
def exprEqSndMethodCall (n : Nat) (ih : exprEqIH n) (x0 : String) (x1 : List Expr)
    (hsz : sizeOf (Expr.methodCall x0 x1) ≤ n) :
    (e2 : Expr) → exprEq (.methodCall x0 x1) e2 = true → Expr.methodCall x0 x1 = e2
  | .methodCall y0 y1, h => by
    have hh : ((x0 == y0) && exprEqList x1 y1) = true := h
    obtain ⟨h1, h2⟩ := bandElim hh
    simp only [Expr.methodCall.sizeOf_spec] at hsz
    rw [eq_of_beq h1, exprEqSndList n ih x1 y1 (by omega) h2]
  | .path _, h => nomatch h
  | .string _, h => nomatch h
  | .integer _, h => nomatch h
  | .float _, h => nomatch h
  | .boolean _, h => nomatch h
  | .null, h => nomatch h
  | .concat _, h => nomatch h
  | .neg _, h => nomatch h
  | .add _ _, h => nomatch h
  | .sub _ _, h => nomatch h
  | .mul _ _, h => nomatch h
  | .div _ _, h => nomatch h
  | .not _, h => nomatch h
  | .and _ _, h => nomatch h
  | .or _ _, h => nomatch h
  | .startsWith _ _, h => nomatch h
  | .endsWith _ _, h => nomatch h
  | .containsOp _ _, h => nomatch h
  | .eq _ _, h => nomatch h
  | .ne _ _, h => nomatch h
  | .gt _ _, h => nomatch h
  | .ge _ _, h => nomatch h
  | .lt _ _, h => nomatch h
  | .le _ _, h => nomatch h
  | .root, h => nomatch h
  | .current, h => nomatch h
  | .parent, h => nomatch h
  | .all, h => nomatch h
  | .ancestors _ _, h => nomatch h
  | .descendants _ _, h => nomatch h
  | .attr _, h => nomatch h
  | .property _, h => nomatch h
  | .propertyExpr _, h => nomatch h
  | .index _, h => nomatch h
  | .indexExpr _, h => nomatch h
  | .range _ _ _, h => nomatch h
  | .group _, h => nomatch h
  | .sequence _, h => nomatch h
  | .funcCall _ _, h => nomatch h
  | .var _, h => nomatch h
  | .varExpr _, h => nomatch h
  | .env _, h => nomatch h
  | .envExpr _, h => nomatch h

/-- Soundness of `exprEq` at a first argument built by `funcCall`. -/
def exprEqSndFuncCall (n : Nat) (ih : exprEqIH n) (x0 : String) (x1 : List Expr)
    (hsz : sizeOf (Expr.funcCall x0 x1) ≤ n) :
    (e2 : Expr) → exprEq (.funcCall x0 x1) e2 = true → Expr.funcCall x0 x1 = e2
  | .funcCall y0 y1, h => by
    have hh : ((x0 == y0) && exprEqList x1 y1) = true := h
    obtain ⟨h1, h2⟩ := bandElim hh
    simp only [Expr.funcCall.sizeOf_spec] at hsz
    rw [eq_of_beq h1, exprEqSndList n ih x1 y1 (by omega) h2]
  | .path _, h => nomatch h
  | .string _, h => nomatch h
  | .integer _, h => nomatch h
  | .float _, h => nomatch h
  | .boolean _, h => nomatch h
  | .null, h => nomatch h
  | .concat _, h => nomatch h
  | .neg _, h => nomatch h
  | .add _ _, h => nomatch h
  | .sub _ _, h => nomatch h
  | .mul _ _, h => nomatch h
  | .div _ _, h => nomatch h
  | .not _, h => nomatch h
  | .and _ _, h => nomatch h
  | .or _ _, h => nomatch h
  | .startsWith _ _, h => nomatch h
  | .endsWith _ _, h => nomatch h
  | .containsOp _ _, h => nomatch h
  | .eq _ _, h => nomatch h
  | .ne _ _, h => nomatch h
  | .gt _ _, h => nomatch h
  | .ge _ _, h => nomatch h
  | .lt _ _, h => nomatch h
  | .le _ _, h => nomatch h
  | .root, h => nomatch h
  | .current, h => nomatch h
  | .parent, h => nomatch h
  | .all, h => nomatch h
  | .ancestors _ _, h => nomatch h
  | .descendants _ _, h => nomatch h
  | .attr _, h => nomatch h
  | .property _, h => nomatch h
  | .propertyExpr _, h => nomatch h
  | .index _, h => nomatch h
  | .indexExpr _, h => nomatch h
  | .range _ _ _, h => nomatch h
  | .group _, h => nomatch h
  | .sequence _, h => nomatch h
  | .methodCall _ _, h => nomatch h
  | .var _, h => nomatch h
  | .varExpr _, h => nomatch h
  | .env _, h => nomatch h
  | .envExpr _, h => nomatch h

/-- Soundness of `exprEq` at a first argument built by `var`. -/
def exprEqSndVar (n : Nat) (ih : exprEqIH n) (x0 : Ident)
    (hsz : sizeOf (Expr.var x0) ≤ n) :
    (e2 : Expr) → exprEq (.var x0) e2 = true → Expr.var x0 = e2
  | .var y0, h => congrArg Expr.var (eq_of_beq h)
  | .path _, h => nomatch h
  | .string _, h => nomatch h
  | .integer _, h => nomatch h
  | .float _, h => nomatch h
  | .boolean _, h => nomatch h
  | .null, h => nomatch h
  | .concat _, h => nomatch h
  | .neg _, h => nomatch h
  | .add _ _, h => nomatch h
  | .sub _ _, h => nomatch h
  | .mul _ _, h => nomatch h
  | .div _ _, h => nomatch h
  | .not _, h => nomatch h
  | .and _ _, h => nomatch h
  | .or _ _, h => nomatch h
  | .startsWith _ _, h => nomatch h
  | .endsWith _ _, h => nomatch h
  | .containsOp _ _, h => nomatch h
  | .eq _ _, h => nomatch h
  | .ne _ _, h => nomatch h
  | .gt _ _, h => nomatch h
  | .ge _ _, h => nomatch h
  | .lt _ _, h => nomatch h
  | .le _ _, h => nomatch h
  | .root, h => nomatch h
  | .current, h => nomatch h
  | .parent, h => nomatch h
  | .all, h => nomatch h
  | .ancestors _ _, h => nomatch h
  | .descendants _ _, h => nomatch h
  | .attr _, h => nomatch h
  | .property _, h => nomatch h
  | .propertyExpr _, h => nomatch h
  | .index _, h => nomatch h
  | .indexExpr _, h => nomatch h
  | .range _ _ _, h => nomatch h
  | .group _, h => nomatch h
  | .sequence _, h => nomatch h
  | .methodCall _ _, h => nomatch h
  | .funcCall _ _, h => nomatch h
  | .varExpr _, h => nomatch h
  | .env _, h => nomatch h
  | .envExpr _, h => nomatch h

/-- Soundness of `exprEq` at a first argument built by `varExpr`. -/
def exprEqSndVarExpr (n : Nat) (ih : exprEqIH n) (x0 : Expr)
    (hsz : sizeOf (Expr.varExpr x0) ≤ n) :
    (e2 : Expr) → exprEq (.varExpr x0) e2 = true → Expr.varExpr x0 = e2
  | .varExpr y0, h => by
    have hh : exprEq x0 y0 = true := h
    simp only [Expr.varExpr.sizeOf_spec] at hsz
    exact congrArg Expr.varExpr (ih x0 y0 (by omega) hh)
  | .path _, h => nomatch h
  | .string _, h => nomatch h
  | .integer _, h => nomatch h
  | .float _, h => nomatch h
  | .boolean _, h => nomatch h
  | .null, h => nomatch h
  | .concat _, h => nomatch h
  | .neg _, h => nomatch h
  | .add _ _, h => nomatch h
  | .sub _ _, h => nomatch h
  | .mul _ _, h => nomatch h
  | .div _ _, h => nomatch h
  | .not _, h => nomatch h
  | .and _ _, h => nomatch h
  | .or _ _, h => nomatch h
  | .startsWith _ _, h => nomatch h
  | .endsWith _ _, h => nomatch h
  | .containsOp _ _, h => nomatch h
  | .eq _ _, h => nomatch h
  | .ne _ _, h => nomatch h
  | .gt _ _, h => nomatch h
  | .ge _ _, h => nomatch h
  | .lt _ _, h => nomatch h
  | .le _ _, h => nomatch h
  | .root, h => nomatch h
  | .current, h => nomatch h
  | .parent, h => nomatch h
  | .all, h => nomatch h
  | .ancestors _ _, h => nomatch h
  | .descendants _ _, h => nomatch h
  | .attr _, h => nomatch h
  | .property _, h => nomatch h
  | .propertyExpr _, h => nomatch h
  | .index _, h => nomatch h
  | .indexExpr _, h => nomatch h
  | .range _ _ _, h => nomatch h
  | .group _, h => nomatch h
  | .sequence _, h => nomatch h
  | .methodCall _ _, h => nomatch h
  | .funcCall _ _, h => nomatch h
  | .var _, h => nomatch h
  | .env _, h => nomatch h
  | .envExpr _, h => nomatch h

/-- Soundness of `exprEq` at a first argument built by `env`. -/
def exprEqSndEnv (n : Nat) (ih : exprEqIH n) (x0 : Ident)
    (hsz : sizeOf (Expr.env x0) ≤ n) :
    (e2 : Expr) → exprEq (.env x0) e2 = true → Expr.env x0 = e2
  | .env y0, h => congrArg Expr.env (eq_of_beq h)
  | .path _, h => nomatch h
  | .string _, h => nomatch h
  | .integer _, h => nomatch h
  | .float _, h => nomatch h
  | .boolean _, h => nomatch h
  | .null, h => nomatch h
  | .concat _, h => nomatch h
  | .neg _, h => nomatch h
  | .add _ _, h => nomatch h
  | .sub _ _, h => nomatch h
  | .mul _ _, h => nomatch h
  | .div _ _, h => nomatch h
  | .not _, h => nomatch h
  | .and _ _, h => nomatch h
  | .or _ _, h => nomatch h
  | .startsWith _ _, h => nomatch h
  | .endsWith _ _, h => nomatch h
  | .containsOp _ _, h => nomatch h
  | .eq _ _, h => nomatch h
  | .ne _ _, h => nomatch h
  | .gt _ _, h => nomatch h
  | .ge _ _, h => nomatch h
  | .lt _ _, h => nomatch h
  | .le _ _, h => nomatch h
  | .root, h => nomatch h
  | .current, h => nomatch h
  | .parent, h => nomatch h
  | .all, h => nomatch h
  | .ancestors _ _, h => nomatch h
  | .descendants _ _, h => nomatch h
  | .attr _, h => nomatch h
  | .property _, h => nomatch h
  | .propertyExpr _, h => nomatch h
  | .index _, h => nomatch h
  | .indexExpr _, h => nomatch h
  | .range _ _ _, h => nomatch h
  | .group _, h => nomatch h
  | .sequence _, h => nomatch h
  | .methodCall _ _, h => nomatch h
  | .funcCall _ _, h => nomatch h
  | .var _, h => nomatch h
  | .varExpr _, h => nomatch h
  | .envExpr _, h => nomatch h

/-- Soundness of `exprEq` at a first argument built by `envExpr`. -/
def exprEqSndEnvExpr (n : Nat) (ih : exprEqIH n) (x0 : Expr)
    (hsz : sizeOf (Expr.envExpr x0) ≤ n) :
    (e2 : Expr) → exprEq (.envExpr x0) e2 = true → Expr.envExpr x0 = e2
  | .envExpr y0, h => by
    have hh : exprEq x0 y0 = true := h
    simp only [Expr.envExpr.sizeOf_spec] at hsz
    exact congrArg Expr.envExpr (ih x0 y0 (by omega) hh)
  | .path _, h => nomatch h
  | .string _, h => nomatch h
  | .integer _, h => nomatch h
  | .float _, h => nomatch h
  | .boolean _, h => nomatch h
  | .null, h => nomatch h
  | .concat _, h => nomatch h
  | .neg _, h => nomatch h
  | .add _ _, h => nomatch h
  | .sub _ _, h => nomatch h
  | .mul _ _, h => nomatch h
  | .div _ _, h => nomatch h
  | .not _, h => nomatch h
  | .and _ _, h => nomatch h
  | .or _ _, h => nomatch h
  | .startsWith _ _, h => nomatch h
  | .endsWith _ _, h => nomatch h
  | .containsOp _ _, h => nomatch h
  | .eq _ _, h => nomatch h
  | .ne _ _, h => nomatch h
  | .gt _ _, h => nomatch h
  | .ge _ _, h => nomatch h
  | .lt _ _, h => nomatch h
  | .le _ _, h => nomatch h
  | .root, h => nomatch h
  | .current, h => nomatch h
  | .parent, h => nomatch h
  | .all, h => nomatch h
  | .ancestors _ _, h => nomatch h
  | .descendants _ _, h => nomatch h
  | .attr _, h => nomatch h
  | .property _, h => nomatch h
  | .propertyExpr _, h => nomatch h
  | .index _, h => nomatch h
  | .indexExpr _, h => nomatch h
  | .range _ _ _, h => nomatch h
  | .group _, h => nomatch h
  | .sequence _, h => nomatch h
  | .methodCall _ _, h => nomatch h
  | .funcCall _ _, h => nomatch h
  | .var _, h => nomatch h
  | .varExpr _, h => nomatch h
  | .env _, h => nomatch h

/-- Soundness of `exprEq` at every size bound. -/
def exprEqIHAll : ∀ n, exprEqIH n := by
  intro n
  induction n with
  | zero => intro e1 e2 hsz; exact absurd hsz (Nat.not_lt_zero _)
  | succ n ihn =>
    intro e1 e2 hsz h
    have hle : sizeOf e1 ≤ n := Nat.lt_succ_iff.mp hsz
    cases e1 with
    | path x0 => exact exprEqSndPath n ihn x0 hle e2 h
    | string x0 => exact exprEqSndString n ihn x0 hle e2 h
    | integer x0 => exact exprEqSndInteger n ihn x0 hle e2 h
    | float x0 => exact exprEqSndFloat n ihn x0 hle e2 h
    | boolean x0 => exact exprEqSndBoolean n ihn x0 hle e2 h
    | null => exact exprEqSndNull n ihn hle e2 h
    | concat x0 => exact exprEqSndConcat n ihn x0 hle e2 h
    | neg x0 => exact exprEqSndNeg n ihn x0 hle e2 h
    | add x0 x1 => exact exprEqSndAdd n ihn x0 x1 hle e2 h
    | sub x0 x1 => exact exprEqSndSub n ihn x0 x1 hle e2 h
    | mul x0 x1 => exact exprEqSndMul n ihn x0 x1 hle e2 h
    | div x0 x1 => exact exprEqSndDiv n ihn x0 x1 hle e2 h
    | not x0 => exact exprEqSndNot n ihn x0 hle e2 h
    | and x0 x1 => exact exprEqSndAnd n ihn x0 x1 hle e2 h
    | or x0 x1 => exact exprEqSndOr n ihn x0 x1 hle e2 h
    | startsWith x0 x1 => exact exprEqSndStartsWith n ihn x0 x1 hle e2 h
    | endsWith x0 x1 => exact exprEqSndEndsWith n ihn x0 x1 hle e2 h
    | containsOp x0 x1 => exact exprEqSndContainsOp n ihn x0 x1 hle e2 h
    | eq x0 x1 => exact exprEqSndEq n ihn x0 x1 hle e2 h
    | ne x0 x1 => exact exprEqSndNe n ihn x0 x1 hle e2 h
    | gt x0 x1 => exact exprEqSndGt n ihn x0 x1 hle e2 h
    | ge x0 x1 => exact exprEqSndGe n ihn x0 x1 hle e2 h
    | lt x0 x1 => exact exprEqSndLt n ihn x0 x1 hle e2 h
    | le x0 x1 => exact exprEqSndLe n ihn x0 x1 hle e2 h
    | root => exact exprEqSndRoot n ihn hle e2 h
    | current => exact exprEqSndCurrent n ihn hle e2 h
    | parent => exact exprEqSndParent n ihn hle e2 h
    | all => exact exprEqSndAll n ihn hle e2 h
    | ancestors x0 x1 => exact exprEqSndAncestors n ihn x0 x1 hle e2 h
    | descendants x0 x1 => exact exprEqSndDescendants n ihn x0 x1 hle e2 h
    | attr x0 => exact exprEqSndAttr n ihn x0 hle e2 h
    | property x0 => exact exprEqSndProperty n ihn x0 hle e2 h
    | propertyExpr x0 => exact exprEqSndPropertyExpr n ihn x0 hle e2 h
    | index x0 => exact exprEqSndIndex n ihn x0 hle e2 h
    | indexExpr x0 => exact exprEqSndIndexExpr n ihn x0 hle e2 h
    | range x0 x1 x2 => exact exprEqSndRange n ihn x0 x1 x2 hle e2 h
    | group x0 => exact exprEqSndGroup n ihn x0 hle e2 h
    | sequence x0 => exact exprEqSndSequence n ihn x0 hle e2 h
    | methodCall x0 x1 => exact exprEqSndMethodCall n ihn x0 x1 hle e2 h
    | funcCall x0 x1 => exact exprEqSndFuncCall n ihn x0 x1 hle e2 h
    | var x0 => exact exprEqSndVar n ihn x0 hle e2 h
    | varExpr x0 => exact exprEqSndVarExpr n ihn x0 hle e2 h
    | env x0 => exact exprEqSndEnv n ihn x0 hle e2 h
    | envExpr x0 => exact exprEqSndEnvExpr n ihn x0 hle e2 h

/-- `exprEq` is sound for structural equality of expressions. -/
theorem exprEqSound (e1 e2 : Expr) (h : exprEq e1 e2 = true) : e1 = e2 :=
  exprEqIHAll (sizeOf e1 + 1) e1 e2 (Nat.lt_succ_self _) h
/-- C9: expression equality implies equal hash streams; NaN float literals
(same bit pattern, i.e. the same canonical payload) are equal and hash
identically. -/
theorem c9_expr_eq_hash_consistent :
    (∀ e1 e2 : Expr, exprEq e1 e2 = true → exprHash e1 = exprHash e2) ∧
    (exprEq (Expr.float F64.nan) (Expr.float F64.nan) = true ∧
      exprHash (Expr.float F64.nan) = exprHash (Expr.float F64.nan)) :=
  ⟨fun e1 e2 h => by rw [exprEqSound e1 e2 h], by decide, rfl⟩

/-- C9 witness: the quantified consistency statement applied at a concrete
pair of equal expressions containing a NaN float literal. -/
theorem c9_expr_eq_hash_consistent_witness :
    exprHash (Expr.add (Expr.float F64.nan) (Expr.integer 1)) =
      exprHash (Expr.add (Expr.float F64.nan) (Expr.integer 1)) :=
  c9_expr_eq_hash_consistent.1 _ _ (by decide)

/-! ## Runtime values and node sets (src/opath/expr/mod.rs)

During evaluation a `NodeRef` is either a handle into the tree (`ref`) or a
freshly allocated node: a scalar (`prim`) or a fresh array (`freshArr`, only
produced by the `@file_path_components` attribute).  Fresh allocations are
identical (by `Rc::ptr_eq`) to no other node. -/

/-- A freshly allocated scalar node value. -/
inductive Prim where
  | null
  | boolean (b : Bool)
  | integer (n : Int)
  | float (f : F64)
  | string (s : String)
deriving DecidableEq, Repr

/-- A runtime node handle. -/
inductive RVal where
  | ref (id : NodeId)
  | prim (p : Prim)
  | freshArr (elems : List RVal)
deriving Repr

/-- `NodeSet`: the three-shape result of evaluation. -/
inductive NodeSet where
  | empty
  | one (n : RVal)
  | many (elems : List RVal)
deriving Repr

/-- `NodeBuf`: the result builder (a `multiple` flag plus the elements). -/
structure NodeBuf where
  multiple : Bool
  elems : List RVal
deriving Repr

def NodeBuf.new : NodeBuf := ⟨false, []⟩

/-- `NodeBuf::add`. -/
def NodeBuf.add (out : NodeBuf) (n : RVal) : NodeBuf :=
  { out with elems := out.elems ++ [n] }

/-- `NodeBuf::append`: adds the nodes and marks the buffer multiple. -/
def NodeBuf.appendNodes (out : NodeBuf) (ns : List RVal) : NodeBuf :=
  ⟨true, out.elems ++ ns⟩

/-- `NodeBuf::add_all`: one element keeps the flag, many set it. -/
def NodeBuf.addAll (out : NodeBuf) : NodeSet → NodeBuf
  | .empty => out
  | .one n => out.add n
  | .many ns => out.appendNodes ns

/-- `NodeBuf::merge_multiple`. -/
def NodeBuf.mergeMultiple (out : NodeBuf) (m : Bool) : NodeBuf :=
  { out with multiple := out.multiple || m }

/-- `NodeBuf::merge`. -/
def NodeBuf.merge (out : NodeBuf) (o : NodeBuf) : NodeBuf :=
  ⟨out.multiple || o.multiple, out.elems ++ o.elems⟩

/-- `NodeBuf::into_node_set`: no elements is `Empty`; a single element is
`One` unless the buffer was marked multiple; otherwise `Many`. -/
def NodeBuf.intoNodeSet : NodeBuf → NodeSet
  | ⟨_, []⟩ => .empty
  | ⟨true, [x]⟩ => .many [x]
  | ⟨false, [x]⟩ => .one x
  | ⟨_, xs⟩ => .many xs

def NodeSet.len : NodeSet → Nat
  | .empty => 0
  | .one _ => 1
  | .many ns => ns.length

def NodeSet.intoVec : NodeSet → List RVal
  | .empty => []
  | .one n => [n]
  | .many ns => ns

/-- `NodeRef::is_ref_eq` on runtime handles: only two handles to the same
tree node are pointer-equal; fresh allocations are identical to nothing.
(The model drops the identity of fresh allocations themselves; no claim
depends on comparing a fresh node with itself.) -/
def rvalRefEq : RVal → RVal → Bool
  | .ref a, .ref b => a == b
  | _, _ => false

/-- The value tag of a runtime node. -/
def RVal.kindOf (st : Store) : RVal → Kind
  | .ref id => (st.get id).value.kind
  | .prim .null => .null
  | .prim (.boolean _) => .boolean
  | .prim (.integer _) => .integer
  | .prim (.float _) => .float
  | .prim (.string _) => .string
  | .freshArr _ => .array

/-- A view of a runtime node's value for dispatching on the `Value` tag:
container children are elided, only their count is kept. -/
inductive VView where
  | null
  | boolean (b : Bool)
  | integer (n : Int)
  | float (f : F64)
  | string (s : String)
  | binary (bytes : List Nat)
  | arrayV (len : Nat)
  | objectV (len : Nat)
deriving DecidableEq, Repr

def RVal.view (st : Store) : RVal → VView
  | .ref id =>
    match (st.get id).value with
    | .null => .null
    | .boolean b => .boolean b
    | .integer n => .integer n
    | .float f => .float f
    | .string s => .string s
    | .binary bs => .binary bs
    | .array elems => .arrayV elems.length
    | .object props => .objectV props.length
  | .prim .null => .null
  | .prim (.boolean b) => .boolean b
  | .prim (.integer n) => .integer n
  | .prim (.float f) => .float f
  | .prim (.string s) => .string s
  | .freshArr elems => .arrayV elems.length

/-- The children of a runtime node, in document order. -/
def RVal.childrenOf (st : Store) : RVal → List RVal
  | .ref id =>
    match (st.get id).value with
    | .array elems => elems.map .ref
    | .object props => props.map (fun kv => .ref kv.2)
    | _ => []
  | .prim _ => []
  | .freshArr elems => elems

/-- The metadata seen through a runtime handle (fresh nodes carry
`Metadata::new()`). -/
def RVal.metaOf (st : Store) : RVal → Meta
  | .ref id => (st.get id).meta
  | _ => Meta.new

/-! ### Value coercions (`tree/node.rs`, not under `src/`; modelled) -/

/-- Decimal digit list of a natural number (most significant first). -/
def natDecimalDigits (n : Nat) : List Char := (toString n).toList

/-- Modelled from the spec: the decimal rendering of an `f64`
(`Integer/Float→decimal`).  Finite values are rendered as their exact decimal
expansion (a binary rational always has one); Rust prints the shortest
round-tripping form, which no claim below depends on. -/
def floatToString : F64 → String
  | .nan => "NaN"
  | .inf neg => if neg then "-inf" else "inf"
  | .finite d =>
    if d.e ≥ 0 then toString (d.m * 2 ^ d.e.toNat)
    else
      let k := (-d.e).toNat
      let ip := d.m.natAbs / 2 ^ k
      let fr := d.m.natAbs % 2 ^ k
      let frDigits := natDecimalDigits (fr * 5 ^ k)
      let padded := List.replicate (k - frDigits.length) '0' ++ frDigits
      (if d.m < 0 then "-" else "") ++ toString ip ++ "." ++ String.mk padded

/-- Span off the leading decimal digits. -/
def spanDigits (cs : List Char) : List Char × List Char :=
  (cs.takeWhile Char.isDigit, cs.dropWhile Char.isDigit)

/-- Natural number denoted by a digit list. -/
def digitsToNat (cs : List Char) : Nat :=
  cs.foldl (fun acc c => acc * 10 + (c.toNat - '0'.toNat)) 0

/-- Modelled from the spec: Rust's `str::parse::<f64>` (grammar
`[+-]? (inf | infinity | nan | digits [. digits?] | . digits) ([eE][+-]?digits)?`,
case-insensitive special values, rejecting any trailing input), rounding the
denoted decimal to binary64. -/
def strParseF64 (s : String) : Option F64 :=
  let cs := s.toList
  let (neg, cs) :=
    match cs with
    | '+' :: rest => (false, rest)
    | '-' :: rest => (true, rest)
    | _ => (false, cs)
  let lower := String.mk (cs.map Char.toLower)
  if lower = "inf" ∨ lower = "infinity" then some (.inf neg)
  else if lower = "nan" then some .nan
  else
    let (ip, cs1) := spanDigits cs
    let (fp, cs2) :=
      match cs1 with
      | '.' :: rest =>
        let (fp, cs2) := spanDigits rest
        (fp, cs2)
      | _ => ([], cs1)
    let hasDot : Bool := cs1.head? == some '.'
    if ip.isEmpty ∧ fp.isEmpty then none
    else
      let (expOk, expNeg, expDigits, rest) :=
        match cs2 with
        | 'e' :: t | 'E' :: t =>
          match t with
          | '+' :: t2 => let (d, r) := spanDigits t2; (!d.isEmpty, false, d, r)
          | '-' :: t2 => let (d, r) := spanDigits t2; (!d.isEmpty, true, d, r)
          | _ => let (d, r) := spanDigits t; (!d.isEmpty, false, d, r)
        | _ => (true, false, [], cs2)
      let hasExpMarker : Bool := cs2.head? == some 'e' || cs2.head? == some 'E'
      if !rest.isEmpty || (hasExpMarker && !expOk) || (hasDot && ip.isEmpty && fp.isEmpty) then none
      else
        let mant := digitsToNat (ip ++ fp)
        let flen := fp.length
        let ex := digitsToNat expDigits
        let (num, den) :=
          if expNeg then (mant, 10 ^ flen * 10 ^ ex)
          else (mant * 10 ^ ex, 10 ^ flen)
        some (roundF64N neg num den)

/-- Modelled from the spec: `Node::as_float` — null is 0, booleans are 0/1,
integers convert, strings parse (NaN on failure), anything else is NaN. -/
def RVal.asFloat (st : Store) (rv : RVal) : F64 :=
  match rv.view st with
  | .null => .finite ⟨0, 0⟩
  | .boolean b => if b then .finite ⟨1, 0⟩ else .finite ⟨0, 0⟩
  | .integer n => f64OfInt n
  | .float f => f
  | .string s => (strParseF64 s).getD .nan
  | _ => .nan

/-- Modelled from the spec: `Node::as_boolean` — null is false, numbers are
truthy when nonzero (NaN and infinities included), strings and containers
when nonempty. -/
def RVal.asBoolean (st : Store) (rv : RVal) : Bool :=
  match rv.view st with
  | .null => false
  | .boolean b => b
  | .integer n => n != 0
  | .float (.finite d) => d.m != 0
  | .float _ => true
  | .string s => !s.isEmpty
  | .binary bs => !bs.isEmpty
  | .arrayV len => len != 0
  | .objectV len => len != 0

/-- Modelled from the spec: `Node::as_integer` — integers directly, floats by
saturating cast, anything else `None`. -/
def RVal.asIntegerOpt (st : Store) (rv : RVal) : Option Int :=
  match rv.view st with
  | .integer n => some n
  | .float f => some (f64ToIntCast f)
  | _ => none

/-- Modelled from the spec: `Node::as_string` — null is `""`, booleans
`true`/`false`, numbers decimal, strings themselves, binary lossy text,
arrays the comma-joined `as_string` of their elements, objects `[object]`.
Fuel bounds recursion through arrays (`none` only on a cyclic store). -/
def asStringF (fuel : Nat) (st : Store) (rv : RVal) : Option String :=
  match fuel with
  | 0 => none
  | f + 1 =>
    match rv.view st with
    | .null => some ""
    | .boolean b => some (if b then "true" else "false")
    | .integer n => some (toString n)
    | .float x => some (floatToString x)
    | .string s => some s
    | .binary bs => some (String.mk (bs.map Char.ofNat))
    | .arrayV _ =>
      ((rv.childrenOf st).mapM (asStringF f st)).map (String.intercalate ",")
    | .objectV _ => some "[object]"

/-- `as_string` of every node of a list. -/
def asStringList (fuel : Nat) (st : Store) (l : List RVal) : Option (List String) :=
  l.mapM (asStringF fuel st)

/-! ### Node equality and comparison (src/tree/mod.rs) -/

/-- `NodeRef::is_equal` (permissive, cross-type coercion); fuel only feeds
the `as_string` coercions. -/
def rvalIsEqual (fuel : Nat) (st : Store) (a b : RVal) : Option Bool :=
  if rvalRefEq a b then some true
  else
    match a.view st, b.view st with
    | .null, .null => some true
    | .null, _ => some false
    | _, .null => some false
    | .objectV _, .objectV _ => some (rvalRefEq a b)
    | .arrayV _, .arrayV _ => some (rvalRefEq a b)
    | .string s1, .string s2 => some (s1 == s2)
    | .string s1, _ => (asStringF fuel st b).map (fun s2 => s1 == s2)
    | _, .string s2 => (asStringF fuel st a).map (fun s1 => s1 == s2)
    | .boolean b1, .boolean b2 => some (b1 == b2)
    | .boolean b1, _ => some (b1 == b.asBoolean st)
    | _, .boolean b2 => some (a.asBoolean st == b2)
    | .float f1, .float f2 => some (f1.ieeeEq f2)
    | .float f1, _ => some (f1.ieeeEq (b.asFloat st))
    | _, .float f2 => some ((a.asFloat st).ieeeEq f2)
    | .integer n1, .integer n2 => some (n1 == n2)
    | _, _ => some false

/-- `impl PartialOrd for NodeRef`. -/
def rvalPCmp (st : Store) (a b : RVal) : Option Ordering :=
  match a.view st, b.view st with
  | .float f1, .float f2 => f1.pcmp f2
  | .float f1, _ => f1.pcmp (b.asFloat st)
  | _, .float f2 => (a.asFloat st).pcmp f2
  | .integer n1, .integer n2 => some (compare n1 n2)
  | .string s1, .string s2 => some (compare s1 s2)
  | _, _ => (a.asFloat st).pcmp (b.asFloat st)

/-! ### Display of expressions (`impl Display for Expr`, src) -/

/-- Modelled from the spec: Rust's `char::escape_debug` for the common escape
characters (no claim depends on the exact escaping). -/
def escapeDebugChar (c : Char) : String :=
  if c = '\\' then "\\\\"
  else if c = '"' then "\\\""
  else if c = '\n' then "\\n"
  else if c = '\t' then "\\t"
  else if c = '\r' then "\\r"
  else String.mk [c]

/-- The `{:?}` rendering of a string (quoted, escaped). -/
def strDebug (s : String) : String :=
  "\"" ++ String.join (s.toList.map escapeDebugChar) ++ "\""

/-- `impl Display for Id`. -/
def identDisplay (id : Ident) : String :=
  match id.kind with
  | .plain => id.name
  | .quoted => "\"" ++ id.name ++ "\""
  | .encoded => String.join (id.name.toList.map escapeDebugChar)

/-- `impl Display for PathSegment`. -/
def segDisplay : PathSegment → String
  | .keySeg id =>
    if id.kind = IdKind.plain then "." ++ identDisplay id
    else "[" ++ identDisplay id ++ "]"
  | .indexSeg i => "[" ++ toString i ++ "]"

/-- `impl Display for Attr`. -/
def attrDisplay : Attr → String
  | .key => "@key" | .index => "@index" | .level => "@level" | .type => "@type"
  | .kind => "@kind" | .file => "@file" | .fileAbs => "@file_abs"
  | .fileType => "@file_type" | .fileFormat => "@file_format"
  | .filePath => "@file_path" | .filePathAbs => "@file_path_abs"
  | .fileName => "@file_name" | .fileStem => "@file_stem"
  | .fileExt => "@file_ext" | .filePathComponents => "@file_path_components"
  | .dir => "@dir" | .dirAbs => "@dir_abs" | .path => "@path"

def i64MaxI : Int := 2 ^ 63 - 1

mutual
/-- `impl Display for Expr` with the alternate flag (`{:#}` vs `{}`). -/
def exprDisp (alt : Bool) (e : Expr) : String :=
  match e with
  | .path segments => "$" ++ String.join (segments.map segDisplay)
  | .string s => strDebug s
  | .integer n => toString n
  | .float f => floatToString f
  | .boolean b => if b then "true" else "false"
  | .null => "null"
  | .concat elems => "(" ++ exprDispList " + " elems ++ ")"
  | .neg a => "-(" ++ exprDisp false a ++ ")"
  | .add a b => "(" ++ exprDisp false a ++ " + " ++ exprDisp false b ++ ")"
  | .sub a b => "(" ++ exprDisp false a ++ " - " ++ exprDisp false b ++ ")"
  | .mul a b => "(" ++ exprDisp false a ++ " * " ++ exprDisp false b ++ ")"
  | .div a b => "(" ++ exprDisp false a ++ " / " ++ exprDisp false b ++ ")"
  | .not a => "!(" ++ exprDisp false a ++ ")"
  | .and a b => "(" ++ exprDisp false a ++ " and " ++ exprDisp false b ++ ")"
  | .or a b => "(" ++ exprDisp false a ++ " or " ++ exprDisp false b ++ ")"
  | .startsWith a b => "(" ++ exprDisp false a ++ " ^= " ++ exprDisp false b ++ ")"
  | .endsWith a b => "(" ++ exprDisp false a ++ " $= " ++ exprDisp false b ++ ")"
  | .containsOp a b => "(" ++ exprDisp false a ++ " *= " ++ exprDisp false b ++ ")"
  | .eq a b => "(" ++ exprDisp false a ++ " == " ++ exprDisp false b ++ ")"
  | .ne a b => "(" ++ exprDisp false a ++ " != " ++ exprDisp false b ++ ")"
  | .gt a b => "(" ++ exprDisp false a ++ " > " ++ exprDisp false b ++ ")"
  | .ge a b => "(" ++ exprDisp false a ++ " >= " ++ exprDisp false b ++ ")"
  | .lt a b => "(" ++ exprDisp false a ++ " < " ++ exprDisp false b ++ ")"
  | .le a b => "(" ++ exprDisp false a ++ " <= " ++ exprDisp false b ++ ")"
  | .root => "$"
  | .current => "@"
  | .parent => "^"
  | .all => if alt then "*" else ".*"
  | .ancestors minE maxE =>
    let isOne : Bool := match minE with | .integer n => n == 1 | _ => false
    let isMax : Bool := match maxE with | .integer n => n == i64MaxI | _ => false
    "^**" ++
      (if isOne && isMax then ""
       else if isOne then "\x7b," ++ exprDisp false maxE ++ "\x7d"
       else if isMax then "\x7b" ++ exprDisp false minE ++ "\x7d"
       else "\x7b" ++ exprDisp false minE ++ "," ++ exprDisp false maxE ++ "\x7d")
  | .descendants minE maxE =>
    let isOne : Bool := match minE with | .integer n => n == 1 | _ => false
    let isMax : Bool := match maxE with | .integer n => n == i64MaxI | _ => false
    ".**" ++
      (if isOne && isMax then ""
       else if isOne then "\x7b," ++ exprDisp false maxE ++ "\x7d"
       else if isMax then "\x7b" ++ exprDisp false minE ++ "\x7d"
       else "\x7b" ++ exprDisp false minE ++ "," ++ exprDisp false maxE ++ "\x7d")
  | .attr a => "." ++ attrDisplay a
  | .property id =>
    if id.kind = IdKind.plain then "." ++ identDisplay id
    else "[" ++ identDisplay id ++ "]"
  | .propertyExpr e => "." ++ exprDisp true e
  | .index i => "[" ++ toString i ++ "]"
  | .indexExpr e => "[" ++ exprDisp true e ++ "]"
  | .range s p t =>
    match s, p, t with
    | none, none, none => ".."
    | some a, none, none => exprDisp false a ++ ".."
    | none, none, some c => ".." ++ exprDisp false c
    | some a, none, some c => exprDisp false a ++ ".." ++ exprDisp false c
    | some a, some b, none => exprDisp false a ++ ":" ++ exprDisp false b ++ ":"
    | none, some b, some c => ":" ++ exprDisp false b ++ ":" ++ exprDisp false c
    | none, some b, none => ":" ++ exprDisp false b ++ ":"
    | some a, some b, some c =>
      exprDisp false a ++ ":" ++ exprDisp false b ++ ":" ++ exprDisp false c
  | .group elems => "(" ++ exprDispList ", " elems ++ ")"
  | .sequence elems => exprDispList "" elems
  | .methodCall id args => "." ++ id ++ "(" ++ exprDispList ", " args ++ ")"
  | .funcCall id args => id ++ "(" ++ exprDispList ", " args ++ ")"
  | .var id => "$" ++ identDisplay id
  | .varExpr e => "$\x7b" ++ exprDisp true e ++ "\x7d"
  | .env id => "env:" ++ identDisplay id
  | .envExpr e => "env:(" ++ exprDisp true e ++ ")"

/-- `display_list`: the separator-joined non-alternate display of a list. -/
def exprDispList (sep : String) (elems : List Expr) : String :=
  match elems with
  | [] => ""
  | [e] => exprDisp false e
  | e :: rest => exprDisp false e ++ sep ++ exprDispList sep rest
end

/-! ### Canonical paths (`Opath::from`, src/opath/opath.rs) -/

/-- The parent walk of `Opath::from`, accumulating segments root-first.
For an array parent the child's index becomes an index segment, for an object
parent the child's key becomes a property segment (the source builds
`expr_string` / `Expr::StringEnc`; with the AST of `expr/mod.rs` this is the
`property`/`index` form whose evaluation is `get_child_key`/`get_child_index`).
`none` models the `unreachable!()` panic (a parent that is not a container)
or divergence on a cyclic parent chain. -/
def opathFromSegsF : Nat → Store → RVal → List Expr → Option (List Expr)
  | 0, _, _, _ => none
  | fuel + 1, st, n, seq =>
    match (n.metaOf st).parent with
    | some p =>
      match (st.get p).value with
      | .array _ =>
        opathFromSegsF fuel st (.ref p) (Expr.index ((n.metaOf st).index : Int) :: seq)
      | .object _ =>
        opathFromSegsF fuel st (.ref p) (Expr.property (Ident.new (n.metaOf st).key) :: seq)
      | _ => none
    | none => some (Expr.root :: seq)

/-- `Opath::from(node)`: the canonical absolute path of a node, as a
`Sequence` expression starting with `Root`. -/
def opathFrom (fuel : Nat) (st : Store) (rv : RVal) : Option Expr :=
  (opathFromSegsF fuel st rv []).map Expr.sequence

/-! ### Evaluation environment -/

/-- `Env`: root and current handles plus the optional variable scope.  The
process environment (read by `Env`/`EnvExpr`) is carried explicitly; the
`diff` component is exposed but not consumed by the evaluator and is elided.
The scope chain (`scope.rs`, not under `src/`) is modelled from the spec as
an ordered name → node-set mapping. -/
structure EvalEnv where
  root : NodeId
  current : RVal
  scope : Option (List (String × NodeSet))
  procEnv : List (String × String)

def EvalEnv.withCurrent (env : EvalEnv) (c : RVal) : EvalEnv := { env with current := c }

/-- Modelled from the spec: `Scope::get_var`. -/
def scopeGetVar (sc : List (String × NodeSet)) (name : String) : Option NodeSet :=
  (sc.find? (fun e => e.1 = name)).map (·.2)

/-- `Context`: the evaluation mode. -/
inductive EvalCtx where
  | expr | property | index
deriving DecidableEq, Repr

/-- Evaluation outcomes other than a value: the expression-level error
(`SingleNodeExpected`), a dispatch into the external function registry
(`func.rs`, not under `src/`), a Rust panic (`unimplemented!()`), or
exhaustion of the model's recursion fuel. -/
inductive EvalErr where
  | singleNodeExpected (nodeSet : String)
  | externalCall (id : String)
  | panicked
  | fuelExhausted
deriving DecidableEq, Repr

/-! ### Leaf emitters and child selectors (local functions of `apply_to`) -/

/-- `to_abs_index`: negative indices count from the end; a negative index
beyond the start maps to `len` (thus selecting nothing). -/
def toAbsIndex (index : Int) (len : Nat) : Nat :=
  if index < 0 then
    let i := (len : Int) + index
    if i ≥ 0 then i.toNat else len
  else index.toNat

/-- `get_child_all`: append every child (marking the buffer multiple) for
containers, nothing otherwise. -/
def getChildAllB (st : Store) (cur : RVal) (out : NodeBuf) : NodeBuf :=
  match cur.view st with
  | .arrayV _ => out.appendNodes (cur.childrenOf st)
  | .objectV _ => out.appendNodes (cur.childrenOf st)
  | _ => out

/-- `get_child_index`. -/
def getChildIndexB (st : Store) (cur : RVal) (index : Int) (out : NodeBuf) : NodeBuf :=
  match cur.view st with
  | .arrayV len =>
    match (cur.childrenOf st).get? (toAbsIndex index len) with
    | some e => out.add e
    | none => out
  | .objectV len =>
    match (cur.childrenOf st).get? (toAbsIndex index len) with
    | some e => out.add e
    | none => out
  | _ => out

/-- `get_child_key`: objects by key (named-property first, then a numeric
fallback); arrays by parsing the key as a number. -/
def getChildKeyB (st : Store) (cur : RVal) (key : String) (out : NodeBuf) : NodeBuf :=
  match cur with
  | .ref id =>
    match (st.get id).value with
    | .array elems =>
      match strParseF64 key with
      | some f =>
        match elems.get? (toAbsIndex (f64ToIntCast f) elems.length) with
        | some e => out.add (.ref e)
        | none => out
      | none => out
    | .object props =>
      match propsGet props key with
      | some e => out.add (.ref e)
      | none =>
        match strParseF64 key with
        | some f =>
          match props.get? (toAbsIndex (f64ToIntCast f) props.length) with
          | some e => out.add (.ref e.2)
          | none => out
        | none => out
    | _ => out
  | .freshArr elems =>
    match strParseF64 key with
    | some f =>
      match elems.get? (toAbsIndex (f64ToIntCast f) elems.length) with
      | some e => out.add e
      | none => out
    | none => out
  | .prim _ => out

/-- The level of a node: its distance from the root (`Node::level`, in the
missing `tree/node.rs`; modelled from the spec as the parent-chain length). -/
def levelOfF : Nat → Store → RVal → Option Nat
  | 0, _, _ => none
  | fuel + 1, st, rv =>
    match (rv.metaOf st).parent with
    | some p => (levelOfF fuel st (.ref p)).map (· + 1)
    | none => some 0

def fileTypeStr : FileType → String
  | .file => "file"
  | .dir => "dir"

def fileFormatStr : FileFormat → String
  | .binary => "binary" | .text => "text" | .json => "json"
  | .yaml => "yaml" | .toml => "toml"

/-- Modelled from the spec: the path components of the node's file info
(scenario: `/tmp/some/path/file.json` yields `["some","path","file.json"]`
relative to the registered base; the base-path registration is elided, so
the components of the stored path are returned). -/
def filePathComponentsOf (m : Meta) : List String :=
  match m.file with
  | some fi => (fi.path.splitOn "/").filter (fun c => ¬c.isEmpty)
  | none => []

/-- Modelled from the spec: the `@file`-family strings derived from the
node's file info (`Node`'s file accessors live in the missing
`tree/node.rs`). -/
def fileAttrString (m : Meta) : Attr → String
  | .file | .fileAbs =>
    match m.file with
    | some fi =>
      match fi.ftype with
      | .dir => fileTypeStr fi.ftype ++ ":" ++ fi.path
      | .file => fileTypeStr fi.ftype ++ "<" ++ fileFormatStr fi.fformat ++ ">:" ++ fi.path
    | none => ""
  | .fileType => match m.file with | some fi => fileTypeStr fi.ftype | none => ""
  | .fileFormat => match m.file with | some fi => fileFormatStr fi.fformat | none => ""
  | .filePath | .filePathAbs => match m.file with | some fi => fi.path | none => ""
  | .fileName => match m.file with
    | some fi => ((fi.path.splitOn "/").filter (fun c => ¬c.isEmpty)).getLastD ""
    | none => ""
  | .fileStem => match m.file with
    | some fi =>
      let name := ((fi.path.splitOn "/").filter (fun c => ¬c.isEmpty)).getLastD ""
      match name.splitOn "." with
      | [] => name
      | [n] => n
      | parts => String.intercalate "." (parts.dropLast)
    | none => ""
  | .fileExt => match m.file with
    | some fi =>
      let name := ((fi.path.splitOn "/").filter (fun c => ¬c.isEmpty)).getLastD ""
      match name.splitOn "." with
      | [] => ""
      | [_] => ""
      | parts => parts.getLastD ""
    | none => ""
  | .dir | .dirAbs => match m.file with
    | some fi => String.intercalate "/" ((fi.path.splitOn "/").dropLast)
    | none => ""
  | _ => ""

/-- Modelled from the spec: `Kind::as_type_str` (`@type`). -/
def kindTypeStr : Kind → String
  | .null => "null" | .boolean => "boolean" | .integer => "number"
  | .float => "number" | .string => "string" | .binary => "binary"
  | .array => "array" | .object => "object"

/-- Modelled from the spec: `Kind::as_str` (`@kind`). -/
def kindStr : Kind → String
  | .null => "null" | .boolean => "boolean" | .integer => "integer"
  | .float => "float" | .string => "string" | .binary => "binary"
  | .array => "array" | .object => "object"

/-- `get_attr`: emit the derived leaf value of a virtual attribute. -/
def getAttrE (fuel : Nat) (st : Store) (cur : RVal) (a : Attr) (out : NodeBuf) :
    Except EvalErr NodeBuf :=
  match a with
  | .key => .ok (out.add (.prim (.string (cur.metaOf st).key)))
  | .index => .ok (out.add (.prim (.integer ((cur.metaOf st).index : Int))))
  | .level =>
    match levelOfF fuel st cur with
    | some l => .ok (out.add (.prim (.integer (l : Int))))
    | none => .error .fuelExhausted
  | .type => .ok (out.add (.prim (.string (kindTypeStr (cur.kindOf st)))))
  | .kind => .ok (out.add (.prim (.string (kindStr (cur.kindOf st)))))
  | .filePathComponents =>
    .ok (out.add (.freshArr ((filePathComponentsOf (cur.metaOf st)).map
      (fun c => .prim (.string c)))))
  | .path =>
    match opathFrom fuel st cur with
    | some e => .ok (out.add (.prim (.string (exprDisp false e))))
    | none => .error .fuelExhausted
  | other => .ok (out.add (.prim (.string (fileAttrString (cur.metaOf st) other))))

/-- `get_prop`: an identifier starting with `@` that names a known attribute
is the attribute; otherwise a child lookup by key. -/
def getPropE (fuel : Nat) (st : Store) (cur : RVal) (id : String) (out : NodeBuf) :
    Except EvalErr NodeBuf :=
  if id.startsWith "@" then
    match attrFromStr id with
    | some a => getAttrE fuel st cur a out
    | none => .ok (getChildKeyB st cur id out)
  else .ok (getChildKeyB st cur id out)

/-- `apply_string`. -/
def applyStringE (fuel : Nat) (st : Store) (cur : RVal) (ctx : EvalCtx) (s : String)
    (out : NodeBuf) : Except EvalErr NodeBuf :=
  match ctx with
  | .property | .index => getPropE fuel st cur s out
  | .expr => .ok (out.add (.prim (.string s)))

/-- `apply_integer`. -/
def applyIntegerB (st : Store) (cur : RVal) (ctx : EvalCtx) (n : Int)
    (out : NodeBuf) : NodeBuf :=
  match ctx with
  | .property | .index => getChildIndexB st cur n out
  | .expr => out.add (.prim (.integer n))

/-- `apply_float` (`n as i64` in selector context). -/
def applyFloatB (st : Store) (cur : RVal) (ctx : EvalCtx) (n : F64)
    (out : NodeBuf) : NodeBuf :=
  match ctx with
  | .property | .index => getChildIndexB st cur (f64ToIntCast n) out
  | .expr => out.add (.prim (.float n))

/-- `apply_boolean` (a filter predicate on `current` in selector context). -/
def applyBooleanB (cur : RVal) (ctx : EvalCtx) (b : Bool) (out : NodeBuf) : NodeBuf :=
  match ctx with
  | .property | .index => if b then out.add cur else out
  | .expr => out.add (.prim (.boolean b))

/-- `apply_null` (skipped in selector context). -/
def applyNullB (ctx : EvalCtx) (out : NodeBuf) : NodeBuf :=
  match ctx with
  | .property | .index => out
  | .expr => out.add (.prim .null)

/-- `apply_node`: dispatch a computed node by value kind. -/
def applyNodeE (fuel : Nat) (st : Store) (cur : RVal) (ctx : EvalCtx) (n : RVal)
    (out : NodeBuf) : Except EvalErr NodeBuf :=
  match ctx with
  | .property | .index =>
    match n.view st with
    | .null => .ok out
    | .boolean b => .ok (if b then out.add cur else out)
    | .integer i => .ok (getChildIndexB st cur i out)
    | .float f => .ok (getChildIndexB st cur (f64ToIntCast f) out)
    | .string s => getPropE fuel st cur s out
    | _ => .ok (if n.asBoolean st then out.add cur else out)
  | .expr => .ok (out.add n)

/-! ### Arithmetic pair functions (`add`, `sub`, `mul`, `div` of `apply_to`) -/

/-- The `add` coercion on one pair of operands (match arms in source order). -/
def addPairE (fuel : Nat) (st : Store) (cur : RVal) (ctx : EvalCtx) (a b : RVal)
    (out : NodeBuf) : Except EvalErr NodeBuf :=
  match a.view st, b.view st with
  | .objectV _, .arrayV len =>
    if len = 0 then .ok (applyFloatB st cur ctx (.finite ⟨0, 0⟩) out)
    else .ok (applyFloatB st cur ctx .nan out)
  | .arrayV _, _ | _, .arrayV _ | _, .objectV _ =>
    match asStringF fuel st a, asStringF fuel st b with
    | some s1, some s2 => applyStringE fuel st cur ctx (s1 ++ s2) out
    | _, _ => .error .fuelExhausted
  | .objectV _, _ =>
    .ok (applyFloatB st cur ctx (F64.add (.finite ⟨0, 0⟩) (b.asFloat st)) out)
  | .string s1, .string s2 => applyStringE fuel st cur ctx (s1 ++ s2) out
  | .string s1, _ =>
    match asStringF fuel st b with
    | some s2 => applyStringE fuel st cur ctx (s1 ++ s2) out
    | none => .error .fuelExhausted
  | _, .string s2 =>
    match asStringF fuel st a with
    | some s1 => applyStringE fuel st cur ctx (s1 ++ s2) out
    | none => .error .fuelExhausted
  | .integer x, .integer y =>
    if i64InRange (x + y) then .ok (applyIntegerB st cur ctx (x + y) out)
    else .ok (applyFloatB st cur ctx (F64.add (f64OfInt x) (f64OfInt y)) out)
  | .float x, .float y => .ok (applyFloatB st cur ctx (F64.add x y) out)
  | .float x, _ => .ok (applyFloatB st cur ctx (F64.add x (b.asFloat st)) out)
  | _, .float y => .ok (applyFloatB st cur ctx (F64.add (a.asFloat st) y) out)
  | _, _ => .ok (applyFloatB st cur ctx (F64.add (a.asFloat st) (b.asFloat st)) out)

/-- The `sub` coercion on one pair of operands (match arms in source order). -/
def subPairE (fuel : Nat) (st : Store) (cur : RVal) (ctx : EvalCtx) (a b : RVal)
    (out : NodeBuf) : Except EvalErr NodeBuf :=
  match a.view st, b.view st with
  | .integer x, .integer y =>
    if i64InRange (x - y) then .ok (applyIntegerB st cur ctx (x - y) out)
    else .ok (applyFloatB st cur ctx (F64.sub (f64OfInt x) (f64OfInt y)) out)
  | .objectV _, .arrayV len =>
    if len = 0 then .ok (applyFloatB st cur ctx (.finite ⟨0, 0⟩) out)
    else .ok (applyFloatB st cur ctx .nan out)
  | .arrayV len1, .arrayV len2 =>
    if len1 = 0 ∧ len2 = 0 then .ok (applyFloatB st cur ctx (.finite ⟨0, 0⟩) out)
    else .ok (applyFloatB st cur ctx .nan out)
  | .arrayV len, _ =>
    if len = 0 then .ok (applyFloatB st cur ctx (F64.neg (b.asFloat st)) out)
    else .ok (applyFloatB st cur ctx .nan out)
  | _, .arrayV len =>
    if len = 0 then .ok (applyFloatB st cur ctx (a.asFloat st) out)
    else .ok (applyFloatB st cur ctx .nan out)
  | .objectV len, _ =>
    if len = 0 then .ok (applyFloatB st cur ctx (F64.neg (b.asFloat st)) out)
    else .ok (applyFloatB st cur ctx .nan out)
  | .float x, .float y => .ok (applyFloatB st cur ctx (F64.sub x y) out)
  | .float x, _ => .ok (applyFloatB st cur ctx (F64.sub x (b.asFloat st)) out)
  | _, .float y => .ok (applyFloatB st cur ctx (F64.sub (a.asFloat st) y) out)
  | _, _ => .ok (applyFloatB st cur ctx (F64.sub (a.asFloat st) (b.asFloat st)) out)

/-- The `mul` coercion on one pair of operands (match arms in source order). -/
def mulPairE (fuel : Nat) (st : Store) (cur : RVal) (ctx : EvalCtx) (a b : RVal)
    (out : NodeBuf) : Except EvalErr NodeBuf :=
  match a.view st, b.view st with
  | .integer x, .integer y =>
    if i64InRange (x * y) then .ok (applyIntegerB st cur ctx (x * y) out)
    else .ok (applyFloatB st cur ctx (F64.mul (f64OfInt x) (f64OfInt y)) out)
  | .arrayV len1, .arrayV len2 =>
    if len1 = 0 ∧ len2 = 0 then .ok (applyFloatB st cur ctx (.finite ⟨0, 0⟩) out)
    else .ok (applyFloatB st cur ctx .nan out)
  | .arrayV len, _ =>
    if len = 0 then .ok (applyFloatB st cur ctx (F64.mul (.finite ⟨0, 0⟩) (b.asFloat st)) out)
    else .ok (applyFloatB st cur ctx .nan out)
  | _, .arrayV len =>
    if len = 0 then .ok (applyFloatB st cur ctx (F64.mul (a.asFloat st) (.finite ⟨0, 0⟩)) out)
    else .ok (applyFloatB st cur ctx .nan out)
  | .float x, .float y => .ok (applyFloatB st cur ctx (F64.mul x y) out)
  | .float x, _ => .ok (applyFloatB st cur ctx (F64.mul x (b.asFloat st)) out)
  | _, .float y => .ok (applyFloatB st cur ctx (F64.mul (a.asFloat st) y) out)
  | _, _ => .ok (applyFloatB st cur ctx (F64.mul (a.asFloat st) (b.asFloat st)) out)

/-- The `div` coercion on one pair of operands (match arms in source order). -/
def divPairE (fuel : Nat) (st : Store) (cur : RVal) (ctx : EvalCtx) (a b : RVal)
    (out : NodeBuf) : Except EvalErr NodeBuf :=
  match a.view st, b.view st with
  | .arrayV len, _ =>
    if len = 0 then .ok (applyFloatB st cur ctx (F64.div (.finite ⟨0, 0⟩) (b.asFloat st)) out)
    else .ok (applyFloatB st cur ctx .nan out)
  | _, .arrayV len =>
    if len = 0 then .ok (applyFloatB st cur ctx (F64.div (a.asFloat st) (.finite ⟨0, 0⟩)) out)
    else .ok (applyFloatB st cur ctx .nan out)
  | .float x, .float y => .ok (applyFloatB st cur ctx (F64.div x y) out)
  | .float x, _ => .ok (applyFloatB st cur ctx (F64.div x (b.asFloat st)) out)
  | _, .float y => .ok (applyFloatB st cur ctx (F64.div (a.asFloat st) y) out)
  | _, _ => .ok (applyFloatB st cur ctx (F64.div (a.asFloat st) (b.asFloat st)) out)

/-- The type of a per-pair arithmetic emitter. -/
abbrev PairFn :=
  Nat → Store → RVal → EvalCtx → RVal → RVal → NodeBuf → Except EvalErr NodeBuf

/-! ### Standalone traversal helpers of `apply_to` -/

/-- Rust `usize::from_str` (optional `+`, decimal digits, nothing else). -/
def parseNatStr (s : String) : Option Nat :=
  let cs := match s.toList with
    | '+' :: rest => rest
    | cs => cs
  if cs.isEmpty then none
  else if cs.all Char.isDigit then some (digitsToNat cs) else none

/-- `NodeRef::get_child_key` (tree/mod.rs): array by `usize` parse of the key,
object by exact key lookup. -/
def treeGetChildKey (st : Store) (id : NodeId) (key : String) : Option NodeId :=
  match (st.get id).value with
  | .array elems =>
    match parseNatStr key with
    | some i => elems.get? i
    | none => none
  | .object props => propsGet props key
  | _ => none

/-- `NodeRef::get_child_index` (tree/mod.rs). -/
def treeGetChildIndex (st : Store) (id : NodeId) (index : Nat) : Option NodeId :=
  match (st.get id).value with
  | .array elems => elems.get? index
  | .object props => (props.get? index).map (·.2)
  | _ => none

/-- The deterministic walk of an absolute `Path([seg…])` from the root. -/
def pathWalk (st : Store) : NodeId → List PathSegment → Option NodeId
  | n, [] => some n
  | n, .keySeg id :: rest =>
    match treeGetChildKey st n id.name with
    | some c => pathWalk st c rest
    | none => none
  | n, .indexSeg i :: rest =>
    match treeGetChildIndex st n i with
    | some c => pathWalk st c rest
    | none => none

/-- The `Ancestors` walk: emit each node whose level lies in `[min, max]`,
walking parents from level 0 (`none` = fuel ran out on a cyclic chain). -/
def ancestorsLoopF : Nat → Store → RVal → Int → Int → Int → NodeBuf → Option NodeBuf
  | 0, _, _, _, _, _, _ => none
  | fuel + 1, st, curr, level, minL, maxL, out =>
    if level > maxL then some out
    else
      let out := if level ≥ minL then out.add curr else out
      match (curr.metaOf st).parent with
      | some p => ancestorsLoopF fuel st (.ref p) (level + 1) minL maxL out
      | none => some out

/-- `add_descendants`: depth-first emission of the levels in `[min, max]`,
descent stopping at `max` (`none` = fuel ran out on a cyclic store). -/
def addDescendantsF (fuel : Nat) (st : Store) (cur : RVal) (level minL maxL : Int)
    (out : NodeBuf) : Option NodeBuf :=
  match fuel with
  | 0 => none
  | f + 1 =>
    if level ≤ maxL then
      let out := if level ≥ minL then out.add cur else out
      if level < maxL then
        match cur.view st with
        | .arrayV _ =>
          (cur.childrenOf st).foldlM
            (fun o e => addDescendantsF f st e (level + 1) minL maxL o) out
        | .objectV _ =>
          (cur.childrenOf st).foldlM
            (fun o e => addDescendantsF f st e (level + 1) minL maxL o) out
        | _ => some out
      else some out
    else some out

/-- `f64::abs`. -/
def F64.fabs : F64 → F64
  | .nan => .nan
  | .inf _ => .inf false
  | .finite d => .finite ⟨d.m.natAbs, d.e⟩

/-- `f64::clamp`. -/
def F64.fclamp (x lo hi : F64) : F64 :=
  if x.pcmp lo = some .lt then lo
  else if x.pcmp hi = some .gt then hi
  else x

/-- `f64::EPSILON` (2⁻⁵²). -/
def f64Epsilon : F64 := .finite ⟨1, -52⟩

/-- The ascending `Range` loop: emit, step, stop once past `stop`. -/
def rangeLoopUpF : Nat → Store → RVal → EvalCtx → F64 → F64 → F64 → NodeBuf → Option NodeBuf
  | 0, _, _, _, _, _, _, _ => none
  | fuel + 1, st, cur, ctx, start, stop, step, out =>
    let out := applyFloatB st cur ctx start out
    let start' := F64.add start step
    if start'.pcmp stop = some .gt then some out
    else rangeLoopUpF fuel st cur ctx start' stop step out

/-- The descending `Range` loop. -/
def rangeLoopDownF : Nat → Store → RVal → EvalCtx → F64 → F64 → F64 → NodeBuf → Option NodeBuf
  | 0, _, _, _, _, _, _, _ => none
  | fuel + 1, st, cur, ctx, start, stop, step, out =>
    let out := applyFloatB st cur ctx start out
    let start' := F64.add start step
    if start'.pcmp stop = some .lt then some out
    else rangeLoopDownF fuel st cur ctx start' stop step out

/-- Modelled from the spec: `Node::children_count` (container length). -/
def childrenCountOf (st : Store) (rv : RVal) : Option Nat :=
  match rv.view st with
  | .arrayV len => some len
  | .objectV len => some len
  | _ => none

/-- Emit `apply_node` over a list of computed nodes. -/
def applyNodesE (fuel : Nat) (st : Store) (cur : RVal) (ctx : EvalCtx) :
    List RVal → NodeBuf → Except EvalErr NodeBuf
  | [], out => .ok out
  | n :: ns, out => do
    let out ← applyNodeE fuel st cur ctx n out
    applyNodesE fuel st cur ctx ns out

/-- Emit a boolean per operand pair through `apply_boolean`. -/
def boolPairsEmit (st : Store) (cur : RVal) (ctx : EvalCtx)
    (op : RVal → RVal → Except EvalErr Bool) :
    List (RVal × RVal) → NodeBuf → Except EvalErr NodeBuf
  | [], out => .ok out
  | (x, y) :: rest, out => do
    let r ← op x y
    boolPairsEmit st cur ctx op rest (applyBooleanB cur ctx r out)

/-- The `Or` emission over `Many × One`: each truthy element of `a`, else `b`. -/
def orManyOneEmit (fuel : Nat) (st : Store) (cur : RVal) (ctx : EvalCtx) (b : RVal) :
    List RVal → NodeBuf → Except EvalErr NodeBuf
  | [], out => .ok out
  | x :: xs, out => do
    let out ← if x.asBoolean st then applyNodeE fuel st cur ctx x out
              else applyNodeE fuel st cur ctx b out
    orManyOneEmit fuel st cur ctx b xs out

/-- The `Or` emission over `Many × Many` (position-wise coalesce). -/
def orZipEmit (fuel : Nat) (st : Store) (cur : RVal) (ctx : EvalCtx) :
    List (RVal × RVal) → NodeBuf → Except EvalErr NodeBuf
  | [], out => .ok out
  | (x, y) :: rest, out => do
    let out ← if x.asBoolean st then applyNodeE fuel st cur ctx x out
              else applyNodeE fuel st cur ctx y out
    orZipEmit fuel st cur ctx rest out

/-- Apply a per-pair arithmetic emitter across `One × Many`. -/
def mathOneManyF (fuel : Nat) (st : Store) (cur : RVal) (ctx : EvalCtx) (op : PairFn)
    (x : RVal) : List RVal → NodeBuf → Except EvalErr NodeBuf
  | [], out => .ok out
  | y :: ys, out => do
    let out ← op fuel st cur ctx x y out
    mathOneManyF fuel st cur ctx op x ys out

/-- Apply a per-pair arithmetic emitter across `Many × One`. -/
def mathManyOneF (fuel : Nat) (st : Store) (cur : RVal) (ctx : EvalCtx) (op : PairFn)
    (y : RVal) : List RVal → NodeBuf → Except EvalErr NodeBuf
  | [], out => .ok out
  | x :: xs, out => do
    let out ← op fuel st cur ctx x y out
    mathManyOneF fuel st cur ctx op y xs out

/-- Apply a per-pair arithmetic emitter position-wise (`Many × Many`; the
`zip` drops the elements of the longer side). -/
def mathZipF (fuel : Nat) (st : Store) (cur : RVal) (ctx : EvalCtx) (op : PairFn) :
    List (RVal × RVal) → NodeBuf → Except EvalErr NodeBuf
  | [], out => .ok out
  | (x, y) :: rest, out => do
    let out ← op fuel st cur ctx x y out
    mathZipF fuel st cur ctx op rest out

/-- `impl Display for NodeSet` (`<empty>`, the node, or a bracketed list);
the display of a single node is in the missing `tree/node.rs` and is
modelled as its `as_string`. -/
def nodeSetDisplayF (fuel : Nat) (st : Store) : NodeSet → Option String
  | .empty => some "<empty>"
  | .one n => asStringF fuel st n
  | .many ns => (asStringList fuel st ns).map (fun ss => "[" ++ String.intercalate ", " ss ++ "]")

/-- Substring containment at successive start positions. -/
def listHasInfix (needle : List Char) : List Char → Bool
  | [] => needle.isEmpty
  | c :: rest => needle.isPrefixOf (c :: rest) || listHasInfix needle rest

/-- Substring containment (Rust `str::contains`). -/
def strContainsSub (a b : String) : Bool := listHasInfix b.toList a.toList

/-- The `Range` emission (the tail of the `Range` arm): a degenerate range
(endpoints within `f64::EPSILON`) emits the start; otherwise an arithmetic
walk in the direction of the endpoints.  The step operand arrives as an
unbound `Except` value, so its evaluation outcome is only consulted in the
branches that use it, as in the source. -/
def rangeEmitF (fuel : Nat) (st : Store) (cur : RVal) (ctx : EvalCtx)
    (start stop : F64) (stepM : Except EvalErr (Option F64)) (out : NodeBuf) :
    Except EvalErr NodeBuf :=
  if (F64.fabs (F64.sub start stop)).pcmp f64Epsilon = some .lt then
    .ok (applyFloatB st cur ctx start out)
  else if start.pcmp stop = some .lt then do
    let stepO ← stepM
    let step := stepO.getD (.finite ⟨1, 0⟩)
    if step.pcmp (.finite ⟨0, 0⟩) = some .gt then
      match rangeLoopUpF fuel st cur ctx start stop step out with
      | some out => .ok out
      | none => .error .fuelExhausted
    else .ok out
  else do
    let stepO ← stepM
    let step := stepO.getD (.finite ⟨-1, 0⟩)
    if step.pcmp (.finite ⟨0, 0⟩) = some .lt then
      match rangeLoopDownF fuel st cur ctx start stop step out with
      | some out => .ok out
      | none => .error .fuelExhausted
    else .ok out

/-! ### Generic operator combinators

The binary/unary logical and arithmetic combinators of `apply_to` are stated
generically in the evaluation callback (the recursive `Expr::apply`), keeping
the recursion of the evaluator itself small. -/

/-- The type of the evaluation callback (`Expr::apply` in value context). -/
abbrev ApplyCb := Expr → EvalEnv → Except EvalErr NodeSet

/-- The inner `bool_op` of `bool_binary_op`. -/
def boolOpG (app : ApplyCb) (st : Store) (ctx : EvalCtx)
    (op : RVal → RVal → Except EvalErr Bool) (a b : Expr) (env : EvalEnv)
    (out : NodeBuf) : Except EvalErr NodeBuf := do
  let na ← app a env
  let nb ← app b env
  let cur := env.current
  match na, nb with
  | .empty, .empty | .empty, _ | _, .empty => .ok (applyBooleanB cur ctx false out)
  | .one x, .one y => do
    let r ← op x y
    .ok (applyBooleanB cur ctx r out)
  | .one x, .many ys => boolPairsEmit st cur ctx op (ys.map (fun y => (x, y))) out
  | .many xs, .one y => boolPairsEmit st cur ctx op (xs.map (fun x => (x, y))) out
  | .many xs, .many ys => boolPairsEmit st cur ctx op (xs.zip ys) out

/-- The per-child iteration of `bool_binary_op` in selector context. -/
def boolOpChildrenG (app : ApplyCb) (st : Store) (ctx : EvalCtx)
    (op : RVal → RVal → Except EvalErr Bool) (a b : Expr) (env : EvalEnv) :
    List RVal → NodeBuf → Except EvalErr NodeBuf
  | [], out => .ok out
  | e :: rest, out => do
    let out ← boolOpG app st ctx op a b (env.withCurrent e) out
    boolOpChildrenG app st ctx op a b env rest out

/-- `bool_binary_op`: in fresh selector context the operation runs once per
child of `current` (each acting as the filter's current node); otherwise once. -/
def boolBinaryOpG (app : ApplyCb) (st : Store) (ctx : EvalCtx)
    (op : RVal → RVal → Except EvalErr Bool) (a b : Expr) (env : EvalEnv)
    (out : NodeBuf) : Except EvalErr NodeBuf :=
  if !out.multiple ∧ (ctx = .property ∨ ctx = .index) then
    match env.current.view st with
    | .arrayV _ => boolOpChildrenG app st ctx op a b env (env.current.childrenOf st) out
    | .objectV _ => boolOpChildrenG app st ctx op a b env (env.current.childrenOf st) out
    | _ => .ok out
  else boolOpG app st ctx op a b env out

/-- The inner `bool_or` of the coalescing `Or`. -/
def boolOrG (fuel : Nat) (app : ApplyCb) (st : Store) (ctx : EvalCtx)
    (a b : Expr) (env : EvalEnv) (out : NodeBuf) : Except EvalErr NodeBuf := do
  let na ← app a env
  let cur := env.current
  match na with
  | .empty => do
    let nb ← app b env
    applyNodesE fuel st cur ctx nb.intoVec out
  | .one x =>
    if x.asBoolean st then applyNodeE fuel st cur ctx x out
    else do
      let nb ← app b env
      applyNodesE fuel st cur ctx nb.intoVec out
  | .many xs => do
    let nb ← app b env
    match nb with
    | .empty => applyNodesE fuel st cur ctx xs out
    | .one y => orManyOneEmit fuel st cur ctx y xs out
    | .many ys => orZipEmit fuel st cur ctx (xs.zip ys) out

/-- The per-child iteration of `bool_or_op` in selector context. -/
def boolOrChildrenG (fuel : Nat) (app : ApplyCb) (st : Store) (ctx : EvalCtx)
    (a b : Expr) (env : EvalEnv) : List RVal → NodeBuf → Except EvalErr NodeBuf
  | [], out => .ok out
  | e :: rest, out => do
    let out ← boolOrG fuel app st ctx a b (env.withCurrent e) out
    boolOrChildrenG fuel app st ctx a b env rest out

/-- `bool_or_op`. -/
def boolOrOpG (fuel : Nat) (app : ApplyCb) (st : Store) (ctx : EvalCtx)
    (a b : Expr) (env : EvalEnv) (out : NodeBuf) : Except EvalErr NodeBuf :=
  if !out.multiple ∧ (ctx = .property ∨ ctx = .index) then
    match env.current.view st with
    | .arrayV _ => boolOrChildrenG fuel app st ctx a b env (env.current.childrenOf st) out
    | .objectV _ => boolOrChildrenG fuel app st ctx a b env (env.current.childrenOf st) out
    | _ => .ok out
  else boolOrG fuel app st ctx a b env out

/-- The inner `not_op`. -/
def notOpG (app : ApplyCb) (st : Store) (ctx : EvalCtx) (a : Expr) (env : EvalEnv)
    (out : NodeBuf) : Except EvalErr NodeBuf := do
  let na ← app a env
  let cur := env.current
  match na with
  | .empty => .ok (applyBooleanB cur ctx true out)
  | .one x => .ok (applyBooleanB cur ctx (!x.asBoolean st) out)
  | .many xs =>
    .ok (xs.foldl (fun o x => applyBooleanB cur ctx (!x.asBoolean st) o) out)

/-- The per-child iteration of `bool_not_op` in selector context. -/
def notChildrenG (app : ApplyCb) (st : Store) (ctx : EvalCtx) (a : Expr)
    (env : EvalEnv) : List RVal → NodeBuf → Except EvalErr NodeBuf
  | [], out => .ok out
  | e :: rest, out => do
    let out ← notOpG app st ctx a (env.withCurrent e) out
    notChildrenG app st ctx a env rest out

/-- `bool_not_op` (selector context always iterates the children). -/
def boolNotOpG (app : ApplyCb) (st : Store) (ctx : EvalCtx) (a : Expr)
    (env : EvalEnv) (out : NodeBuf) : Except EvalErr NodeBuf :=
  if ctx = .property ∨ ctx = .index then
    match env.current.view st with
    | .arrayV _ => notChildrenG app st ctx a env (env.current.childrenOf st) out
    | .objectV _ => notChildrenG app st ctx a env (env.current.childrenOf st) out
    | _ => .ok out
  else notOpG app st ctx a env out

/-- `math_binary_op`: evaluate both operands in value context, then combine:
Empty on either side emits NaN for the pair; One/One emits once; One/Many and
Many/One broadcast; Many/Many combines position-wise (extra elements of the
longer side are dropped by the zip). -/
def mathBinaryOpG (fuel : Nat) (app : ApplyCb) (st : Store) (ctx : EvalCtx)
    (op : PairFn) (a b : Expr) (env : EvalEnv) (out : NodeBuf) :
    Except EvalErr NodeBuf := do
  let na ← app a env
  let nb ← app b env
  let cur := env.current
  match na, nb with
  | .empty, .empty | .empty, _ | _, .empty => .ok (applyFloatB st cur ctx .nan out)
  | .one x, .one y => op fuel st cur ctx x y out
  | .one x, .many ys => mathOneManyF fuel st cur ctx op x ys out
  | .many xs, .one y => mathManyOneF fuel st cur ctx op y xs out
  | .many xs, .many ys => mathZipF fuel st cur ctx op (xs.zip ys) out

/-- Evaluate each expression of a list into the same buffer (the loops of
`Group` and `Concat`), generic in the statement callback. -/
def applyListCtxG (appTo : Expr → NodeBuf → Except EvalErr NodeBuf) :
    List Expr → NodeBuf → Except EvalErr NodeBuf
  | [], out => .ok out
  | e :: rest, out => do
    let out ← appTo e out
    applyListCtxG appTo rest out

/-- One `Sequence` step: evaluate `e` with each buffered node as current. -/
def applySeqElemsG (stepTo : RVal → NodeBuf → Except EvalErr NodeBuf) :
    List RVal → NodeBuf → Except EvalErr NodeBuf
  | [], out2 => .ok out2
  | n :: ns, out2 => do
    let out2 ← stepTo n out2
    applySeqElemsG stepTo ns out2

/-- The `Sequence` pipeline: thread the buffer through the steps, each step
re-evaluating its expression with every buffered node as the current node. -/
def applySeqListG (stepTo : Expr → RVal → NodeBuf → Except EvalErr NodeBuf) :
    List Expr → NodeBuf → Except EvalErr NodeBuf
  | [], out1 => .ok out1
  | e :: rest, out1 => do
    let out2 ← applySeqElemsG (stepTo e) out1.elems ⟨out1.multiple, []⟩
    applySeqListG stepTo rest out2

/-- `Expr::apply_one` stated on an evaluation callback: a non-`One` result is
the `SingleNodeExpected` error carrying the node-set display. -/
def applyOneG (app : ApplyCb) (fuel : Nat) (st : Store) (e : Expr) (env : EvalEnv) :
    Except EvalErr RVal := do
  let n ← app e env
  match n with
  | .one x => pure x
  | ns =>
    match nodeSetDisplayF fuel st ns with
    | some s => .error (.singleNodeExpected s)
    | none => .error .fuelExhausted

/-! ### The evaluator core (`Expr::apply_to`, src/opath/expr/mod.rs 712–1716)

Fuel decreases on each nested evaluation; `fuelExhausted` is a model artifact
standing for nonterminating recursion, never a behavior of the source. -/

/-- `Expr::apply_to(env, ctx, out)`. -/
def applyToF (fuel : Nat) (e : Expr) (env : EvalEnv) (st : Store) (ctx : EvalCtx)
    (out : NodeBuf) : Except EvalErr NodeBuf :=
  match fuel with
  | 0 => .error .fuelExhausted
  | f + 1 =>
    match e with
    | .path segments =>
      match pathWalk st env.root segments with
      | some n => .ok (out.add (.ref n))
      | none => .ok out
    | .string s => applyStringE f st env.current ctx s out
    | .integer n => .ok (applyIntegerB st env.current ctx n out)
    | .float x => .ok (applyFloatB st env.current ctx x out)
    | .boolean b => .ok (applyBooleanB env.current ctx b out)
    | .null => .ok (applyNullB ctx out)
    | .concat elems => do
      let res ← applyListCtxG (fun e1 o => applyToF f e1 env st ctx o) elems NodeBuf.new
      match asStringList f st res.elems with
      | some ss => .ok (out.add (.prim (.string (String.join ss))))
      | none => .error .fuelExhausted
    | .neg a => do
      let res ← applyToF f a env st .expr NodeBuf.new
      let out := out.mergeMultiple res.multiple
      .ok (res.elems.foldl
        (fun o n => applyFloatB st env.current ctx (F64.neg (n.asFloat st)) o) out)
    | .add a b =>
      mathBinaryOpG f (fun e1 env1 => (applyToF f e1 env1 st .expr NodeBuf.new).map NodeBuf.intoNodeSet) st ctx addPairE a b env out
    | .sub a b =>
      mathBinaryOpG f (fun e1 env1 => (applyToF f e1 env1 st .expr NodeBuf.new).map NodeBuf.intoNodeSet) st ctx subPairE a b env out
    | .mul a b =>
      mathBinaryOpG f (fun e1 env1 => (applyToF f e1 env1 st .expr NodeBuf.new).map NodeBuf.intoNodeSet) st ctx mulPairE a b env out
    | .div a b =>
      mathBinaryOpG f (fun e1 env1 => (applyToF f e1 env1 st .expr NodeBuf.new).map NodeBuf.intoNodeSet) st ctx divPairE a b env out
    | .not a =>
      boolNotOpG (fun e1 env1 => (applyToF f e1 env1 st .expr NodeBuf.new).map NodeBuf.intoNodeSet) st ctx a env out
    | .and a b =>
      boolBinaryOpG (fun e1 env1 => (applyToF f e1 env1 st .expr NodeBuf.new).map NodeBuf.intoNodeSet) st ctx
        (fun x y => .ok (x.asBoolean st && y.asBoolean st)) a b env out
    | .or a b =>
      boolOrOpG f (fun e1 env1 => (applyToF f e1 env1 st .expr NodeBuf.new).map NodeBuf.intoNodeSet) st ctx a b env out
    | .eq a b =>
      boolBinaryOpG (fun e1 env1 => (applyToF f e1 env1 st .expr NodeBuf.new).map NodeBuf.intoNodeSet) st ctx
        (fun x y =>
          match rvalIsEqual f st x y with
          | some r => .ok r
          | none => .error .fuelExhausted) a b env out
    | .ne a b =>
      boolBinaryOpG (fun e1 env1 => (applyToF f e1 env1 st .expr NodeBuf.new).map NodeBuf.intoNodeSet) st ctx
        (fun x y =>
          match rvalIsEqual f st x y with
          | some r => .ok (!r)
          | none => .error .fuelExhausted) a b env out
    | .lt a b =>
      boolBinaryOpG (fun e1 env1 => (applyToF f e1 env1 st .expr NodeBuf.new).map NodeBuf.intoNodeSet) st ctx
        (fun x y => .ok (rvalPCmp st x y == some .lt)) a b env out
    | .le a b =>
      boolBinaryOpG (fun e1 env1 => (applyToF f e1 env1 st .expr NodeBuf.new).map NodeBuf.intoNodeSet) st ctx
        (fun x y => .ok (rvalPCmp st x y == some .lt || rvalPCmp st x y == some .eq))
        a b env out
    | .gt a b =>
      boolBinaryOpG (fun e1 env1 => (applyToF f e1 env1 st .expr NodeBuf.new).map NodeBuf.intoNodeSet) st ctx
        (fun x y => .ok (rvalPCmp st x y == some .gt)) a b env out
    | .ge a b =>
      boolBinaryOpG (fun e1 env1 => (applyToF f e1 env1 st .expr NodeBuf.new).map NodeBuf.intoNodeSet) st ctx
        (fun x y => .ok (rvalPCmp st x y == some .gt || rvalPCmp st x y == some .eq))
        a b env out
    | .startsWith a b =>
      boolBinaryOpG (fun e1 env1 => (applyToF f e1 env1 st .expr NodeBuf.new).map NodeBuf.intoNodeSet) st ctx
        (fun x y =>
          match asStringF f st x, asStringF f st y with
          | some s1, some s2 => .ok (s1.startsWith s2)
          | _, _ => .error .fuelExhausted) a b env out
    | .endsWith a b =>
      boolBinaryOpG (fun e1 env1 => (applyToF f e1 env1 st .expr NodeBuf.new).map NodeBuf.intoNodeSet) st ctx
        (fun x y =>
          match asStringF f st x, asStringF f st y with
          | some s1, some s2 => .ok (s1.endsWith s2)
          | _, _ => .error .fuelExhausted) a b env out
    | .containsOp a b =>
      boolBinaryOpG (fun e1 env1 => (applyToF f e1 env1 st .expr NodeBuf.new).map NodeBuf.intoNodeSet) st ctx
        (fun x y =>
          match asStringF f st x, asStringF f st y with
          | some s1, some s2 => .ok (strContainsSub s1 s2)
          | _, _ => .error .fuelExhausted) a b env out
    | .root => .ok (out.add (.ref env.root))
    | .current => .ok (out.add env.current)
    | .parent =>
      match (env.current.metaOf st).parent with
      | some p => .ok (out.add (.ref p))
      | none => .ok out
    | .ancestors minE maxE => do
      let out := { out with multiple := true }
      let nmin ← applyOneG (fun e2 env2 => (applyToF f e2 env2 st .expr NodeBuf.new).map NodeBuf.intoNodeSet) f st minE env
      let nmax ← applyOneG (fun e2 env2 => (applyToF f e2 env2 st .expr NodeBuf.new).map NodeBuf.intoNodeSet) f st maxE env
      let minL := (nmin.asIntegerOpt st).getD 1
      let maxL := (nmax.asIntegerOpt st).getD i64MaxI
      if minL ≥ 0 ∧ maxL ≥ minL then
        match ancestorsLoopF f st env.current 0 minL maxL out with
        | some out => .ok out
        | none => .error .fuelExhausted
      else .ok out
    | .descendants minE maxE => do
      let out := { out with multiple := true }
      let nmin ← applyOneG (fun e2 env2 => (applyToF f e2 env2 st .expr NodeBuf.new).map NodeBuf.intoNodeSet) f st minE env
      let nmax ← applyOneG (fun e2 env2 => (applyToF f e2 env2 st .expr NodeBuf.new).map NodeBuf.intoNodeSet) f st maxE env
      let minL := (nmin.asIntegerOpt st).getD 1
      let maxL := (nmax.asIntegerOpt st).getD i64MaxI
      if minL ≥ 0 ∧ maxL ≥ minL then
        match addDescendantsF f st env.current 0 minL maxL out with
        | some out => .ok out
        | none => .error .fuelExhausted
      else .ok out
    | .all => .ok (getChildAllB st env.current { out with multiple := true })
    | .attr a => getAttrE f st env.current a out
    | .property id => .ok (getChildKeyB st env.current id.name out)
    | .propertyExpr e1 => applyToF f e1 env st .property out
    | .index i => .ok (getChildIndexB st env.current i out)
    | .indexExpr e1 => applyToF f e1 env st .index out
    | .range s p t =>
      if ctx = .index ∨ ctx = .property then
        let len := (childrenCountOf st env.current).getD 0
        if len = 0 then .ok out
        else do
          let lenF := f64OfInt (len : Int)
          let lastF := f64OfInt ((len : Int) - 1)
          let start0 ← (match s with
            | none => pure (none : Option F64)
            | some e1 => do
              let n ← applyOneG (fun e2 env2 => (applyToF f e2 env2 st .expr NodeBuf.new).map NodeBuf.intoNodeSet) f st e1 env
              pure (some (n.asFloat st)))
          let stop0 ← (match t with
            | none => pure (none : Option F64)
            | some e1 => do
              let n ← applyOneG (fun e2 env2 => (applyToF f e2 env2 st .expr NodeBuf.new).map NodeBuf.intoNodeSet) f st e1 env
              pure (some (n.asFloat st)))
          let start1 := start0.getD (.finite ⟨0, 0⟩)
          let stop1 := stop0.getD lastF
          let start2 := if start1.pcmp (.finite ⟨0, 0⟩) = some .lt
                        then F64.add start1 lenF else start1
          let stop2 := if stop1.pcmp (.finite ⟨0, 0⟩) = some .lt
                       then F64.add stop1 lenF else stop1
          if stop2.pcmp (.finite ⟨0, 0⟩) = some .lt ∧ start2.ieeeEq (.finite ⟨0, 0⟩) then
            .ok out
          else if start2.pcmp lastF = some .gt ∧ stop2.pcmp lastF = some .gt then
            .ok out
          else
            rangeEmitF f st env.current ctx
              (start2.fclamp (.finite ⟨0, 0⟩) lastF) (stop2.fclamp (.finite ⟨0, 0⟩) lastF)
              (match p with
               | none => pure (none : Option F64)
               | some e1 => do
                 let n ← applyOneG (fun e2 env2 => (applyToF f e2 env2 st .expr NodeBuf.new).map NodeBuf.intoNodeSet) f st e1 env
                 pure (some (n.asFloat st))) out
      else do
        let start0 ← (match s with
          | none => pure (none : Option F64)
          | some e1 => do
            let n ← applyOneG (fun e2 env2 => (applyToF f e2 env2 st .expr NodeBuf.new).map NodeBuf.intoNodeSet) f st e1 env
            pure (some (n.asFloat st)))
        let stop0 ← (match t with
          | none => pure (none : Option F64)
          | some e1 => do
            let n ← applyOneG (fun e2 env2 => (applyToF f e2 env2 st .expr NodeBuf.new).map NodeBuf.intoNodeSet) f st e1 env
            pure (some (n.asFloat st)))
        rangeEmitF f st env.current ctx
          (start0.getD (.finite ⟨0, 0⟩)) (stop0.getD (.finite ⟨0, 0⟩))
          (match p with
           | none => pure (none : Option F64)
           | some e1 => do
             let n ← applyOneG (fun e2 env2 => (applyToF f e2 env2 st .expr NodeBuf.new).map NodeBuf.intoNodeSet) f st e1 env
             pure (some (n.asFloat st))) out
    | .group elems =>
      applyListCtxG (fun e1 o => applyToF f e1 env st ctx o) elems
        { out with multiple := true }
    | .sequence elems => do
      let out1 ← applySeqListG (fun e1 n o => applyToF f e1 (env.withCurrent n) st .expr o)
        elems ⟨false, [env.current]⟩
      if ctx = .index then applyNodesE f st env.current ctx out1.elems out
      else .ok (out.merge out1)
    | .methodCall id _args => .error (.externalCall id)
    | .funcCall id _args => .error (.externalCall id)
    | .var id =>
      match env.scope with
      | some sc =>
        match scopeGetVar sc id.name with
        | some v => .ok (out.addAll v)
        | none => .ok out
      | none => .ok out
    | .varExpr e1 =>
      match env.scope with
      | some sc => do
        let res ← (applyToF f e1 env st .expr NodeBuf.new).map NodeBuf.intoNodeSet
        match res with
        | .empty => .ok out
        | .one n =>
          match asStringF f st n with
          | some name =>
            match scopeGetVar sc name with
            | some v => .ok (out.addAll v)
            | none => .ok out
          | none => .error .fuelExhausted
        | .many ns =>
          match asStringList f st ns with
          | some names =>
            .ok (names.foldl
              (fun o name =>
                match scopeGetVar sc name with
                | some v => o.addAll v
                | none => o) out)
          | none => .error .fuelExhausted
      | none => .ok out
    | .env id =>
      let res := ((env.procEnv.find? (fun kv => kv.1 = id.name)).map (·.2)).getD ""
      .ok (out.add (.prim (.string res)))
    | .envExpr e1 => do
      let res ← (applyToF f e1 env st .expr NodeBuf.new).map NodeBuf.intoNodeSet
      match res with
      | .empty => .error .panicked
      | .one n =>
        match asStringF f st n with
        | some name =>
          let v := ((env.procEnv.find? (fun kv => kv.1 = name)).map (·.2)).getD ""
          .ok (out.add (.prim (.string v)))
        | none => .error .fuelExhausted
      | .many ns =>
        match asStringList f st ns with
        | some names =>
          .ok (names.foldl
            (fun o name =>
              let v := ((env.procEnv.find? (fun kv => kv.1 = name)).map (·.2)).getD ""
              o.add (.prim (.string v))) out)
        | none => .error .fuelExhausted

/-- `Expr::apply(env, ctx)`: run into a fresh buffer and finalize. -/
def applyF (fuel : Nat) (e : Expr) (env : EvalEnv) (st : Store) (ctx : EvalCtx) :
    Except EvalErr NodeSet :=
  (applyToF fuel e env st ctx NodeBuf.new).map NodeBuf.intoNodeSet

/-- `Expr::apply_one(env, ctx)`: `One(n)` yields `n`; anything else is the
`SingleNodeExpected` error carrying the display of the node set. -/
def exprApplyOneF (fuel : Nat) (e : Expr) (env : EvalEnv) (st : Store) (ctx : EvalCtx) :
    Except EvalErr RVal := do
  let n ← applyF fuel e env st ctx
  match n with
  | .one x => pure x
  | ns =>
    match nodeSetDisplayF fuel st ns with
    | some s => .error (.singleNodeExpected s)
    | none => .error .fuelExhausted

/-! ### The `Opath` API (src/opath/opath.rs) -/

/-- `Opath::apply(root, current)`: evaluate in value context with no scope
(the ambient process environment is passed explicitly). -/
def opathApply (fuel : Nat) (st : Store) (procEnv : List (String × String))
    (e : Expr) (root current : NodeId) : Except EvalErr NodeSet :=
  applyF fuel e ⟨root, .ref current, none, procEnv⟩ st .expr

/-- `Opath::apply_one(root, current)` (opath.rs 158–169): an `Empty` result
yields a fresh null node, `One(a)` yields `a`, and a `Many` result hits
`unimplemented!()` — a panic, not an error value. -/
def opathApplyOne (fuel : Nat) (st : Store) (procEnv : List (String × String))
    (e : Expr) (root current : NodeId) : Except EvalErr RVal := do
  let res ← opathApply fuel st procEnv e root current
  match res with
  | .empty => pure (.prim .null)
  | .one a => pure a
  | .many _ => .error .panicked

/-! ## Claims -/

/-- A one-node store holding a single null root. -/
def oneNullStore : Store := ⟨[Node.nullNode]⟩

/-- Evaluation environment rooted at node 0 of a store. -/
def nullEnv : EvalEnv := ⟨0, .ref 0, none, []⟩

/-- The four binary arithmetic operators of `Expr`. -/
inductive ArithOp where
  | add
  | sub
  | mul
  | div
deriving DecidableEq, Repr

/-- The `Expr` constructor of an arithmetic operator. -/
def ArithOp.toExpr : ArithOp → Expr → Expr → Expr
  | .add => .add
  | .sub => .sub
  | .mul => .mul
  | .div => .div

/-- The per-pair emitter `Expr::apply_to` hands to `math_binary_op` for each
operator. -/
def ArithOp.pairFn : ArithOp → PairFn
  | .add => addPairE
  | .sub => subPairE
  | .mul => mulPairE
  | .div => divPairE

/-- Modelled from the spec: the operand pairs a binary arithmetic operator
combines, `none` when either side is `Empty` (the NaN case); One×One is the
single pair, One×Many and Many×One broadcast the single node against every
element of the other side, Many×Many pairs position-wise and the elements of
the longer side beyond the shorter side are dropped. -/
def mathPairs : NodeSet → NodeSet → Option (List (RVal × RVal))
  | .empty, _ => none
  | _, .empty => none
  | .one x, .one y => some [(x, y)]
  | .one x, .many ys => some (ys.map (fun y => (x, y)))
  | .many xs, .one y => some (xs.map (fun x => (x, y)))
  | .many xs, .many ys => some (xs.zip ys)

/-- The kind combinations on which `extend` must fail: anything but
array-with-array or object-with-object (an array with an object, an object
with an array, or either side a non-container). -/
def extendIncompat : Val → Val → Prop
  | .array _, .array _ => False
  | .object _, .object _ => False
  | _, _ => True

/-- A two-node store whose root is a one-element array (the C10 witness
store). -/
def c10Store : Store := ⟨[⟨.array [1], Meta.new⟩, Node.nullNode]⟩

/-- A store whose root is a one-element array with correct child metadata
(the C4 example store). -/
def c4Store : Store := ⟨[⟨.array [1], Meta.new⟩, ⟨.null, ⟨some 0, 0, "0", none, none⟩⟩]⟩

/-- The store produced by deep-copying the root of `c4Store` (fuel 2): the
original two nodes followed by the copied child and the copied array root. -/
def c6WitStore : Store :=
  ⟨[⟨.array [1], Meta.new⟩, ⟨.null, ⟨some 0, 0, "0", none, none⟩⟩,
    ⟨.null, ⟨some 3, 0, "0", none, none⟩⟩, ⟨.array [2], ⟨none, 0, "", none, none⟩⟩]⟩

/-- A metadata-consistent parent chain from `r` down to a node: each node's
parent metadata points at a container that really holds it at its recorded
index (arrays) or key (objects), and the top `r` is parentless.  This is the
well-formedness `Opath::from` relies on while walking upward. -/
inductive UpChain (st : Store) (r : NodeId) : NodeId → Prop
  | root : (st.get r).meta.parent = none → UpChain st r r
  | arrayStep {p n : NodeId} {elems : List NodeId} :
      UpChain st r p →
      (st.get n).meta.parent = some p →
      (st.get p).value = .array elems →
      elems.get? (st.get n).meta.index = some n →
      UpChain st r n
  | objectStep {p n : NodeId} {props : List (String × NodeId)} :
      UpChain st r p →
      (st.get n).meta.parent = some p →
      (st.get p).value = .object props →
      propsGet props (st.get n).meta.key = some n →
      UpChain st r n

set_option maxRecDepth 400000

/-- A node viewed as an array or object of length `len` has exactly `len`
children. -/
theorem childrenLenOfView (st : Store) (cur : RVal) (len : Nat)
    (h : cur.view st = .arrayV len ∨ cur.view st = .objectV len) :
    (cur.childrenOf st).length = len := by
  cases cur with
  | ref id =>
    cases hv : (st.get id).value <;> simp [RVal.view, hv] at h <;>
      simp [RVal.childrenOf, hv, h]
  | prim p => cases p <;> simp [RVal.view] at h
  | freshArr elems =>
    simp [RVal.view] at h
    simp [RVal.childrenOf, h]


/-- A one-element pair list through the position-wise loop is the bare
per-pair emitter. -/
theorem mathZipSingle (f : Nat) (st : Store) (cur : RVal) (ctx : EvalCtx)
    (op : PairFn) (x y : RVal) (out : NodeBuf) :
    mathZipF f st cur ctx op [(x, y)] out = op f st cur ctx x y out := by
  show (do
      let o ← op f st cur ctx x y out
      mathZipF f st cur ctx op [] o) = op f st cur ctx x y out
  cases h : op f st cur ctx x y out <;> rfl

/-- Broadcasting One×Many is the position-wise loop over the pairs that
repeat the single left node. -/
theorem mathOneManyEqZip (f : Nat) (st : Store) (cur : RVal) (ctx : EvalCtx)
    (op : PairFn) (x : RVal) :
    ∀ (ys : List RVal) (out : NodeBuf),
      mathOneManyF f st cur ctx op x ys out =
        mathZipF f st cur ctx op (ys.map (fun y => (x, y))) out := by
  intro ys
  induction ys with
  | nil => intro out; rfl
  | cons y ys ih =>
    intro out
    show (do
        let o ← op f st cur ctx x y out
        mathOneManyF f st cur ctx op x ys o) =
      (do
        let o ← op f st cur ctx x y out
        mathZipF f st cur ctx op (ys.map (fun y => (x, y))) o)
    cases op f st cur ctx x y out with
    | error e => rfl
    | ok o => exact ih o

/-- Broadcasting Many×One is the position-wise loop over the pairs that
repeat the single right node. -/
theorem mathManyOneEqZip (f : Nat) (st : Store) (cur : RVal) (ctx : EvalCtx)
    (op : PairFn) (y : RVal) :
    ∀ (xs : List RVal) (out : NodeBuf),
      mathManyOneF f st cur ctx op y xs out =
        mathZipF f st cur ctx op (xs.map (fun x => (x, y))) out := by
  intro xs
  induction xs with
  | nil => intro out; rfl
  | cons x xs ih =>
    intro out
    show (do
        let o ← op f st cur ctx x y out
        mathManyOneF f st cur ctx op y xs o) =
      (do
        let o ← op f st cur ctx x y out
        mathZipF f st cur ctx op (xs.map (fun x => (x, y))) o)
    cases op f st cur ctx x y out with
    | error e => rfl
    | ok o => exact ih o


/-- C3 counterexample: evaluating `3 - '2'` in value context does not yield
the integer 1 — the `sub` coercion falls into the generic float branch and
yields the float 1.0. -/
theorem c3_counterexample :
    applyF 10 (.sub (.integer 3) (.string "2")) nullEnv oneNullStore .expr ≠
      .ok (.one (.prim (.integer 1))) := by
  have h : applyF 10 (.sub (.integer 3) (.string "2")) nullEnv oneNullStore .expr =
      .ok (.one (.prim (.float (.finite ⟨1, 0⟩)))) := rfl
  rw [h]
  simp

/-- C3 (amended): `3 - '2'` evaluates to the float `1.0` (both operands
coerce through `as_float`), and `'3aaa' - 2` evaluates to float NaN (the
string fails to parse). -/
theorem c3_sub_string_coercion :
    applyF 10 (.sub (.integer 3) (.string "2")) nullEnv oneNullStore .expr =
      .ok (.one (.prim (.float (.finite ⟨1, 0⟩)))) ∧
    applyF 10 (.sub (.string "3aaa") (.integer 2)) nullEnv oneNullStore .expr =
      .ok (.one (.prim (.float .nan))) :=
  ⟨rfl, rfl⟩

/-- C1 counterexample: `Opath::apply_one` on an expression evaluating to an
empty node set (`Parent` at the root) returns `Ok` with a fresh null node —
it does not fail with `SingleNodeExpected`. -/
theorem c1_counterexample :
    opathApply 10 oneNullStore [] .parent 0 0 = .ok .empty ∧
    opathApplyOne 10 oneNullStore [] .parent 0 0 = .ok (.prim .null) :=
  ⟨rfl, rfl⟩

/-- C1 (amended): `Expr::apply_one` returns the node of a `One` result and
fails with `SingleNodeExpected` (carrying the node-set display) on any other
result; `Opath::apply_one` instead maps `Empty` to a fresh null node and hits
`unimplemented!()` (a panic) on `Many`. -/
theorem c1_apply_one_behavior :
    (∀ (fuel : Nat) (e : Expr) (env : EvalEnv) (st : Store) (ctx : EvalCtx) (n : RVal),
      applyF fuel e env st ctx = .ok (.one n) →
      exprApplyOneF fuel e env st ctx = .ok n) ∧
    (∀ (fuel : Nat) (e : Expr) (env : EvalEnv) (st : Store) (ctx : EvalCtx)
        (ns : NodeSet) (s : String),
      applyF fuel e env st ctx = .ok ns → (∀ x, ns ≠ .one x) →
      nodeSetDisplayF fuel st ns = some s →
      exprApplyOneF fuel e env st ctx = .error (.singleNodeExpected s)) ∧
    (∀ (fuel : Nat) (st : Store) (pe : List (String × String)) (e : Expr)
        (root cur : NodeId),
      opathApply fuel st pe e root cur = .ok .empty →
      opathApplyOne fuel st pe e root cur = .ok (.prim .null)) ∧
    (∀ (fuel : Nat) (st : Store) (pe : List (String × String)) (e : Expr)
        (root cur : NodeId) (xs : List RVal),
      opathApply fuel st pe e root cur = .ok (.many xs) →
      opathApplyOne fuel st pe e root cur = .error .panicked) := by
  refine ⟨?_, ?_, ?_, ?_⟩
  · intro fuel e env st ctx n h
    unfold exprApplyOneF
    rw [h]
    rfl
  · intro fuel e env st ctx ns s h hne hd
    match ns, h, hne, hd with
    | .empty, h, _, hd =>
      have hs : s = "<empty>" := by
        have h2 : (some "<empty>" : Option String) = some s := hd
        exact (Option.some.inj h2).symm
      have he : exprApplyOneF fuel e env st ctx = .error (.singleNodeExpected "<empty>") := by
        unfold exprApplyOneF
        rw [h]
        rfl
      rw [he, hs]
    | .many xs, h, _, hd =>
      have he : exprApplyOneF fuel e env st ctx = .error (.singleNodeExpected s) := by
        unfold exprApplyOneF
        rw [h]
        show (match nodeSetDisplayF fuel st (NodeSet.many xs) with
          | some s1 => Except.error (EvalErr.singleNodeExpected s1)
          | none => Except.error EvalErr.fuelExhausted) = _
        rw [hd]
      exact he
    | .one x, _, hne, _ => exact absurd rfl (hne x)
  · intro fuel st pe e root cur h
    unfold opathApplyOne
    rw [h]
    rfl
  · intro fuel st pe e root cur xs h
    unfold opathApplyOne
    rw [h]
    rfl

/-- C1 witness: `Expr::apply_one` on `Parent` at the root (an `Empty` result)
is the `SingleNodeExpected` error displaying `<empty>`. -/
theorem c1_apply_one_behavior_witness :
    exprApplyOneF 10 .parent nullEnv oneNullStore .expr =
      .error (.singleNodeExpected "<empty>") :=
  c1_apply_one_behavior.2.1 10 .parent nullEnv oneNullStore .expr .empty "<empty>"
    rfl (by intro x h; cases h) rfl

/-- C7: adding two i64 integers whose exact sum does not fit in an i64
yields the float sum of their float conversions; when the sum fits it yields
the integer sum; and (the spec scenario, where the oversized literal is
already a float after parsing) adding the float 2⁶⁴ and the integer 3 yields
the float 2⁶⁴ = 1.8446744073709552e19. -/
theorem c7_integer_add_overflow :
    (∀ (f : Nat) (env : EvalEnv) (st : Store) (a b : Int),
      i64InRange a → i64InRange b → ¬i64InRange (a + b) →
      applyF (f + 2) (.add (.integer a) (.integer b)) env st .expr =
        .ok (.one (.prim (.float (F64.add (f64OfInt a) (f64OfInt b)))))) ∧
    (∀ (f : Nat) (env : EvalEnv) (st : Store) (a b : Int),
      i64InRange a → i64InRange b → i64InRange (a + b) →
      applyF (f + 2) (.add (.integer a) (.integer b)) env st .expr =
        .ok (.one (.prim (.integer (a + b))))) ∧
    applyF 10 (.add (.float (.finite ⟨1, 64⟩)) (.integer 3)) nullEnv oneNullStore .expr =
      .ok (.one (.prim (.float (.finite ⟨1, 64⟩)))) := by
  have hstep : ∀ (f : Nat) (env : EvalEnv) (st : Store) (a b : Int),
      applyF (f + 2) (.add (.integer a) (.integer b)) env st .expr =
        Except.map NodeBuf.intoNodeSet
          (addPairE (f + 1) st env.current .expr (.prim (.integer a))
            (.prim (.integer b)) NodeBuf.new) := fun _ _ _ _ _ => rfl
  have hpair : ∀ (f : Nat) (st : Store) (cur : RVal) (a b : Int),
      addPairE f st cur .expr (.prim (.integer a)) (.prim (.integer b)) NodeBuf.new =
        if i64InRange (a + b) then .ok (NodeBuf.new.add (.prim (.integer (a + b))))
        else .ok (NodeBuf.new.add (.prim (.float (F64.add (f64OfInt a) (f64OfInt b))))) :=
    fun _ _ _ _ _ => rfl
  refine ⟨?_, ?_, rfl⟩
  · intro f env st a b _ha _hb hc
    rw [hstep, hpair, if_neg hc]
    rfl
  · intro f env st a b _ha _hb hc
    rw [hstep, hpair, if_pos hc]
    rfl

/-- C7 witness: `9223372036854775807 + 1` overflows and yields the float
2⁶³ (the float sum of the conversions of the operands). -/
theorem c7_integer_add_overflow_witness :
    applyF (8 + 2) (.add (.integer (2 ^ 63 - 1)) (.integer 1)) nullEnv oneNullStore .expr =
      .ok (.one (.prim (.float (.finite ⟨1, 63⟩)))) := by
  have h := c7_integer_add_overflow.1 8 nullEnv oneNullStore (2 ^ 63 - 1) 1
    (by decide) (by decide) (by decide)
  rw [h]
  rfl

/-- C8: extending a node with a different node of incompatible kind fails
with `ExtendIncompatibleTypes` carrying the two kinds (no mutation
accompanies the error in this state-passing embedding: no store is
returned); extending any node with itself succeeds and leaves the store
unchanged. -/
theorem c8_extend_incompatible :
    (∀ (st : Store) (t s : NodeId) (idx : Option Nat),
      t ≠ s → extendIncompat (st.get t).value (st.get s).value →
      st.extend t s idx =
        .error (.extendIncompatibleTypes (st.get t).value.kind (st.get s).value.kind)) ∧
    (∀ (st : Store) (t : NodeId) (idx : Option Nat), st.extend t t idx = .ok st) := by
  constructor
  · intro st t s idx hne hinc
    simp only [Store.extend, Store.extendInternal, if_neg hne]
    revert hinc
    cases hv1 : (st.get t).value <;> cases hv2 : (st.get s).value <;>
      first
        | exact fun hinc => False.elim hinc
        | exact fun _ => rfl
  · intro st t idx
    simp only [Store.extend, Store.extendInternal, if_pos rfl]
    rfl

/-- C8 witness: extending an (empty) array with an (empty) object fails with
`ExtendIncompatibleTypes{array, object}`; extending the array with itself
succeeds without change. -/
theorem c8_extend_incompatible_witness :
    (Store.mk [⟨.array [], Meta.new⟩, ⟨.object [], Meta.new⟩]).extend 0 1 none =
      .error (.extendIncompatibleTypes .array .object) ∧
    (Store.mk [⟨.array [], Meta.new⟩, ⟨.object [], Meta.new⟩]).extend 0 0 none =
      .ok (Store.mk [⟨.array [], Meta.new⟩, ⟨.object [], Meta.new⟩]) :=
  ⟨c8_extend_incompatible.1 _ 0 1 none (by decide) (by constructor),
   c8_extend_incompatible.2 _ 0 none⟩

/-- C2: for each of the four binary arithmetic operators, `Expr::apply_to`
evaluates both operands in value context and combines the resulting node
sets pairwise through `math_binary_op`: an `Empty` side yields the single
float NaN, One×One the single per-pair result, One×Many and Many×One
broadcast the single node, and Many×Many combines position-wise with the
excess elements of the longer side dropped. -/
theorem c2_math_binary_broadcast :
    ∀ (op : ArithOp) (f : Nat) (st : Store) (ctx : EvalCtx) (a b : Expr)
      (env : EvalEnv) (out : NodeBuf) (na nb : NodeSet),
      (applyToF f a env st .expr NodeBuf.new).map NodeBuf.intoNodeSet = .ok na →
      (applyToF f b env st .expr NodeBuf.new).map NodeBuf.intoNodeSet = .ok nb →
      applyToF (f + 1) (op.toExpr a b) env st ctx out =
        match mathPairs na nb with
        | none => .ok (applyFloatB st env.current ctx .nan out)
        | some ps => mathZipF f st env.current ctx op.pairFn ps out := by
  intro op f st ctx a b env out na nb ha hb
  have key : ∀ (pf : PairFn),
      mathBinaryOpG f
          (fun e1 env1 => (applyToF f e1 env1 st .expr NodeBuf.new).map NodeBuf.intoNodeSet)
          st ctx pf a b env out =
        match mathPairs na nb with
        | none => .ok (applyFloatB st env.current ctx .nan out)
        | some ps => mathZipF f st env.current ctx pf ps out := by
    intro pf
    simp only [mathBinaryOpG]
    rw [ha, hb]
    cases na with
    | empty => cases nb <;> rfl
    | one x =>
      cases nb with
      | empty => rfl
      | one y => exact (mathZipSingle f st env.current ctx pf x y out).symm
      | many ys => exact mathOneManyEqZip f st env.current ctx pf x ys out
    | many xs =>
      cases nb with
      | empty => rfl
      | one y => exact mathManyOneEqZip f st env.current ctx pf y xs out
      | many ys => rfl
  cases op with
  | add => exact key addPairE
  | sub => exact key subPairE
  | mul => exact key mulPairE
  | div => exact key divPairE

/-- C2 witness: `2 + 3` is the One×One case; both operand evaluations and
the combined form evaluate on the concrete one-node store. -/
theorem c2_math_binary_broadcast_witness :
    (applyToF 1 (.integer 2) nullEnv oneNullStore .expr NodeBuf.new).map NodeBuf.intoNodeSet =
      .ok (.one (.prim (.integer 2))) ∧
    (applyToF 1 (.integer 3) nullEnv oneNullStore .expr NodeBuf.new).map NodeBuf.intoNodeSet =
      .ok (.one (.prim (.integer 3))) ∧
    applyToF (1 + 1) (ArithOp.add.toExpr (.integer 2) (.integer 3)) nullEnv oneNullStore
        .expr NodeBuf.new =
      match mathPairs (.one (.prim (.integer 2))) (.one (.prim (.integer 3))) with
      | none => .ok (applyFloatB oneNullStore nullEnv.current .expr .nan NodeBuf.new)
      | some ps => mathZipF 1 oneNullStore nullEnv.current .expr ArithOp.add.pairFn ps NodeBuf.new :=
  ⟨rfl, rfl,
    c2_math_binary_broadcast .add 1 oneNullStore .expr (.integer 2) (.integer 3) nullEnv
      NodeBuf.new (.one (.prim (.integer 2))) (.one (.prim (.integer 3))) rfl rfl⟩

/-- C10: in Property or Index context an integer selector `n` on an array or
object of length `len` selects the child at position `len + n` when
`-len ≤ n < 0`, and leaves the buffer untouched (no error, no wrap-around)
when `n < -len` or `n ≥ len`. -/
theorem c10_negative_index_selector :
    ∀ (st : Store) (cur : RVal) (ctx : EvalCtx) (n : Int) (out : NodeBuf) (len : Nat),
      (ctx = .property ∨ ctx = .index) →
      (cur.view st = .arrayV len ∨ cur.view st = .objectV len) →
      ((-(len : Int) ≤ n → n < 0 →
        ∃ e, (cur.childrenOf st).get? ((len : Int) + n).toNat = some e ∧
          applyIntegerB st cur ctx n out = out.add e) ∧
       (n < -(len : Int) ∨ (len : Int) ≤ n →
        applyIntegerB st cur ctx n out = out)) := by
  intro st cur ctx n out len hctx hview
  have hlen := childrenLenOfView st cur len hview
  constructor
  · intro h1 h2
    have habs : toAbsIndex n len = ((len : Int) + n).toNat := by
      unfold toAbsIndex
      rw [if_pos h2, if_pos (by omega)]
    have hlt : ((len : Int) + n).toNat < (cur.childrenOf st).length := by omega
    refine ⟨(cur.childrenOf st).get ⟨((len : Int) + n).toNat, hlt⟩,
      List.get?_eq_get hlt, ?_⟩
    rcases hctx with rfl | rfl <;> rcases hview with hv | hv <;>
      simp only [applyIntegerB, getChildIndexB, hv, habs, List.get?_eq_get hlt]
  · intro h
    have habs : (cur.childrenOf st).get? (toAbsIndex n len) = none := by
      rcases h with h | h
      · have habs2 : toAbsIndex n len = len := by
          unfold toAbsIndex
          rw [if_pos (by omega), if_neg (by omega)]
        rw [habs2]
        exact List.get?_eq_none.2 (by omega)
      · have habs2 : toAbsIndex n len = n.toNat := by
          unfold toAbsIndex
          rw [if_neg (by omega)]
        rw [habs2]
        exact List.get?_eq_none.2 (by omega)
    rcases hctx with rfl | rfl <;> rcases hview with hv | hv <;>
      simp only [applyIntegerB, getChildIndexB, hv, habs]

/-- C10 witness: the selector `-1` on a one-element array picks the child at
position `1 + (-1) = 0`, and the selector `-2` on the same array emits
nothing. -/
theorem c10_negative_index_selector_witness :
    (∃ e, ((RVal.ref 0).childrenOf c10Store).get? ((1 : Int) + (-1)).toNat = some e ∧
      applyIntegerB c10Store (.ref 0) .index (-1) NodeBuf.new = NodeBuf.new.add e) ∧
    applyIntegerB c10Store (.ref 0) .index (-2) NodeBuf.new = NodeBuf.new :=
  ⟨(c10_negative_index_selector c10Store (.ref 0) .index (-1) NodeBuf.new 1
      (Or.inr rfl) (Or.inl rfl)).1 (by decide) (by decide),
   (c10_negative_index_selector c10Store (.ref 0) .index (-2) NodeBuf.new 1
      (Or.inr rfl) (Or.inl rfl)).2 (Or.inl (by decide))⟩

/-- Splitting a successful `Except` bind. -/
theorem bindOkShape {ε α β : Type} {x : Except ε α} {g : α → Except ε β} {r : β}
    (h : x >>= g = .ok r) : ∃ a, x = .ok a ∧ g a = .ok r := by
  cases x with
  | error e => exact Except.noConfusion h
  | ok a => exact ⟨a, rfl, h⟩

/-- Injectivity of a successful `Except` outcome. -/
theorem okInj {ε α : Type} {a b : α} (h : (Except.ok a : Except ε α) = .ok b) : a = b :=
  Except.ok.inj h

/-- Reading the node just replaced. -/
theorem storeGetModifySame (st : Store) (id : NodeId) (f : Node → Node)
    (h : st.validId id) : (st.modifyNode id f).get id = f (st.get id) := by
  have hlt : id < st.nodes.length := h
  have hsome : st.nodes.get? id = some (st.nodes.get ⟨id, hlt⟩) := List.get?_eq_get hlt
  have hget : st.get id = st.nodes.get ⟨id, hlt⟩ := by
    unfold Store.get
    rw [hsome]
    rfl
  have hmod : st.modifyNode id f = ⟨st.nodes.set id (f (st.nodes.get ⟨id, hlt⟩))⟩ := by
    unfold Store.modifyNode
    rw [hsome]
  rw [hmod, hget]
  unfold Store.get
  rw [List.get?_set_eq_of_lt _ hlt]
  rfl

/-- Reading any other node after a replacement. -/
theorem storeGetModifyOther (st : Store) (id q : NodeId) (f : Node → Node)
    (h : q ≠ id) : (st.modifyNode id f).get q = st.get q := by
  unfold Store.modifyNode
  cases hsome : st.nodes.get? id with
  | none => rfl
  | some n =>
    show ((st.nodes.set id (f n)).get? q).getD Node.nullNode = st.get q
    unfold Store.get
    rw [List.get?_set_ne _ _ (fun he => h he.symm)]

/-- `modifyNode` preserves the store size. -/
theorem storeSizeModify (st : Store) (id : NodeId) (f : Node → Node) :
    (st.modifyNode id f).size = st.size := by
  unfold Store.modifyNode Store.size
  cases hsome : st.nodes.get? id with
  | none => rfl
  | some n => simp

/-- `modifyNode` with a metadata-only update preserves every node value. -/
theorem storeValueModify (st : Store) (id : NodeId) (f : Node → Node)
    (hf : ∀ n, (f n).value = n.value) (q : NodeId) :
    ((st.modifyNode id f).get q).value = (st.get q).value := by
  by_cases hq : q = id
  · subst hq
    by_cases hv : st.validId q
    · rw [storeGetModifySame st q f hv, hf]
    · unfold Store.modifyNode
      cases hsome : st.nodes.get? q with
      | none => rfl
      | some n =>
        obtain ⟨hlt, _⟩ := List.get?_eq_some.1 hsome
        exact absurd hlt hv
  · rw [storeGetModifyOther st id q f hq]

/-- Overwriting a node value with the value it already has changes nothing. -/
theorem storeSetValSame (st : Store) (p : NodeId) (v : Val)
    (hv : (st.get p).value = v) (q : NodeId) : (st.setVal p v).get q = st.get q := by
  by_cases hq : q = p
  · subst hq
    by_cases hval : st.validId q
    · rw [show st.setVal q v = st.modifyNode q (fun n => { n with value := v }) from rfl,
        storeGetModifySame st q _ hval, ← hv]
    · unfold Store.setVal Store.modifyNode
      cases hsome : st.nodes.get? q with
      | none => rfl
      | some n =>
        obtain ⟨hlt, _⟩ := List.get?_eq_some.1 hsome
        exact absurd hlt hval
  · exact storeGetModifyOther st p q _ hq

/-- Frame rule of the metadata loop: a node that is not among the remaining
entries is untouched. -/
theorem updLoopFrame (p : NodeId) :
    ∀ (es : List (String × NodeId)) (st : Store) (i : Nat) (q : NodeId),
      q ∉ es.map (·.2) → (updateMetaLoop st p i es).get q = st.get q := by
  intro es
  induction es with
  | nil => intro st i q _; rfl
  | cons e rest ih =>
    intro st i q hq
    obtain ⟨k, c⟩ := e
    simp only [List.map_cons, List.mem_cons] at hq
    push_neg at hq
    show (updateMetaLoop (setChildMeta st p i k c) p (i + 1) rest).get q = st.get q
    rw [ih _ _ _ hq.2]
    exact storeGetModifyOther st c q _ hq.1

/-- The metadata loop preserves the store size. -/
theorem updLoopSize (p : NodeId) :
    ∀ (es : List (String × NodeId)) (st : Store) (i : Nat),
      (updateMetaLoop st p i es).size = st.size := by
  intro es
  induction es with
  | nil => intro st i; rfl
  | cons e rest ih =>
    intro st i
    obtain ⟨k, c⟩ := e
    show (updateMetaLoop (setChildMeta st p i k c) p (i + 1) rest).size = st.size
    rw [ih]
    exact storeSizeModify st c _

/-- The metadata loop preserves every node value. -/
theorem updLoopValue (p : NodeId) :
    ∀ (es : List (String × NodeId)) (st : Store) (i : Nat) (q : NodeId),
      ((updateMetaLoop st p i es).get q).value = (st.get q).value := by
  intro es
  induction es with
  | nil => intro st i q; rfl
  | cons e rest ih =>
    intro st i q
    obtain ⟨k, c⟩ := e
    show ((updateMetaLoop (setChildMeta st p i k c) p (i + 1) rest).get q).value = (st.get q).value
    rw [ih]
    exact storeValueModify st c
      (fun n => { n with meta := { n.meta with parent := some p, index := i, key := k } })
      (fun n => rfl) q

/-- Correctness of the metadata loop: with pairwise-distinct live entries, the
child of entry `j` ends with parent `p`, index `i0 + j` and its entry key. -/
theorem updLoopMeta (p : NodeId) :
    ∀ (es : List (String × NodeId)) (st : Store) (i0 j : Nat) (k : String) (c : NodeId),
      (es.map (·.2)).Nodup → (∀ c' ∈ es.map (·.2), st.validId c') →
      es.get? j = some (k, c) →
      ((updateMetaLoop st p i0 es).get c).meta.parent = some p ∧
      ((updateMetaLoop st p i0 es).get c).meta.index = i0 + j ∧
      ((updateMetaLoop st p i0 es).get c).meta.key = k := by
  intro es
  induction es with
  | nil =>
    intro st i0 j k c _ _ hj
    exact absurd hj (by simp)
  | cons e rest ih =>
    intro st i0 j k c hnd hval hj
    obtain ⟨k0, c0⟩ := e
    simp only [List.map_cons, List.nodup_cons] at hnd
    have hval0 : st.validId c0 := hval c0 (by simp)
    have hvalrest : ∀ c' ∈ rest.map (·.2), (setChildMeta st p i0 k0 c0).validId c' := by
      intro c' hc'
      have hv := hval c' (by simp [hc'])
      have hs : (setChildMeta st p i0 k0 c0).size = st.size := storeSizeModify st c0 _
      show c' < (setChildMeta st p i0 k0 c0).size
      rw [hs]
      exact hv
    cases j with
    | zero =>
      have h2 : some (k0, c0) = some (k, c) := hj
      have h3 : (k0, c0) = (k, c) := Option.some.inj h2
      have hk : k0 = k := congrArg Prod.fst h3
      have hc : c0 = c := congrArg Prod.snd h3
      subst hk
      subst hc
      have hstep : updateMetaLoop st p i0 ((k0, c0) :: rest) =
          updateMetaLoop (setChildMeta st p i0 k0 c0) p (i0 + 1) rest := rfl
      rw [hstep, updLoopFrame p rest _ _ c0 hnd.1]
      unfold setChildMeta
      rw [storeGetModifySame st c0 _ hval0]
      exact ⟨rfl, rfl, rfl⟩
    | succ j =>
      have hj2 : rest.get? j = some (k, c) := hj
      have := ih (setChildMeta st p i0 k0 c0) (i0 + 1) j k c hnd.2 hvalrest hj2
      exact ⟨this.1, this.2.1.trans (by omega), this.2.2⟩

/-- The handles of the child entries are the child handles. -/
theorem childEntriesSndEq (st : Store) (p : NodeId) :
    (st.childEntries p).map (·.2) = st.childIds p := by
  unfold Store.childEntries Store.childIds
  cases (st.get p).value with
  | array elems =>
    show (elems.enum.map (fun e => (toString e.1, e.2))).map (·.2) = elems
    rw [List.map_map,
      show ((fun x : String × NodeId => x.2) ∘ fun e : Nat × NodeId =>
        (toString e.1, e.2)) = Prod.snd from rfl]
    exact List.enum_map_snd elems
  | object props => rfl
  | null => rfl
  | boolean b => rfl
  | integer n => rfl
  | float x => rfl
  | string s => rfl
  | binary bs => rfl

/-- Two stores agreeing on the parent value have the same child entries. -/
theorem childEntriesCongrValue {st' st : Store} (p : NodeId)
    (h : (st'.get p).value = (st.get p).value) :
    st'.childEntries p = st.childEntries p := by
  unfold Store.childEntries
  rw [h]

/-- Two stores agreeing on the parent value have the same child handles. -/
theorem childIdsCongrValue {st' st : Store} (p : NodeId)
    (h : (st'.get p).value = (st.get p).value) :
    st'.childIds p = st.childIds p := by
  unfold Store.childIds
  rw [h]

/-- The invariant transfers across pointwise-equal stores. -/
theorem childrenOkCongrGet {st' st : Store} (p : NodeId)
    (hg : ∀ q, st'.get q = st.get q) (h : st.childrenOk p) : st'.childrenOk p := by
  intro e he
  have hent : st'.childEntries p = st.childEntries p :=
    childEntriesCongrValue p (by rw [hg p])
  rw [hent] at he
  simp only [hg]
  exact h e he

/-- A successful `update_children_metadata` only changes metadata: values and
size are preserved. -/
theorem updateValueSize {st2 st3 : Store} {p : NodeId}
    (h : st2.updateChildrenMetadata p = some st3) :
    (∀ q, (st3.get q).value = (st2.get q).value) ∧ st3.size = st2.size := by
  simp only [Store.updateChildrenMetadata] at h
  by_cases hp : p ∈ (st2.childEntries p).map (·.2)
  · rw [if_pos hp] at h
    exact Option.noConfusion h
  · rw [if_neg hp] at h
    obtain rfl := (Option.some.inj h).symm
    exact ⟨fun q => updLoopValue p _ st2 0 q, updLoopSize p _ st2 0⟩

/-- A successful `update_children_metadata` establishes the invariant, given
pairwise-distinct live children. -/
theorem updateOkChildren {st1 st2 : Store} {p : NodeId}
    (h : st1.updateChildrenMetadata p = some st2)
    (hnd : (st1.childIds p).Nodup)
    (hval : ∀ c ∈ st1.childIds p, st1.validId c) :
    st2.childrenOk p := by
  simp only [Store.updateChildrenMetadata] at h
  by_cases hp : p ∈ (st1.childEntries p).map (·.2)
  · rw [if_pos hp] at h
    exact Option.noConfusion h
  · rw [if_neg hp] at h
    obtain rfl := (Option.some.inj h).symm
    intro e he
    have hent : (updateMetaLoop st1 p 0 (st1.childEntries p)).childEntries p =
        st1.childEntries p :=
      childEntriesCongrValue p (updLoopValue p _ st1 0 p)
    rw [hent] at he
    have hj : (st1.childEntries p).get? e.1 = some e.2 := List.mem_enum_iff_get?.1 he
    have hnd2 : ((st1.childEntries p).map (·.2)).Nodup := by
      rw [childEntriesSndEq]
      exact hnd
    have hval2 : ∀ c' ∈ (st1.childEntries p).map (·.2), st1.validId c' := by
      rw [childEntriesSndEq]
      exact hval
    have hj2 : (st1.childEntries p).get? e.1 = some (e.2.1, e.2.2) := by rw [hj]
    have hm := updLoopMeta p (st1.childEntries p) st1 0 e.1 e.2.1 e.2.2 hnd2 hval2 hj2
    exact ⟨hm.1, hm.2.1.trans (by omega), hm.2.2⟩

/-- As `updateOkChildren`, with the side conditions read off the resulting
store. -/
theorem updateOkChildrenPost {st2 st3 : Store} {p : NodeId}
    (h : st2.updateChildrenMetadata p = some st3)
    (hnd : (st3.childIds p).Nodup)
    (hval : ∀ c ∈ st3.childIds p, st3.validId c) :
    st3.childrenOk p := by
  obtain ⟨hv, hs⟩ := updateValueSize h
  have hids : st3.childIds p = st2.childIds p := childIdsCongrValue p (hv p)
  apply updateOkChildren h (hids ▸ hnd)
  intro c hc
  have hc3 : c ∈ st3.childIds p := by rw [hids]; exact hc
  have := hval c hc3
  show c < st2.size
  rw [← hs]
  exact this

/-- Detaching a node that is not a child of `p` preserves the invariant. -/
theorem childrenOkDetach {st : Store} {p r : NodeId}
    (h : st.childrenOk p) (hr : r ∉ st.childIds p) : (st.detachNode r).childrenOk p := by
  intro e he
  have hent : (st.detachNode r).childEntries p = st.childEntries p :=
    childEntriesCongrValue p
      (storeValueModify st r (fun n => { n with meta := n.meta.detach }) (fun n => rfl) p)
  rw [hent] at he
  have hj : (st.childEntries p).get? e.1 = some e.2 := List.mem_enum_iff_get?.1 he
  have hc : e.2.2 ∈ st.childIds p := by
    rw [← childEntriesSndEq]
    exact List.mem_map.2 ⟨e.2, List.get?_mem hj, rfl⟩
  have hne : e.2.2 ≠ r := fun hee => hr (hee ▸ hc)
  have hgot : (st.detachNode r).get e.2.2 = st.get e.2.2 := storeGetModifyOther st r e.2.2 _ hne
  rw [hgot]
  exact h e he

/-- Shape of a successful `add_child`: children metadata was re-established,
then the displaced node (if any) detached. -/
theorem addChildShape {st : Store} {p : NodeId} {index : Option Nat} {key : Option String}
    {value : NodeId} {st' : Store} {n : Option NodeId}
    (h : st.addChild p index key value = .ok (st', n)) :
    ∃ (st1 st2 : Store), st1.updateChildrenMetadata p = some st2 ∧
      st' = (match n with | some r => st2.detachNode r | none => st2) := by
  unfold Store.addChild at h
  obtain ⟨⟨st1, n1⟩, _h1, h2⟩ := bindOkShape h
  cases n1 with
  | none =>
    have h2a : (match st1.updateChildrenMetadata p with
        | none => (Except.error TreeErr.panicked : TreeRes (Store × Option NodeId))
        | some st2 => pure (st2, (none : Option NodeId))) = .ok (st', n) := h2
    cases hupd : st1.updateChildrenMetadata p with
    | none =>
      rw [hupd] at h2a
      exact Except.noConfusion h2a
    | some st2 =>
      rw [hupd] at h2a
      have h3 := okInj h2a
      have h4 : st2 = st' := congrArg Prod.fst h3
      have h5 : (none : Option NodeId) = n := congrArg Prod.snd h3
      subst h5
      exact ⟨st1, st2, hupd, h4.symm⟩
  | some r =>
    have h2a : (match st1.updateChildrenMetadata p with
        | none => (Except.error TreeErr.panicked : TreeRes (Store × Option NodeId))
        | some st2 => pure (st2.detachNode r, some r)) = .ok (st', n) := h2
    cases hupd : st1.updateChildrenMetadata p with
    | none =>
      rw [hupd] at h2a
      exact Except.noConfusion h2a
    | some st2 =>
      rw [hupd] at h2a
      have h3 := okInj h2a
      have h4 : st2.detachNode r = st' := congrArg Prod.fst h3
      have h5 : (some r : Option NodeId) = n := congrArg Prod.snd h3
      subst h5
      exact ⟨st1, st2, hupd, h4.symm⟩

/-- Shape of a successful `set_child` (same tail as `add_child`). -/
theorem setChildShape {st : Store} {p : NodeId} {index : Option Nat} {key : Option String}
    {value : NodeId} {st' : Store} {n : Option NodeId}
    (h : st.setChild p index key value = .ok (st', n)) :
    ∃ (st1 st2 : Store), st1.updateChildrenMetadata p = some st2 ∧
      st' = (match n with | some r => st2.detachNode r | none => st2) := by
  unfold Store.setChild at h
  obtain ⟨⟨st1, n1⟩, _h1, h2⟩ := bindOkShape h
  cases n1 with
  | none =>
    have h2a : (match st1.updateChildrenMetadata p with
        | none => (Except.error TreeErr.panicked : TreeRes (Store × Option NodeId))
        | some st2 => pure (st2, (none : Option NodeId))) = .ok (st', n) := h2
    cases hupd : st1.updateChildrenMetadata p with
    | none =>
      rw [hupd] at h2a
      exact Except.noConfusion h2a
    | some st2 =>
      rw [hupd] at h2a
      have h3 := okInj h2a
      have h4 : st2 = st' := congrArg Prod.fst h3
      have h5 : (none : Option NodeId) = n := congrArg Prod.snd h3
      subst h5
      exact ⟨st1, st2, hupd, h4.symm⟩
  | some r =>
    have h2a : (match st1.updateChildrenMetadata p with
        | none => (Except.error TreeErr.panicked : TreeRes (Store × Option NodeId))
        | some st2 => pure (st2.detachNode r, some r)) = .ok (st', n) := h2
    cases hupd : st1.updateChildrenMetadata p with
    | none =>
      rw [hupd] at h2a
      exact Except.noConfusion h2a
    | some st2 =>
      rw [hupd] at h2a
      have h3 := okInj h2a
      have h4 : st2.detachNode r = st' := congrArg Prod.fst h3
      have h5 : (some r : Option NodeId) = n := congrArg Prod.snd h3
      subst h5
      exact ⟨st1, st2, hupd, h4.symm⟩

/-- Shape of a successful `remove_child`: either children metadata was
re-established (after detaching the removed node), or nothing changed. -/
theorem removeChildShape {st : Store} {p : NodeId} {index : Option Nat} {key : Option String}
    {st' : Store} {n : Option NodeId}
    (h : st.removeChild p index key = .ok (st', n)) :
    (∃ (st1 : Store), st1.updateChildrenMetadata p = some st') ∨ (∀ q, st'.get q = st.get q) := by
  unfold Store.removeChild at h
  obtain ⟨⟨st1, n1⟩, h1, h2⟩ := bindOkShape h
  cases n1 with
  | some r =>
    have h2a : (match (st1.detachNode r).updateChildrenMetadata p with
        | none => (Except.error TreeErr.panicked : TreeRes (Store × Option NodeId))
        | some st3 => pure (st3, some r)) = .ok (st', n) := h2
    cases hupd : (st1.detachNode r).updateChildrenMetadata p with
    | none =>
      rw [hupd] at h2a
      exact Except.noConfusion h2a
    | some st3 =>
      rw [hupd] at h2a
      have hst : st3 = st' := congrArg Prod.fst (okInj h2a)
      exact Or.inl ⟨st1.detachNode r, by rw [hupd, hst]⟩
  | none =>
    have h2a : (pure (st1, (none : Option NodeId)) : TreeRes (Store × Option NodeId)) =
        .ok (st', n) := h2
    have hst : st1 = st' := congrArg Prod.fst (okInj h2a)
    subst hst
    right
    cases hv : (st.get p).value with
    | array elems =>
      rw [hv] at h1
      cases index with
      | some i =>
        have h1a : (if i < elems.length then
              (pure (st.setVal p (.array (elems.eraseIdx i)), elems.get? i) :
                TreeRes (Store × Option NodeId))
            else pure (st, none)) = .ok (st1, none) := h1
        by_cases hi : i < elems.length
        · rw [if_pos hi] at h1a
          have hsnd : elems.get? i = none := congrArg Prod.snd (okInj h1a)
          rw [List.get?_eq_get hi] at hsnd
          exact Option.noConfusion hsnd
        · rw [if_neg hi] at h1a
          have hfst : st = st1 := congrArg Prod.fst (okInj h1a)
          intro q
          rw [← hfst]
      | none =>
        have h1b : (match elems.getLast? with
            | some l => (pure (st.setVal p (.array elems.dropLast), some l) :
                TreeRes (Store × Option NodeId))
            | none => pure (st, none)) = .ok (st1, none) := h1
        cases hl : elems.getLast? with
        | some l =>
          rw [hl] at h1b
          have hsnd := congrArg Prod.snd (okInj h1b)
          exact Option.noConfusion hsnd
        | none =>
          rw [hl] at h1b
          have hfst : st = st1 := congrArg Prod.fst (okInj h1b)
          intro q
          rw [← hfst]
    | object props =>
      rw [hv] at h1
      cases key with
      | some k =>
        have h1a : (pure (st.setVal p (.object (propsRemove props k).1),
            (propsRemove props k).2) : TreeRes (Store × Option NodeId)) = .ok (st1, none) := h1
        cases hfind : props.findIdx? (fun e => e.1 = k) with
        | some j =>
          have hrm : propsRemove props k = (props.eraseIdx j, (props.get? j).map (·.2)) := by
            unfold propsRemove
            rw [hfind]
          rw [hrm] at h1a
          have hsnd : (props.get? j).map (·.2) = none := congrArg Prod.snd (okInj h1a)
          cases hg : props.get? j with
          | some e0 =>
            rw [hg] at hsnd
            exact Option.noConfusion hsnd
          | none =>
            have hj : props.length ≤ j := List.get?_eq_none.1 hg
            have her : props.eraseIdx j = props := List.eraseIdx_of_length_le hj
            have hfst : st.setVal p (.object (props.eraseIdx j)) = st1 :=
              congrArg Prod.fst (okInj h1a)
            rw [her] at hfst
            intro q
            rw [← hfst]
            exact storeSetValSame st p (.object props) hv q
        | none =>
          have hrm : propsRemove props k = (props, none) := by
            unfold propsRemove
            rw [hfind]
          rw [hrm] at h1a
          have hfst : st.setVal p (.object props) = st1 := congrArg Prod.fst (okInj h1a)
          intro q
          rw [← hfst]
          exact storeSetValSame st p (.object props) hv q
      | none =>
        cases index with
        | some i =>
          have h1a : (pure (st.setVal p (.object (propsRemoveAt props i).1),
              (propsRemoveAt props i).2) : TreeRes (Store × Option NodeId)) =
              .ok (st1, none) := h1
          cases hg : props.get? i with
          | some e0 =>
            have hrm : propsRemoveAt props i = (props.eraseIdx i, some e0.2) := by
              unfold propsRemoveAt
              rw [hg]
            rw [hrm] at h1a
            have hsnd := congrArg Prod.snd (okInj h1a)
            exact Option.noConfusion hsnd
          | none =>
            have hrm : propsRemoveAt props i = (props, none) := by
              unfold propsRemoveAt
              rw [hg]
            rw [hrm] at h1a
            have hfst : st.setVal p (.object props) = st1 := congrArg Prod.fst (okInj h1a)
            intro q
            rw [← hfst]
            exact storeSetValSame st p (.object props) hv q
        | none =>
          have h1a : (pure (st, (none : Option NodeId)) :
              TreeRes (Store × Option NodeId)) = .ok (st1, none) := h1
          have hfst : st = st1 := congrArg Prod.fst (okInj h1a)
          intro q
          rw [← hfst]
    | null => rw [hv] at h1; exact Except.noConfusion h1
    | boolean b => rw [hv] at h1; exact Except.noConfusion h1
    | integer i => rw [hv] at h1; exact Except.noConfusion h1
    | float x => rw [hv] at h1; exact Except.noConfusion h1
    | string s => rw [hv] at h1; exact Except.noConfusion h1
    | binary bs => rw [hv] at h1; exact Except.noConfusion h1

/-- Shape of a successful `add_children`. -/
theorem addChildrenShape {st : Store} {p : NodeId} {drop : Bool}
    {items : List (Option Nat × Option String × NodeId)} {st' : Store} {res : List NodeId}
    (h : st.addChildren p drop items = .ok (st', res)) :
    ∃ (st1 : Store), st1.updateChildrenMetadata p = some st' := by
  unfold Store.addChildren at h
  obtain ⟨⟨st1, res1⟩, _h1, h2⟩ := bindOkShape h
  have h2a : (match st1.updateChildrenMetadata p with
      | none => (Except.error TreeErr.panicked : TreeRes (Store × List NodeId))
      | some st2 => pure (st2, res1)) = .ok (st', res) := h2
  cases hupd : st1.updateChildrenMetadata p with
  | none =>
    rw [hupd] at h2a
    exact Except.noConfusion h2a
  | some st2 =>
    rw [hupd] at h2a
    have hst : st2 = st' := congrArg Prod.fst (okInj h2a)
    exact ⟨st1, by rw [hupd, hst]⟩

/-- Shape of a successful `remove_children`. -/
theorem removeChildrenShape {st : Store} {p : NodeId} {drop : Bool}
    {items : List (Option Nat × Option String)} {st' : Store} {res : List NodeId}
    (h : st.removeChildren p drop items = .ok (st', res)) :
    ∃ (st1 : Store), st1.updateChildrenMetadata p = some st' := by
  unfold Store.removeChildren at h
  obtain ⟨⟨st1, res1⟩, _h1, h2⟩ := bindOkShape h
  have h2a : (match st1.updateChildrenMetadata p with
      | none => (Except.error TreeErr.panicked : TreeRes (Store × List NodeId))
      | some st2 => pure (st2, res1)) = .ok (st', res) := h2
  cases hupd : st1.updateChildrenMetadata p with
  | none =>
    rw [hupd] at h2a
    exact Except.noConfusion h2a
  | some st2 =>
    rw [hupd] at h2a
    have hst : st2 = st' := congrArg Prod.fst (okInj h2a)
    exact ⟨st1, by rw [hupd, hst]⟩

/-- `extend_internal` reporting no update did nothing. -/
theorem extendInternalFalse {st : Store} {self o : NodeId} {index : Option Nat} {st1 : Store}
    (h : st.extendInternal self o index = .ok (st1, false)) : st1 = st := by
  unfold Store.extendInternal at h
  by_cases he : self = o
  · rw [if_pos he] at h
    exact (congrArg Prod.fst (okInj h)).symm
  · rw [if_neg he] at h
    cases hv1 : (st.get self).value <;> cases hv2 : (st.get o).value <;>
      rw [hv1, hv2] at h <;>
      first
        | exact Except.noConfusion h
        | exact Bool.noConfusion (congrArg Prod.snd (okInj h))

/-- Shape of a successful `extend`: either children metadata was
re-established, or nothing changed. -/
theorem extendShape {st : Store} {p o : NodeId} {index : Option Nat} {st' : Store}
    (h : st.extend p o index = .ok st') :
    (∃ (st1 : Store), st1.updateChildrenMetadata p = some st') ∨ st' = st := by
  unfold Store.extend at h
  obtain ⟨⟨st1, updated⟩, h1, h2⟩ := bindOkShape h
  cases updated with
  | false =>
    have h2a : (pure st1 : TreeRes Store) = .ok st' := h2
    have hst : st1 = st' := okInj h2a
    exact Or.inr (by rw [← hst, extendInternalFalse h1])
  | true =>
    have h2a : (match st1.updateChildrenMetadata p with
        | none => (Except.error TreeErr.panicked : TreeRes Store)
        | some st2 => pure st2) = .ok st' := h2
    cases hupd : st1.updateChildrenMetadata p with
    | none =>
      rw [hupd] at h2a
      exact Except.noConfusion h2a
    | some st2 =>
      rw [hupd] at h2a
      have hst : st2 = st' := okInj h2a
      exact Or.inl ⟨st1, by rw [hupd, hst]⟩

/-- The `extend_multiple` fold reporting no update did nothing. -/
theorem extMultFoldFalse {p : NodeId} :
    ∀ (exs : List (NodeId × Option Nat)) (st0 : Store) (u0 : Bool) (st1 : Store),
      exs.foldlM (fun su ex => do
        let (s, u) := su
        let (s', u') ← s.extendInternal p ex.1 ex.2
        pure (s', u || u')) (st0, u0) = .ok (st1, false) →
      st1 = st0 ∧ u0 = false := by
  intro exs
  induction exs with
  | nil =>
    intro st0 u0 st1 h
    have h2 : (pure (st0, u0) : TreeRes (Store × Bool)) = .ok (st1, false) := h
    have h3 := okInj h2
    exact ⟨(congrArg Prod.fst h3).symm, congrArg Prod.snd h3⟩
  | cons ex exs ih =>
    intro st0 u0 st1 h
    obtain ⟨⟨s1, u1⟩, hstep, hrest⟩ := bindOkShape h
    obtain ⟨hst1, hu1⟩ := ih s1 u1 st1 hrest
    obtain ⟨⟨s2, u2⟩, hint, hp⟩ := bindOkShape hstep
    have h3 := okInj hp
    have hs : s2 = s1 := congrArg Prod.fst h3
    have hu : (u0 || u2) = u1 := congrArg Prod.snd h3
    rw [hu1] at hu
    have hu0 : u0 = false ∧ u2 = false := by
      cases u0 <;> cases u2 <;> simp_all
    have hs2 : s2 = st0 := extendInternalFalse (hu0.2 ▸ hint)
    exact ⟨hst1.trans (hs.symm.trans hs2), hu0.1⟩

/-- Shape of a successful `extend_multiple`. -/
theorem extendMultipleShape {st : Store} {p : NodeId} {exs : List (NodeId × Option Nat)}
    {st' : Store} (h : st.extendMultiple p exs = .ok st') :
    (∃ (st1 : Store), st1.updateChildrenMetadata p = some st') ∨ st' = st := by
  unfold Store.extendMultiple at h
  obtain ⟨⟨st1, updated⟩, h1, h2⟩ := bindOkShape h
  cases updated with
  | false =>
    have h2a : (pure st1 : TreeRes Store) = .ok st' := h2
    have hst : st1 = st' := okInj h2a
    exact Or.inr (by rw [← hst, (extMultFoldFalse exs st false st1 h1).1])
  | true =>
    have h2a : (match st1.updateChildrenMetadata p with
        | none => (Except.error TreeErr.panicked : TreeRes Store)
        | some st2 => pure st2) = .ok st' := h2
    cases hupd : st1.updateChildrenMetadata p with
    | none =>
      rw [hupd] at h2a
      exact Except.noConfusion h2a
    | some st2 =>
      rw [hupd] at h2a
      have hst : st2 = st' := okInj h2a
      exact Or.inl ⟨st1, by rw [hupd, hst]⟩

/-- C4 counterexample: against the claim, a structural mutation does not
always leave every child with its position as index — adding a node that is
already a child duplicates the handle, and the entry at position 0 ends with
index 1 (the last write of `update_children_metadata` wins). -/
theorem c4_counterexample :
    c4Store.childrenOk 0 ∧
    c4Store.runOp 0 (.addChildOp none none 1) =
      .ok (⟨[⟨.array [1, 1], Meta.new⟩, ⟨.null, ⟨some 0, 1, "1", none, none⟩⟩]⟩, []) ∧
    ¬ (Store.mk [⟨.array [1, 1], Meta.new⟩,
        ⟨.null, ⟨some 0, 1, "1", none, none⟩⟩]).childrenOk 0 :=
  ⟨by decide, rfl, by decide⟩

/-- C4 (amended): a structural mutation on `p` that succeeds re-establishes
the children-metadata invariant P1, provided the invariant held before (for
the paths that change nothing), the resulting children are pairwise-distinct
live handles, and no removed/displaced node is still a child (`add_child` and
`set_child` detach the displaced node after the metadata pass). -/
theorem c4_children_metadata_invariant :
    ∀ (st : Store) (p : NodeId) (op : MutOp) (st' : Store) (removed : List NodeId),
      st.childrenOk p →
      st.runOp p op = .ok (st', removed) →
      (st'.childIds p).Nodup →
      (∀ c ∈ st'.childIds p, st'.validId c) →
      (∀ r ∈ removed, r ∉ st'.childIds p) →
      st'.childrenOk p := by
  intro st p op st' removed hok hrun hnd hval hrem
  have disp : (∃ (stX : Store), stX.updateChildrenMetadata p = some st') ∨
      (∃ (st2 : Store) (r : NodeId), r ∈ removed ∧ st' = st2.detachNode r ∧
        ∃ (stX : Store), stX.updateChildrenMetadata p = some st2) ∨
      (∀ q, st'.get q = st.get q) := by
    cases op with
    | addChildOp index key value =>
      have hrun2 : (st.addChild p index key value >>=
          fun r => pure (r.1, r.2.toList)) = .ok (st', removed) := hrun
      obtain ⟨⟨st0, n0⟩, h1, h2⟩ := bindOkShape hrun2
      have h3 := okInj h2
      have hst : st0 = st' := congrArg Prod.fst h3
      have hrem2 : n0.toList = removed := congrArg Prod.snd h3
      subst hst
      obtain ⟨st1, st2, hupd, hmatch⟩ := addChildShape h1
      cases n0 with
      | none =>
        have hm : st0 = st2 := hmatch
        exact Or.inl ⟨st1, by rw [hupd, hm]⟩
      | some r =>
        have hm : st0 = st2.detachNode r := hmatch
        have hrmem : r ∈ removed := by
          rw [← hrem2]
          simp [Option.toList]
        exact Or.inr (Or.inl ⟨st2, r, hrmem, hm, st1, hupd⟩)
    | setChildOp index key value =>
      have hrun2 : (st.setChild p index key value >>=
          fun r => pure (r.1, r.2.toList)) = .ok (st', removed) := hrun
      obtain ⟨⟨st0, n0⟩, h1, h2⟩ := bindOkShape hrun2
      have h3 := okInj h2
      have hst : st0 = st' := congrArg Prod.fst h3
      have hrem2 : n0.toList = removed := congrArg Prod.snd h3
      subst hst
      obtain ⟨st1, st2, hupd, hmatch⟩ := setChildShape h1
      cases n0 with
      | none =>
        have hm : st0 = st2 := hmatch
        exact Or.inl ⟨st1, by rw [hupd, hm]⟩
      | some r =>
        have hm : st0 = st2.detachNode r := hmatch
        have hrmem : r ∈ removed := by
          rw [← hrem2]
          simp [Option.toList]
        exact Or.inr (Or.inl ⟨st2, r, hrmem, hm, st1, hupd⟩)
    | removeChildOp index key =>
      have hrun2 : (st.removeChild p index key >>=
          fun r => pure (r.1, r.2.toList)) = .ok (st', removed) := hrun
      obtain ⟨⟨st0, n0⟩, h1, h2⟩ := bindOkShape hrun2
      have hst : st0 = st' := congrArg Prod.fst (okInj h2)
      subst hst
      cases removeChildShape h1 with
      | inl hl => exact Or.inl hl
      | inr hr => exact Or.inr (Or.inr hr)
    | addChildrenOp drop items =>
      have hrun2 : st.addChildren p drop items = .ok (st', removed) := hrun
      exact Or.inl (addChildrenShape hrun2)
    | removeChildrenOp drop items =>
      have hrun2 : st.removeChildren p drop items = .ok (st', removed) := hrun
      exact Or.inl (removeChildrenShape hrun2)
    | extendOp o index =>
      have hrun2 : (st.extend p o index >>= fun s => pure (s, ([] : List NodeId))) =
          .ok (st', removed) := hrun
      obtain ⟨s0, h1, h2⟩ := bindOkShape hrun2
      have hst : s0 = st' := congrArg Prod.fst (okInj h2)
      subst hst
      cases extendShape h1 with
      | inl hl => exact Or.inl hl
      | inr hr => exact Or.inr (Or.inr (fun q => by rw [hr]))
    | extendMultipleOp exs =>
      have hrun2 : (st.extendMultiple p exs >>= fun s => pure (s, ([] : List NodeId))) =
          .ok (st', removed) := hrun
      obtain ⟨s0, h1, h2⟩ := bindOkShape hrun2
      have hst : s0 = st' := congrArg Prod.fst (okInj h2)
      subst hst
      cases extendMultipleShape h1 with
      | inl hl => exact Or.inl hl
      | inr hr => exact Or.inr (Or.inr (fun q => by rw [hr]))
  rcases disp with ⟨stX, hupd⟩ | ⟨st2, r, hr, hdet, stX, hupd⟩ | hq
  · exact updateOkChildrenPost hupd hnd hval
  · subst hdet
    have hvdet : ∀ q, ((st2.detachNode r).get q).value = (st2.get q).value :=
      fun q => storeValueModify st2 r (fun n => { n with meta := n.meta.detach })
        (fun n => rfl) q
    have hids : (st2.detachNode r).childIds p = st2.childIds p :=
      childIdsCongrValue p (hvdet p)
    have hsz : (st2.detachNode r).size = st2.size := storeSizeModify st2 r _
    have hok2 : st2.childrenOk p := by
      apply updateOkChildrenPost hupd (by rw [← hids]; exact hnd)
      intro c hc
      have hc2 : c ∈ (st2.detachNode r).childIds p := by rw [hids]; exact hc
      have := hval c hc2
      show c < st2.size
      rw [← hsz]
      exact this
    apply childrenOkDetach hok2
    intro hrin
    exact hrem r hr (by rw [hids]; exact hrin)
  · exact childrenOkCongrGet p hq hok

/-- C4 witness: removing the only child of the example array re-establishes
the invariant on the result. -/
theorem c4_children_metadata_invariant_witness :
    (Store.mk [⟨.array [], Meta.new⟩, ⟨.null, ⟨none, 0, "", none, none⟩⟩]).childrenOk 0 :=
  c4_children_metadata_invariant c4Store 0 (.removeChildOp (some 0) none)
    (Store.mk [⟨.array [], Meta.new⟩, ⟨.null, ⟨none, 0, "", none, none⟩⟩]) [1]
    (by decide) rfl (by decide) (by decide) (by decide)

/-- `StExt` is reflexive. -/
theorem stExtRefl (st : Store) : StExt st st := ⟨le_refl _, fun _ _ => rfl⟩

/-- `StExt` is transitive. -/
theorem stExtTrans {s0 s1 s2 : Store} (h1 : StExt s0 s1) (h2 : StExt s1 s2) :
    StExt s0 s2 :=
  ⟨le_trans h1.1 h2.1, fun q hq => (h2.2 q (lt_of_lt_of_le hq h1.1)).trans (h1.2 q hq)⟩

/-- Allocation extends the store. -/
theorem storeAllocSize (st : Store) (n : Node) : (st.alloc n).1.size = st.size + 1 := by
  unfold Store.alloc Store.size
  simp

/-- Reading an old node after an allocation. -/
theorem storeGetAllocOld (st : Store) (n : Node) (q : NodeId) (h : q < st.size) :
    (st.alloc n).1.get q = st.get q := by
  unfold Store.alloc Store.get
  rw [List.get?_append h]

/-- Reading the just-allocated node. -/
theorem storeGetAllocNew (st : Store) (n : Node) : (st.alloc n).1.get st.size = n := by
  unfold Store.alloc Store.get Store.size
  rw [List.get?_concat_length]
  rfl

/-- A dangling handle dereferences to the null node. -/
theorem storeGetDangling (st : Store) (q : NodeId) (h : st.size ≤ q) :
    st.get q = Node.nullNode := by
  unfold Store.get
  rw [List.get?_eq_none.2 h]
  rfl

/-- A dangling handle has no children. -/
theorem childIdsDangling {st : Store} {q : NodeId} (h : st.size ≤ q) :
    st.childIds q = [] := by
  unfold Store.childIds
  rw [storeGetDangling st q h]
  rfl

/-- `alloc` is a store extension. -/
theorem stExtAlloc (st : Store) (n : Node) : StExt st (st.alloc n).1 := by
  refine ⟨?_, ?_⟩
  · rw [storeAllocSize]
    omega
  · intro q hq
    rw [storeGetAllocOld st n q hq]

/-- Unfolding a successful `update_children_metadata`. -/
theorem updateShape {st st' : Store} {p : NodeId}
    (h : st.updateChildrenMetadata p = some st') :
    p ∉ (st.childEntries p).map (·.2) ∧
    st' = updateMetaLoop st p 0 (st.childEntries p) := by
  simp only [Store.updateChildrenMetadata] at h
  by_cases hp : p ∈ (st.childEntries p).map (·.2)
  · rw [if_pos hp] at h
    exact Option.noConfusion h
  · rw [if_neg hp] at h
    exact ⟨hp, (Option.some.inj h).symm⟩

/-- A successful `update_children_metadata` is a store extension (it preserves
all values and the size). -/
theorem stExtUpdate {st st' : Store} {p : NodeId}
    (h : st.updateChildrenMetadata p = some st') : StExt st st' := by
  obtain ⟨hv, hs⟩ := updateValueSize h
  exact ⟨le_of_eq hs.symm, fun q _ => hv q⟩

/-- Membership-aware weakening of `Forall2`. -/
theorem forall2Mem {α β : Type} {R S : α → β → Prop} {l : List α} {l' : List β}
    (h : List.Forall₂ R l l') (hi : ∀ a b, a ∈ l → R a b → S a b) :
    List.Forall₂ S l l' := by
  induction h with
  | nil => exact .nil
  | @cons a b as bs hab ht ih =>
    exact .cons (hi a b (by simp) hab) (ih (fun x y hx hr => hi x y (by simp [hx]) hr))

/-- `mapM` over `Option` only depends on the function on the members. -/
theorem mapMCongr {α β : Type} {l : List α} {f g : α → Option β}
    (h : ∀ a ∈ l, f a = g a) : l.mapM f = l.mapM g := by
  induction l with
  | nil => rfl
  | cons a l ih =>
    rw [List.mapM_cons, List.mapM_cons, h a (by simp),
      ih (fun x hx => h x (by simp [hx]))]

/-- `mapM` along a `Forall2` of pointwise outcomes. -/
theorem mapMForall2 {α β γ : Type} {l : List α} {l' : List β}
    {f : β → Option γ} {g : α → Option γ}
    (h : List.Forall₂ (fun a b => f b = g a) l l') : l'.mapM f = l.mapM g := by
  induction h with
  | nil => rfl
  | cons hab ht ih => rw [List.mapM_cons, List.mapM_cons, hab, ih]

/-- One-step unfolding of `toPure` at positive fuel. -/
theorem toPureSucc (g : Nat) (st : Store) (id : NodeId) :
    toPure (g + 1) st id =
      match (st.get id).value with
      | .null => some .null
      | .boolean b => some (.boolean b)
      | .integer n => some (.integer n)
      | .float x => some (.float x)
      | .string s => some (.string s)
      | .binary bs => some (.binary bs)
      | .array elems => (elems.mapM (toPure g st)).map .array
      | .object props =>
        (props.mapM (fun kv => (toPure g st kv.2).map (fun v => (kv.1, v)))).map .object := rfl

/-- Unfolding the child handles through a value equation. -/
theorem childIdsVal {st : Store} {id : NodeId} {v : Val} (h : (st.get id).value = v) :
    st.childIds id = valChildren v := by
  unfold Store.childIds
  rw [h]
  cases v <;> rfl

/-- `toPure` of an old node is stable under store extension (on a closed
base store). -/
theorem toPureExt : ∀ (g : Nat) (st st' : Store), StExt st st' → st.closed →
    ∀ id, st.validId id → toPure g st' id = toPure g st id := by
  intro g
  induction g with
  | zero => intro st st' _ _ id _; rfl
  | succ g ihg =>
    intro st st' hext hcl id hv
    have hvq : (st'.get id).value = (st.get id).value := hext.2 id hv
    rw [toPureSucc, toPureSucc, hvq]
    cases hval : (st.get id).value with
    | array elems =>
      have helems : ∀ c ∈ elems, toPure g st' c = toPure g st c := by
        intro c hc
        apply ihg st st' hext hcl
        apply hcl id hv
        rw [childIdsVal hval]
        exact hc
      exact congrArg (Option.map PVal.array) (mapMCongr helems)
    | object props =>
      have hprops : ∀ kv ∈ props,
          ((toPure g st' kv.2).map (fun v => (kv.1, v))) =
          ((toPure g st kv.2).map (fun v => (kv.1, v))) := by
        intro kv hkv
        rw [ihg st st' hext hcl kv.2
          (hcl id hv kv.2 (by rw [childIdsVal hval]; exact List.mem_map.2 ⟨kv, hkv, rfl⟩))]
      exact congrArg (Option.map PVal.object) (mapMCongr hprops)
    | null => rfl
    | boolean b => rfl
    | integer n => rfl
    | float x => rfl
    | string s => rfl
    | binary bs => rfl

/-- The outcome of copying a childless value: a fresh detached node. -/
theorem deepCopyLeaf (st : Store) (id : NodeId) (v : Val)
    (hcl : st.closed)
    (hch : valChildren v = [])
    (htp : ∀ g, toPure g (st.alloc ⟨v, (st.get id).meta.deepCopy⟩).1 st.size = toPure g st id) :
    StExt st (st.alloc ⟨v, (st.get id).meta.deepCopy⟩).1 ∧
    st.size ≤ st.size ∧
    st.size < (st.alloc ⟨v, (st.get id).meta.deepCopy⟩).1.size ∧
    (st.alloc ⟨v, (st.get id).meta.deepCopy⟩).1.closed ∧
    (∀ q, st.size ≤ q → ∀ c ∈ (st.alloc ⟨v, (st.get id).meta.deepCopy⟩).1.childIds q,
      st.size ≤ c ∧ c < (st.alloc ⟨v, (st.get id).meta.deepCopy⟩).1.size) ∧
    ((st.alloc ⟨v, (st.get id).meta.deepCopy⟩).1.get st.size).meta =
      (st.get id).meta.deepCopy ∧
    (∀ g, toPure g (st.alloc ⟨v, (st.get id).meta.deepCopy⟩).1 st.size = toPure g st id) := by
  have hsz : (st.alloc ⟨v, (st.get id).meta.deepCopy⟩).1.size = st.size + 1 :=
    storeAllocSize st _
  have hchn : (st.alloc ⟨v, (st.get id).meta.deepCopy⟩).1.childIds st.size = [] := by
    rw [childIdsVal (congrArg Node.value (storeGetAllocNew st ⟨v, (st.get id).meta.deepCopy⟩))]
    exact hch
  refine ⟨stExtAlloc st _, le_refl _, by rw [hsz]; omega, ?_, ?_, ?_, htp⟩
  · intro q hq c hc
    have hq2 : q < st.size + 1 := by rw [← hsz]; exact hq
    by_cases hlt : q < st.size
    · have hce : (st.alloc ⟨v, (st.get id).meta.deepCopy⟩).1.childIds q = st.childIds q :=
        childIdsCongrValue q (by rw [storeGetAllocOld st _ q hlt])
      rw [hce] at hc
      have hcv := hcl q hlt c hc
      show c < (st.alloc ⟨v, (st.get id).meta.deepCopy⟩).1.size
      rw [hsz]
      have hcs : c < st.size := hcv
      exact Nat.lt_succ_of_lt hcs
    · have hq3 : q = st.size :=
        Nat.le_antisymm (Nat.lt_succ_iff.1 hq2) (Nat.le_of_not_lt hlt)
      rw [hq3, hchn] at hc
      exact absurd hc (List.not_mem_nil c)
  · intro q hq c hc
    by_cases hqs : q = st.size
    · rw [hqs, hchn] at hc
      exact absurd hc (List.not_mem_nil c)
    · have hd : (st.alloc ⟨v, (st.get id).meta.deepCopy⟩).1.size ≤ q := by rw [hsz]; omega
      rw [childIdsDangling hd] at hc
      exact absurd hc (List.not_mem_nil c)
  · rw [storeGetAllocNew]

/-- Membership-aware weakening of `Forall₂`, both sides. -/
theorem forall2Mem2 {α β : Type} {R S : α → β → Prop} {l : List α} {l' : List β}
    (h : List.Forall₂ R l l') (hi : ∀ a b, a ∈ l → b ∈ l' → R a b → S a b) :
    List.Forall₂ S l l' := by
  induction h with
  | nil => exact .nil
  | @cons a b as bs hab ht ih =>
    exact .cons (hi a b (by simp) (by simp) hab)
      (ih (fun x y hx hy hr => hi x y (by simp [hx]) (by simp [hy]) hr))

/-- The element-copying fold of the array branch of `deep_copy`: it extends
the store with fresh, closed, faithful copies. -/
theorem foldCopyArr (f : Nat)
    (ihf : ∀ (st : Store) (id : NodeId) (st' : Store) (id' : NodeId),
      st.closed → st.validId id → deepCopyRef f st id = some (st', id') →
      StExt st st' ∧ st.size ≤ id' ∧ id' < st'.size ∧ st'.closed ∧
      (∀ q, st.size ≤ q → ∀ c ∈ st'.childIds q, st.size ≤ c ∧ c < st'.size) ∧
      (st'.get id').meta = (st.get id).meta.deepCopy ∧
      (∀ g, toPure g st' id' = toPure g st id)) :
    ∀ (elems : List NodeId) (s0 : Store) (acc : List NodeId) (s1 : Store)
      (out : List NodeId),
      s0.closed → (∀ c ∈ elems, s0.validId c) →
      elems.foldlM
        (fun (a : Store × List NodeId) c =>
          (deepCopyRef f a.1 c).map (fun r => (r.1, a.2 ++ [r.2])))
        (s0, acc) = some (s1, out) →
      StExt s0 s1 ∧ s1.closed ∧
      (∃ fresh, out = acc ++ fresh ∧
        (∀ c' ∈ fresh, s0.size ≤ c' ∧ c' < s1.size) ∧
        List.Forall₂ (fun c c' => ∀ g, toPure g s1 c' = toPure g s0 c) elems fresh) ∧
      (∀ q, s0.size ≤ q → ∀ c ∈ s1.childIds q, s0.size ≤ c ∧ c < s1.size) := by
  intro elems
  induction elems with
  | nil =>
    intro s0 acc s1 out hcl _hval h
    have h2 : (some (s0, acc) : Option (Store × List NodeId)) = some (s1, out) := h
    have h3 := Option.some.inj h2
    have hs : s0 = s1 := congrArg Prod.fst h3
    have ho : acc = out := congrArg Prod.snd h3
    subst hs
    refine ⟨stExtRefl s0, hcl, ⟨[], by rw [← ho]; simp,
      fun x hx => absurd hx (List.not_mem_nil x), .nil⟩, ?_⟩
    intro q hq x hx
    rw [childIdsDangling hq] at hx
    exact absurd hx (List.not_mem_nil x)
  | cons c cs ihl =>
    intro s0 acc s1 out hcl hval h
    have h2 : ((deepCopyRef f s0 c).map (fun r => (r.1, acc ++ [r.2])) >>=
        fun x => cs.foldlM
          (fun (a : Store × List NodeId) c2 =>
            (deepCopyRef f a.1 c2).map (fun r => (r.1, a.2 ++ [r.2]))) x) =
        some (s1, out) := h
    cases hc1 : deepCopyRef f s0 c with
    | none =>
      rw [hc1] at h2
      exact Option.noConfusion h2
    | some r =>
      obtain ⟨s0a, c'⟩ := r
      rw [hc1] at h2
      have h3 : cs.foldlM
          (fun (a : Store × List NodeId) c2 =>
            (deepCopyRef f a.1 c2).map (fun r => (r.1, a.2 ++ [r.2])))
          (s0a, acc ++ [c']) = some (s1, out) := h2
      obtain ⟨hextH, hleH, hltH, hclH, hnewH, _hmetaH, htpH⟩ :=
        ihf s0 c s0a c' hcl (hval c (by simp)) hc1
      have hval2 : ∀ x ∈ cs, s0a.validId x :=
        fun x hx => lt_of_lt_of_le (hval x (by simp [hx])) hextH.1
      obtain ⟨hextT, hclT, ⟨fresh, hout, hbounds, hfa⟩, hnewT⟩ :=
        ihl s0a (acc ++ [c']) s1 out hclH hval2 h3
      refine ⟨stExtTrans hextH hextT, hclT, ⟨c' :: fresh, ?_, ?_, ?_⟩, ?_⟩
      · rw [hout]
        simp
      · intro x hx
        rcases List.mem_cons.1 hx with rfl | hx2
        · exact ⟨hleH, lt_of_lt_of_le hltH hextT.1⟩
        · obtain ⟨hb1, hb2⟩ := hbounds x hx2
          exact ⟨le_trans hextH.1 hb1, hb2⟩
      · refine List.Forall₂.cons ?_ ?_
        · intro g
          rw [toPureExt g s0a s1 hextT hclH c' hltH, htpH g]
        · refine forall2Mem hfa ?_
          intro a b ha hr g
          rw [hr g, toPureExt g s0 s0a hextH hcl a (hval a (by simp [ha]))]
      · intro q hq x hx
        by_cases hq2 : s0a.size ≤ q
        · obtain ⟨hb1, hb2⟩ := hnewT q hq2 x hx
          exact ⟨le_trans hextH.1 hb1, hb2⟩
        · have hql : q < s0a.size := Nat.lt_of_not_le hq2
          have hcq : s1.childIds q = s0a.childIds q :=
            childIdsCongrValue q (hextT.2 q hql)
          rw [hcq] at hx
          obtain ⟨hb1, hb2⟩ := hnewH q hq x hx
          exact ⟨hb1, lt_of_lt_of_le hb2 hextT.1⟩

/-- The property-copying fold of the object branch of `deep_copy`. -/
theorem foldCopyObj (f : Nat)
    (ihf : ∀ (st : Store) (id : NodeId) (st' : Store) (id' : NodeId),
      st.closed → st.validId id → deepCopyRef f st id = some (st', id') →
      StExt st st' ∧ st.size ≤ id' ∧ id' < st'.size ∧ st'.closed ∧
      (∀ q, st.size ≤ q → ∀ c ∈ st'.childIds q, st.size ≤ c ∧ c < st'.size) ∧
      (st'.get id').meta = (st.get id).meta.deepCopy ∧
      (∀ g, toPure g st' id' = toPure g st id)) :
    ∀ (props : List (String × NodeId)) (s0 : Store) (acc : List (String × NodeId))
      (s1 : Store) (out : List (String × NodeId)),
      s0.closed → (∀ kv ∈ props, s0.validId kv.2) →
      props.foldlM
        (fun (a : Store × List (String × NodeId)) kv =>
          (deepCopyRef f a.1 kv.2).map (fun r => (r.1, a.2 ++ [(kv.1, r.2)])))
        (s0, acc) = some (s1, out) →
      StExt s0 s1 ∧ s1.closed ∧
      (∃ fresh, out = acc ++ fresh ∧
        (∀ kv' ∈ fresh, s0.size ≤ kv'.2 ∧ kv'.2 < s1.size) ∧
        List.Forall₂ (fun kv kv' => kv'.1 = kv.1 ∧
          ∀ g, toPure g s1 kv'.2 = toPure g s0 kv.2) props fresh) ∧
      (∀ q, s0.size ≤ q → ∀ c ∈ s1.childIds q, s0.size ≤ c ∧ c < s1.size) := by
  intro props
  induction props with
  | nil =>
    intro s0 acc s1 out hcl _hval h
    have h2 : (some (s0, acc) : Option (Store × List (String × NodeId))) = some (s1, out) := h
    have h3 := Option.some.inj h2
    have hs : s0 = s1 := congrArg Prod.fst h3
    have ho : acc = out := congrArg Prod.snd h3
    subst hs
    refine ⟨stExtRefl s0, hcl, ⟨[], by rw [← ho]; simp,
      fun x hx => absurd hx (List.not_mem_nil x), .nil⟩, ?_⟩
    intro q hq x hx
    rw [childIdsDangling hq] at hx
    exact absurd hx (List.not_mem_nil x)
  | cons kv kvs ihl =>
    intro s0 acc s1 out hcl hval h
    have h2 : ((deepCopyRef f s0 kv.2).map (fun r => (r.1, acc ++ [(kv.1, r.2)])) >>=
        fun x => kvs.foldlM
          (fun (a : Store × List (String × NodeId)) kv2 =>
            (deepCopyRef f a.1 kv2.2).map (fun r => (r.1, a.2 ++ [(kv2.1, r.2)]))) x) =
        some (s1, out) := h
    cases hc1 : deepCopyRef f s0 kv.2 with
    | none =>
      rw [hc1] at h2
      exact Option.noConfusion h2
    | some r =>
      obtain ⟨s0a, c'⟩ := r
      rw [hc1] at h2
      have h3 : kvs.foldlM
          (fun (a : Store × List (String × NodeId)) kv2 =>
            (deepCopyRef f a.1 kv2.2).map (fun r => (r.1, a.2 ++ [(kv2.1, r.2)])))
          (s0a, acc ++ [(kv.1, c')]) = some (s1, out) := h2
      obtain ⟨hextH, hleH, hltH, hclH, hnewH, _hmetaH, htpH⟩ :=
        ihf s0 kv.2 s0a c' hcl (hval kv (by simp)) hc1
      have hval2 : ∀ x ∈ kvs, s0a.validId x.2 :=
        fun x hx => lt_of_lt_of_le (hval x (by simp [hx])) hextH.1
      obtain ⟨hextT, hclT, ⟨fresh, hout, hbounds, hfa⟩, hnewT⟩ :=
        ihl s0a (acc ++ [(kv.1, c')]) s1 out hclH hval2 h3
      refine ⟨stExtTrans hextH hextT, hclT, ⟨(kv.1, c') :: fresh, ?_, ?_, ?_⟩, ?_⟩
      · rw [hout]
        simp
      · intro x hx
        rcases List.mem_cons.1 hx with rfl | hx2
        · exact ⟨hleH, lt_of_lt_of_le hltH hextT.1⟩
        · obtain ⟨hb1, hb2⟩ := hbounds x hx2
          exact ⟨le_trans hextH.1 hb1, hb2⟩
      · refine List.Forall₂.cons ⟨rfl, ?_⟩ ?_
        · intro g
          rw [toPureExt g s0a s1 hextT hclH c' hltH, htpH g]
        · refine forall2Mem hfa ?_
          intro a b ha hr
          refine ⟨hr.1, ?_⟩
          intro g
          rw [hr.2 g, toPureExt g s0 s0a hextH hcl a.2 (hval a (by simp [ha]))]
      · intro q hq x hx
        by_cases hq2 : s0a.size ≤ q
        · obtain ⟨hb1, hb2⟩ := hnewT q hq2 x hx
          exact ⟨le_trans hextH.1 hb1, hb2⟩
        · have hql : q < s0a.size := Nat.lt_of_not_le hq2
          have hcq : s1.childIds q = s0a.childIds q :=
            childIdsCongrValue q (hextT.2 q hql)
          rw [hcq] at hx
          obtain ⟨hb1, hb2⟩ := hnewH q hq x hx
          exact ⟨hb1, lt_of_lt_of_le hb2 hextT.1⟩

/-- The structure of a successful `deep_copy`: a store extension holding a
fresh, closed, faithful, detached copy of the subtree. -/
theorem deepCopyMain :
    ∀ (fuel : Nat) (st : Store) (id : NodeId) (st' : Store) (id' : NodeId),
      st.closed → st.validId id →
      deepCopyRef fuel st id = some (st', id') →
      StExt st st' ∧ st.size ≤ id' ∧ id' < st'.size ∧ st'.closed ∧
      (∀ q, st.size ≤ q → ∀ c ∈ st'.childIds q, st.size ≤ c ∧ c < st'.size) ∧
      (st'.get id').meta = (st.get id).meta.deepCopy ∧
      (∀ g, toPure g st' id' = toPure g st id) := by
  intro fuel
  induction fuel with
  | zero =>
    intro st id st' id' _ _ h
    exact Option.noConfusion h
  | succ f ih =>
    intro st id st' id' hcl hv h
    have h1 : (match (st.get id).value with
        | .array elems =>
          (match elems.foldlM
              (fun (a : Store × List NodeId) c =>
                (deepCopyRef f a.1 c).map (fun r => (r.1, a.2 ++ [r.2])))
              (st, []) with
          | some (st1, copies) =>
            (((st1.alloc ⟨Val.array copies, (st.get id).meta.deepCopy⟩).1.updateChildrenMetadata
                st1.size).map (fun st3 => (st3, st1.size)))
          | none => none)
        | .object props =>
          (match props.foldlM
              (fun (a : Store × List (String × NodeId)) kv =>
                (deepCopyRef f a.1 kv.2).map (fun r => (r.1, a.2 ++ [(kv.1, r.2)])))
              (st, []) with
          | some (st1, copies) =>
            (((st1.alloc ⟨Val.object copies, (st.get id).meta.deepCopy⟩).1.updateChildrenMetadata
                st1.size).map (fun st3 => (st3, st1.size)))
          | none => none)
        | v => some ((st.alloc ⟨v, (st.get id).meta.deepCopy⟩).1, st.size)) =
        some (st', id') := h
    cases hval : (st.get id).value with
    | array elems =>
      rw [hval] at h1
      have h2 : (match elems.foldlM
            (fun (a : Store × List NodeId) c =>
              (deepCopyRef f a.1 c).map (fun r => (r.1, a.2 ++ [r.2])))
            (st, []) with
          | some (st1, copies) =>
            (((st1.alloc ⟨Val.array copies, (st.get id).meta.deepCopy⟩).1.updateChildrenMetadata
                st1.size).map (fun st3 => (st3, st1.size)))
          | none => none) = some (st', id') := h1
      cases hfold : elems.foldlM
          (fun (a : Store × List NodeId) c =>
            (deepCopyRef f a.1 c).map (fun r => (r.1, a.2 ++ [r.2])))
          (st, []) with
      | none =>
        rw [hfold] at h2
        exact Option.noConfusion h2
      | some r1 =>
        obtain ⟨st1, copies⟩ := r1
        rw [hfold] at h2
        have h3 : ((st1.alloc ⟨Val.array copies, (st.get id).meta.deepCopy⟩).1.updateChildrenMetadata
            st1.size).map (fun st3 => (st3, st1.size)) = some (st', id') := h2
        cases hupd : (st1.alloc ⟨Val.array copies,
            (st.get id).meta.deepCopy⟩).1.updateChildrenMetadata st1.size with
        | none =>
          rw [hupd] at h3
          exact Option.noConfusion h3
        | some st3 =>
          rw [hupd] at h3
          have h4 := Option.some.inj h3
          have hst : st3 = st' := congrArg Prod.fst h4
          have hid : st1.size = id' := congrArg Prod.snd h4
          subst hst
          subst hid
          have hvmem : ∀ c ∈ elems, st.validId c := by
            intro c hb
            refine hcl id hv c ?_
            rw [childIdsVal hval]
            exact hb
          obtain ⟨hextF, hclF, ⟨fresh, hout, hbounds, hfa⟩, hnewF⟩ :=
            foldCopyArr f ih elems st [] st1 copies hcl hvmem hfold
          have hfr : copies = fresh := by simpa using hout
          subst hfr
          have hextA : StExt st1 (st1.alloc ⟨Val.array copies,
              (st.get id).meta.deepCopy⟩).1 := stExtAlloc st1 _
          have hextU : StExt (st1.alloc ⟨Val.array copies,
              (st.get id).meta.deepCopy⟩).1 st3 := stExtUpdate hupd
          have hext1 : StExt st1 st3 := stExtTrans hextA hextU
          have hvalU := (updateValueSize hupd).1
          have hsz3 : st3.size = st1.size + 1 := by
            rw [(updateValueSize hupd).2, storeAllocSize]
          have hvnew : ((st1.alloc ⟨Val.array copies,
              (st.get id).meta.deepCopy⟩).1.get st1.size).value = Val.array copies :=
            congrArg Node.value (storeGetAllocNew st1 _)
          have hchnew : (st1.alloc ⟨Val.array copies,
              (st.get id).meta.deepCopy⟩).1.childIds st1.size = copies := by
            rw [childIdsVal hvnew]
            rfl
          have hupdS := updateShape hupd
          have hroot : st3.get st1.size = ⟨Val.array copies, (st.get id).meta.deepCopy⟩ := by
            rw [hupdS.2, updLoopFrame st1.size _ _ 0 st1.size hupdS.1, storeGetAllocNew]
          refine ⟨stExtTrans hextF hext1, hextF.1, by rw [hsz3]; exact Nat.lt_succ_self _,
            ?_, ?_, by rw [hroot], ?_⟩
          · intro q hq x hx
            have hq3 : q < st1.size + 1 := by rw [← hsz3]; exact hq
            have hcq : st3.childIds q = (st1.alloc ⟨Val.array copies,
                (st.get id).meta.deepCopy⟩).1.childIds q :=
              childIdsCongrValue q (hvalU q)
            rw [hcq] at hx
            by_cases hql : q < st1.size
            · have hcq2 : (st1.alloc ⟨Val.array copies,
                  (st.get id).meta.deepCopy⟩).1.childIds q = st1.childIds q :=
                childIdsCongrValue q (by rw [storeGetAllocOld st1 _ q hql])
              rw [hcq2] at hx
              have hxv : x < st1.size := hclF q hql x hx
              show x < st3.size
              rw [hsz3]
              exact Nat.lt_succ_of_lt hxv
            · have hqe : q = st1.size :=
                Nat.le_antisymm (Nat.lt_succ_iff.1 hq3) (Nat.le_of_not_lt hql)
              rw [hqe, hchnew] at hx
              have hxb := hbounds x hx
              show x < st3.size
              rw [hsz3]
              exact Nat.lt_succ_of_lt hxb.2
          · intro q hq x hx
            have hcq : st3.childIds q = (st1.alloc ⟨Val.array copies,
                (st.get id).meta.deepCopy⟩).1.childIds q :=
              childIdsCongrValue q (hvalU q)
            rw [hcq] at hx
            by_cases hql : q < st1.size
            · have hcq2 : (st1.alloc ⟨Val.array copies,
                  (st.get id).meta.deepCopy⟩).1.childIds q = st1.childIds q :=
                childIdsCongrValue q (by rw [storeGetAllocOld st1 _ q hql])
              rw [hcq2] at hx
              obtain ⟨hb1, hb2⟩ := hnewF q hq x hx
              refine ⟨hb1, ?_⟩
              rw [hsz3]
              exact Nat.lt_succ_of_lt hb2
            · by_cases hqe : q = st1.size
              · rw [hqe, hchnew] at hx
                have hxb := hbounds x hx
                refine ⟨hxb.1, ?_⟩
                rw [hsz3]
                exact Nat.lt_succ_of_lt hxb.2
              · have hqd : (st1.alloc ⟨Val.array copies,
                    (st.get id).meta.deepCopy⟩).1.size ≤ q := by
                  rw [storeAllocSize]
                  omega
                rw [childIdsDangling hqd] at hx
                exact absurd hx (List.not_mem_nil x)
          · intro g
            cases g with
            | zero => rfl
            | succ g =>
              rw [toPureSucc, toPureSucc,
                (show (st3.get st1.size).value = Val.array copies from by rw [hroot]), hval]
              refine congrArg (Option.map PVal.array) (mapMForall2 ?_)
              refine forall2Mem2 hfa ?_
              intro a b ha hb hr
              have hbv : st1.validId b := (hbounds b hb).2
              rw [toPureExt g st1 st3 hext1 hclF b hbv]
              exact hr g
    | object props =>
      rw [hval] at h1
      have h2 : (match props.foldlM
            (fun (a : Store × List (String × NodeId)) kv =>
              (deepCopyRef f a.1 kv.2).map (fun r => (r.1, a.2 ++ [(kv.1, r.2)])))
            (st, []) with
          | some (st1, copies) =>
            (((st1.alloc ⟨Val.object copies, (st.get id).meta.deepCopy⟩).1.updateChildrenMetadata
                st1.size).map (fun st3 => (st3, st1.size)))
          | none => none) = some (st', id') := h1
      cases hfold : props.foldlM
          (fun (a : Store × List (String × NodeId)) kv =>
            (deepCopyRef f a.1 kv.2).map (fun r => (r.1, a.2 ++ [(kv.1, r.2)])))
          (st, []) with
      | none =>
        rw [hfold] at h2
        exact Option.noConfusion h2
      | some r1 =>
        obtain ⟨st1, copies⟩ := r1
        rw [hfold] at h2
        have h3 : ((st1.alloc ⟨Val.object copies, (st.get id).meta.deepCopy⟩).1.updateChildrenMetadata
            st1.size).map (fun st3 => (st3, st1.size)) = some (st', id') := h2
        cases hupd : (st1.alloc ⟨Val.object copies,
            (st.get id).meta.deepCopy⟩).1.updateChildrenMetadata st1.size with
        | none =>
          rw [hupd] at h3
          exact Option.noConfusion h3
        | some st3 =>
          rw [hupd] at h3
          have h4 := Option.some.inj h3
          have hst : st3 = st' := congrArg Prod.fst h4
          have hid : st1.size = id' := congrArg Prod.snd h4
          subst hst
          subst hid
          have hvmem : ∀ kv ∈ props, st.validId kv.2 := by
            intro kv hb
            refine hcl id hv kv.2 ?_
            rw [childIdsVal hval]
            exact List.mem_map.2 ⟨kv, hb, rfl⟩
          obtain ⟨hextF, hclF, ⟨fresh, hout, hbounds, hfa⟩, hnewF⟩ :=
            foldCopyObj f ih props st [] st1 copies hcl hvmem hfold
          have hfr : copies = fresh := by simpa using hout
          subst hfr
          have hextA : StExt st1 (st1.alloc ⟨Val.object copies,
              (st.get id).meta.deepCopy⟩).1 := stExtAlloc st1 _
          have hextU : StExt (st1.alloc ⟨Val.object copies,
              (st.get id).meta.deepCopy⟩).1 st3 := stExtUpdate hupd
          have hext1 : StExt st1 st3 := stExtTrans hextA hextU
          have hvalU := (updateValueSize hupd).1
          have hsz3 : st3.size = st1.size + 1 := by
            rw [(updateValueSize hupd).2, storeAllocSize]
          have hvnew : ((st1.alloc ⟨Val.object copies,
              (st.get id).meta.deepCopy⟩).1.get st1.size).value = Val.object copies :=
            congrArg Node.value (storeGetAllocNew st1 _)
          have hchnew : (st1.alloc ⟨Val.object copies,
              (st.get id).meta.deepCopy⟩).1.childIds st1.size = copies.map (·.2) := by
            rw [childIdsVal hvnew]
            rfl
          have hupdS := updateShape hupd
          have hroot : st3.get st1.size = ⟨Val.object copies, (st.get id).meta.deepCopy⟩ := by
            rw [hupdS.2, updLoopFrame st1.size _ _ 0 st1.size hupdS.1, storeGetAllocNew]
          refine ⟨stExtTrans hextF hext1, hextF.1, by rw [hsz3]; exact Nat.lt_succ_self _,
            ?_, ?_, by rw [hroot], ?_⟩
          · intro q hq x hx
            have hq3 : q < st1.size + 1 := by rw [← hsz3]; exact hq
            have hcq : st3.childIds q = (st1.alloc ⟨Val.object copies,
                (st.get id).meta.deepCopy⟩).1.childIds q :=
              childIdsCongrValue q (hvalU q)
            rw [hcq] at hx
            by_cases hql : q < st1.size
            · have hcq2 : (st1.alloc ⟨Val.object copies,
                  (st.get id).meta.deepCopy⟩).1.childIds q = st1.childIds q :=
                childIdsCongrValue q (by rw [storeGetAllocOld st1 _ q hql])
              rw [hcq2] at hx
              have hxv : x < st1.size := hclF q hql x hx
              show x < st3.size
              rw [hsz3]
              exact Nat.lt_succ_of_lt hxv
            · have hqe : q = st1.size :=
                Nat.le_antisymm (Nat.lt_succ_iff.1 hq3) (Nat.le_of_not_lt hql)
              rw [hqe, hchnew] at hx
              obtain ⟨kv0, hkv0, hkeq⟩ := List.mem_map.1 hx
              have hxb : st.size ≤ x ∧ x < st1.size := hkeq ▸ (hbounds kv0 hkv0)
              show x < st3.size
              rw [hsz3]
              exact Nat.lt_succ_of_lt hxb.2
          · intro q hq x hx
            have hcq : st3.childIds q = (st1.alloc ⟨Val.object copies,
                (st.get id).meta.deepCopy⟩).1.childIds q :=
              childIdsCongrValue q (hvalU q)
            rw [hcq] at hx
            by_cases hql : q < st1.size
            · have hcq2 : (st1.alloc ⟨Val.object copies,
                  (st.get id).meta.deepCopy⟩).1.childIds q = st1.childIds q :=
                childIdsCongrValue q (by rw [storeGetAllocOld st1 _ q hql])
              rw [hcq2] at hx
              obtain ⟨hb1, hb2⟩ := hnewF q hq x hx
              refine ⟨hb1, ?_⟩
              rw [hsz3]
              exact Nat.lt_succ_of_lt hb2
            · by_cases hqe : q = st1.size
              · rw [hqe, hchnew] at hx
                obtain ⟨kv0, hkv0, hkeq⟩ := List.mem_map.1 hx
                have hxb : st.size ≤ x ∧ x < st1.size := hkeq ▸ (hbounds kv0 hkv0)
                refine ⟨hxb.1, ?_⟩
                rw [hsz3]
                exact Nat.lt_succ_of_lt hxb.2
              · have hqd : (st1.alloc ⟨Val.object copies,
                    (st.get id).meta.deepCopy⟩).1.size ≤ q := by
                  rw [storeAllocSize]
                  omega
                rw [childIdsDangling hqd] at hx
                exact absurd hx (List.not_mem_nil x)
          · intro g
            cases g with
            | zero => rfl
            | succ g =>
              rw [toPureSucc, toPureSucc,
                (show (st3.get st1.size).value = Val.object copies from by rw [hroot]), hval]
              refine congrArg (Option.map PVal.object) (mapMForall2 ?_)
              refine forall2Mem2 hfa ?_
              intro a b ha hb hr
              have hbv : st1.validId b.2 := (hbounds b hb).2
              have htb : toPure g st3 b.2 = toPure g st a.2 := by
                rw [toPureExt g st1 st3 hext1 hclF b.2 hbv]
                exact hr.2 g
              rw [hr.1, htb]
    | null =>
      rw [hval] at h1
      have h2 : some ((st.alloc ⟨Val.null, (st.get id).meta.deepCopy⟩).1, st.size) =
          some (st', id') := h1
      have h3 := Option.some.inj h2
      have hst : (st.alloc ⟨Val.null, (st.get id).meta.deepCopy⟩).1 = st' := congrArg Prod.fst h3
      have hid : st.size = id' := congrArg Prod.snd h3
      subst hst
      subst hid
      refine deepCopyLeaf st id (Val.null) hcl rfl ?_
      intro g
      cases g with
      | zero => rfl
      | succ g =>
        rw [toPureSucc, toPureSucc,
          congrArg Node.value (storeGetAllocNew st ⟨Val.null, (st.get id).meta.deepCopy⟩), hval]
    | boolean b =>
      rw [hval] at h1
      have h2 : some ((st.alloc ⟨Val.boolean b, (st.get id).meta.deepCopy⟩).1, st.size) =
          some (st', id') := h1
      have h3 := Option.some.inj h2
      have hst : (st.alloc ⟨Val.boolean b, (st.get id).meta.deepCopy⟩).1 = st' := congrArg Prod.fst h3
      have hid : st.size = id' := congrArg Prod.snd h3
      subst hst
      subst hid
      refine deepCopyLeaf st id (Val.boolean b) hcl rfl ?_
      intro g
      cases g with
      | zero => rfl
      | succ g =>
        rw [toPureSucc, toPureSucc,
          congrArg Node.value (storeGetAllocNew st ⟨Val.boolean b, (st.get id).meta.deepCopy⟩), hval]
    | integer n =>
      rw [hval] at h1
      have h2 : some ((st.alloc ⟨Val.integer n, (st.get id).meta.deepCopy⟩).1, st.size) =
          some (st', id') := h1
      have h3 := Option.some.inj h2
      have hst : (st.alloc ⟨Val.integer n, (st.get id).meta.deepCopy⟩).1 = st' := congrArg Prod.fst h3
      have hid : st.size = id' := congrArg Prod.snd h3
      subst hst
      subst hid
      refine deepCopyLeaf st id (Val.integer n) hcl rfl ?_
      intro g
      cases g with
      | zero => rfl
      | succ g =>
        rw [toPureSucc, toPureSucc,
          congrArg Node.value (storeGetAllocNew st ⟨Val.integer n, (st.get id).meta.deepCopy⟩), hval]
    | float x =>
      rw [hval] at h1
      have h2 : some ((st.alloc ⟨Val.float x, (st.get id).meta.deepCopy⟩).1, st.size) =
          some (st', id') := h1
      have h3 := Option.some.inj h2
      have hst : (st.alloc ⟨Val.float x, (st.get id).meta.deepCopy⟩).1 = st' := congrArg Prod.fst h3
      have hid : st.size = id' := congrArg Prod.snd h3
      subst hst
      subst hid
      refine deepCopyLeaf st id (Val.float x) hcl rfl ?_
      intro g
      cases g with
      | zero => rfl
      | succ g =>
        rw [toPureSucc, toPureSucc,
          congrArg Node.value (storeGetAllocNew st ⟨Val.float x, (st.get id).meta.deepCopy⟩), hval]
    | string s =>
      rw [hval] at h1
      have h2 : some ((st.alloc ⟨Val.string s, (st.get id).meta.deepCopy⟩).1, st.size) =
          some (st', id') := h1
      have h3 := Option.some.inj h2
      have hst : (st.alloc ⟨Val.string s, (st.get id).meta.deepCopy⟩).1 = st' := congrArg Prod.fst h3
      have hid : st.size = id' := congrArg Prod.snd h3
      subst hst
      subst hid
      refine deepCopyLeaf st id (Val.string s) hcl rfl ?_
      intro g
      cases g with
      | zero => rfl
      | succ g =>
        rw [toPureSucc, toPureSucc,
          congrArg Node.value (storeGetAllocNew st ⟨Val.string s, (st.get id).meta.deepCopy⟩), hval]
    | binary bs =>
      rw [hval] at h1
      have h2 : some ((st.alloc ⟨Val.binary bs, (st.get id).meta.deepCopy⟩).1, st.size) =
          some (st', id') := h1
      have h3 := Option.some.inj h2
      have hst : (st.alloc ⟨Val.binary bs, (st.get id).meta.deepCopy⟩).1 = st' := congrArg Prod.fst h3
      have hid : st.size = id' := congrArg Prod.snd h3
      subst hst
      subst hid
      refine deepCopyLeaf st id (Val.binary bs) hcl rfl ?_
      intro g
      cases g with
      | zero => rfl
      | succ g =>
        rw [toPureSucc, toPureSucc,
          congrArg Node.value (storeGetAllocNew st ⟨Val.binary bs, (st.get id).meta.deepCopy⟩), hval]

/-- Handles reached from a fresh handle stay fresh, when fresh nodes only
point at fresh nodes. -/
theorem reachHigh {st' : Store} {b : Nat}
    (hb : ∀ q, b ≤ q → ∀ c ∈ st'.childIds q, b ≤ c)
    {r q : NodeId} (hr : b ≤ r) (h : Reach st' r q) : b ≤ q := by
  induction h with
  | refl => exact hr
  | child hab hc ih => exact hb _ ih _ hc

/-- Handles reached from a live handle in a closed store are live. -/
theorem reachLow {st : Store} (hcl : st.closed) {r q : NodeId} (hr : st.validId r)
    (h : Reach st r q) : st.validId q := by
  induction h with
  | refl => exact hr
  | child hab hc ih => exact hcl _ ih _ hc

/-- C6: on a closed store, `deep_copy` of a live node yields a fresh node
whose metadata carries no parent, index 0 and an empty key, whose file info
and span equal the original node's, whose pure value tree (the shape walked
by serialization) equals the original's at every depth, and whose subtree
shares no handle with the original subtree.  (`Node::deep_copy` lives in the
missing `tree/node.rs` and is modelled from the spec as `deepCopyRef`.) -/
theorem c6_deep_copy :
    ∀ (fuel : Nat) (st : Store) (id : NodeId) (st' : Store) (id' : NodeId),
      st.closed → st.validId id →
      deepCopyRef fuel st id = some (st', id') →
      (st'.get id').meta.parent = none ∧
      (st'.get id').meta.index = 0 ∧
      (st'.get id').meta.key = "" ∧
      (st'.get id').meta.file = (st.get id).meta.file ∧
      (st'.get id').meta.span = (st.get id).meta.span ∧
      (∀ g, toPure g st' id' = toPure g st id) ∧
      (∀ q, Reach st' id' q → ¬ Reach st id q) := by
  intro fuel st id st' id' hcl hv h
  obtain ⟨hext, hge, hlt, hclosed, hnew, hmeta, htp⟩ := deepCopyMain fuel st id st' id' hcl hv h
  refine ⟨by rw [hmeta]; rfl, by rw [hmeta]; rfl, by rw [hmeta]; rfl,
    by rw [hmeta]; rfl, by rw [hmeta]; rfl, htp, ?_⟩
  intro q hq hq2
  have hhigh : st.size ≤ q :=
    reachHigh (fun x hx c hc => (hnew x hx c hc).1) hge hq
  have hlow : q < st.size := reachLow hcl hv hq2
  exact absurd hlow (Nat.not_lt_of_le hhigh)

/-- C6 witness: deep-copying the array root of the two-node example store
yields handle 3 in the extended store, detached, with the same pure value
tree and no overlap with the original subtree. -/
theorem c6_deep_copy_witness :
    (c6WitStore.get 3).meta.parent = none ∧
    (c6WitStore.get 3).meta.index = 0 ∧
    (c6WitStore.get 3).meta.key = "" ∧
    toPure 2 c6WitStore 3 = toPure 2 c4Store 0 ∧
    ¬ Reach c4Store 0 3 := by
  have hcl : c4Store.closed := by
    intro id hvd c hc
    have h2 : id < 2 := hvd
    interval_cases id
    · rw [show c4Store.childIds 0 = [1] from rfl] at hc
      simp at hc
      subst hc
      decide
    · rw [show c4Store.childIds 1 = [] from rfl] at hc
      simp at hc
  have h := c6_deep_copy 2 c4Store 0 c6WitStore 3 hcl (by decide) rfl
  exact ⟨h.1, h.2.1, h.2.2.1, h.2.2.2.2.2.1 2, h.2.2.2.2.2.2 3 (Reach.refl 3)⟩

/-- One `Sequence` step on a single-node buffer. -/
theorem seqConsStep (stepTo : Expr → RVal → NodeBuf → Except EvalErr NodeBuf)
    (e : Expr) (rest : List Expr) (x : RVal) (m : Bool) (buf : NodeBuf)
    (h : stepTo e x ⟨m, []⟩ = .ok buf) :
    applySeqListG stepTo (e :: rest) ⟨m, [x]⟩ = applySeqListG stepTo rest buf := by
  show ((stepTo e x ⟨m, []⟩ >>= fun o => applySeqElemsG (stepTo e) [] o) >>=
      fun out2 => applySeqListG stepTo rest out2) = applySeqListG stepTo rest buf
  rw [h]
  rfl

/-- Stepping along a consistent parent chain: the canonical-path segments of
`n` turn a single-node buffer holding the evaluation start into the buffer
holding exactly `n`, leaving the accumulated tail to run. -/
theorem upChainEval (st : Store) (r : NodeId) :
    ∀ (n : NodeId), UpChain st r n →
    ∀ (fuel : Nat) (acc segs : List Expr),
      opathFromSegsF fuel st (.ref n) acc = some segs →
      ∀ (f : Nat) (cur : RVal) (sc : Option (List (String × NodeSet)))
        (pe : List (String × String)) (m : Bool),
        applySeqListG
          (fun e1 x o =>
            applyToF (f + 1) e1 ((⟨r, cur, sc, pe⟩ : EvalEnv).withCurrent x) st .expr o)
          segs ⟨m, [cur]⟩ =
        applySeqListG
          (fun e1 x o =>
            applyToF (f + 1) e1 ((⟨r, cur, sc, pe⟩ : EvalEnv).withCurrent x) st .expr o)
          acc ⟨m, [.ref n]⟩ := by
  intro n hchain
  induction hchain with
  | root hpar =>
    intro fuel acc segs hsegs f cur sc pe m
    cases fuel with
    | zero => exact Option.noConfusion hsegs
    | succ fuel =>
      have hsegs2 : (match (st.get r).meta.parent with
          | some p =>
            match (st.get p).value with
            | .array _ =>
              opathFromSegsF fuel st (.ref p)
                (Expr.index (((st.get r).meta.index : Nat) : Int) :: acc)
            | .object _ =>
              opathFromSegsF fuel st (.ref p)
                (Expr.property (Ident.new (st.get r).meta.key) :: acc)
            | _ => none
          | none => some (Expr.root :: acc)) = some segs := hsegs
      rw [hpar] at hsegs2
      have hsegs3 : segs = Expr.root :: acc := (Option.some.inj hsegs2).symm
      subst hsegs3
      rw [seqConsStep _ _ _ _ _ ⟨m, [.ref r]⟩ rfl]
  | @arrayStep p nn elems _hchain hpar harr hidx ih =>
    intro fuel acc segs hsegs f cur sc pe m
    cases fuel with
    | zero => exact Option.noConfusion hsegs
    | succ fuel =>
      have hsegs2 : (match (st.get nn).meta.parent with
          | some p2 =>
            match (st.get p2).value with
            | .array _ =>
              opathFromSegsF fuel st (.ref p2)
                (Expr.index (((st.get nn).meta.index : Nat) : Int) :: acc)
            | .object _ =>
              opathFromSegsF fuel st (.ref p2)
                (Expr.property (Ident.new (st.get nn).meta.key) :: acc)
            | _ => none
          | none => some (Expr.root :: acc)) = some segs := hsegs
      rw [hpar] at hsegs2
      have hsegs2b : (match (st.get p).value with
          | .array _ =>
            opathFromSegsF fuel st (.ref p)
              (Expr.index (((st.get nn).meta.index : Nat) : Int) :: acc)
          | .object _ =>
            opathFromSegsF fuel st (.ref p)
              (Expr.property (Ident.new (st.get nn).meta.key) :: acc)
          | _ => none) = some segs := hsegs2
      rw [harr] at hsegs2b
      have hsegs3 : opathFromSegsF fuel st (.ref p)
          (Expr.index (((st.get nn).meta.index : Nat) : Int) :: acc) = some segs := hsegs2b
      rw [ih fuel _ segs hsegs3 f cur sc pe m]
      have hlt : (st.get nn).meta.index < elems.length := by
        by_contra hge
        rw [List.get?_eq_none.2 (Nat.le_of_not_lt hge)] at hidx
        exact Option.noConfusion hidx
      have hgci : getChildIndexB st (.ref p) (((st.get nn).meta.index : Nat) : Int) ⟨m, []⟩ =
          ⟨m, [.ref nn]⟩ := by
        have hview : (RVal.ref p).view st = .arrayV elems.length := by
          show (match (st.get p).value with
            | .null => VView.null
            | .boolean b => .boolean b
            | .integer n => .integer n
            | .float f => .float f
            | .string s => .string s
            | .binary bs => .binary bs
            | .array elems => .arrayV elems.length
            | .object props => .objectV props.length) = .arrayV elems.length
          rw [harr]
        have hch : (RVal.ref p).childrenOf st = elems.map RVal.ref := by
          show (match (st.get p).value with
            | .array elems => elems.map RVal.ref
            | .object props => props.map (fun kv => RVal.ref kv.2)
            | _ => []) = elems.map RVal.ref
          rw [harr]
        have habs : toAbsIndex (((st.get nn).meta.index : Nat) : Int) elems.length =
            (st.get nn).meta.index := by
          unfold toAbsIndex
          rw [if_neg (by omega)]
          simp
        have hsome : (elems.map RVal.ref).get? (st.get nn).meta.index = some (.ref nn) := by
          rw [List.get?_map, hidx]
          rfl
        simp only [getChildIndexB, hview, hch, habs, hsome]
        rfl
      rw [seqConsStep _ _ _ _ _ ⟨m, [.ref nn]⟩ (by
        show Except.ok (getChildIndexB st (.ref p) (((st.get nn).meta.index : Nat) : Int)
          ⟨m, []⟩) = Except.ok (⟨m, [.ref nn]⟩ : NodeBuf)
        rw [hgci])]
  | @objectStep p nn props _hchain hpar hobj hkey ih =>
    intro fuel acc segs hsegs f cur sc pe m
    cases fuel with
    | zero => exact Option.noConfusion hsegs
    | succ fuel =>
      have hsegs2 : (match (st.get nn).meta.parent with
          | some p2 =>
            match (st.get p2).value with
            | .array _ =>
              opathFromSegsF fuel st (.ref p2)
                (Expr.index (((st.get nn).meta.index : Nat) : Int) :: acc)
            | .object _ =>
              opathFromSegsF fuel st (.ref p2)
                (Expr.property (Ident.new (st.get nn).meta.key) :: acc)
            | _ => none
          | none => some (Expr.root :: acc)) = some segs := hsegs
      rw [hpar] at hsegs2
      have hsegs2b : (match (st.get p).value with
          | .array _ =>
            opathFromSegsF fuel st (.ref p)
              (Expr.index (((st.get nn).meta.index : Nat) : Int) :: acc)
          | .object _ =>
            opathFromSegsF fuel st (.ref p)
              (Expr.property (Ident.new (st.get nn).meta.key) :: acc)
          | _ => none) = some segs := hsegs2
      rw [hobj] at hsegs2b
      have hsegs3 : opathFromSegsF fuel st (.ref p)
          (Expr.property (Ident.new (st.get nn).meta.key) :: acc) = some segs := hsegs2b
      rw [ih fuel _ segs hsegs3 f cur sc pe m]
      have hgck : getChildKeyB st (.ref p) (Ident.new (st.get nn).meta.key).name ⟨m, []⟩ =
          ⟨m, [.ref nn]⟩ := by
        have hname : (Ident.new (st.get nn).meta.key).name = (st.get nn).meta.key := rfl
        simp only [getChildKeyB, hobj, hname, hkey]
        rfl
      rw [seqConsStep _ _ _ _ _ ⟨m, [.ref nn]⟩ (by
        show Except.ok (getChildKeyB st (.ref p) (Ident.new (st.get nn).meta.key).name
          ⟨m, []⟩) = Except.ok (⟨m, [.ref nn]⟩ : NodeBuf)
        rw [hgck])]

/-- C5: the canonical path `Opath::from(n)` of a node on a metadata-consistent
parent chain below `r`, evaluated with root `r`, yields exactly the node set
`One(n)` — the same handle, by identity — from any starting current node. -/
theorem c5_canonical_path_roundtrip :
    ∀ (st : Store) (r n : NodeId), UpChain st r n →
    ∀ (fuel : Nat) (e : Expr), opathFrom fuel st (.ref n) = some e →
    ∀ (f : Nat) (sc : Option (List (String × NodeSet))) (pe : List (String × String))
      (cur : RVal),
      applyF (f + 2) e ⟨r, cur, sc, pe⟩ st .expr = .ok (.one (.ref n)) := by
  intro st r n hchain fuel e he f sc pe cur
  cases hsegs : opathFromSegsF fuel st (.ref n) [] with
  | none =>
    rw [opathFrom, hsegs] at he
    exact Option.noConfusion he
  | some segs =>
    rw [opathFrom, hsegs] at he
    have he2 : e = .sequence segs := (Option.some.inj he).symm
    subst he2
    have hmain := upChainEval st r n hchain fuel [] segs hsegs f cur sc pe false
    have hseq : applySeqListG
        (fun e1 x o =>
          applyToF (f + 1) e1 ((⟨r, cur, sc, pe⟩ : EvalEnv).withCurrent x) st .expr o)
        segs ⟨false, [cur]⟩ = .ok ⟨false, [.ref n]⟩ := by
      rw [hmain]
      rfl
    have hfinal : applyToF (f + 2) (.sequence segs) ⟨r, cur, sc, pe⟩ st .expr NodeBuf.new =
        .ok ⟨false, [RVal.ref n]⟩ := by
      show (applySeqListG
          (fun e1 x o =>
            applyToF (f + 1) e1 ((⟨r, cur, sc, pe⟩ : EvalEnv).withCurrent x) st .expr o)
          segs ⟨false, [cur]⟩ >>=
        fun out1 =>
          if EvalCtx.expr = EvalCtx.index then
            applyNodesE (f + 1) st cur .expr out1.elems NodeBuf.new
          else .ok (NodeBuf.new.merge out1)) = .ok ⟨false, [RVal.ref n]⟩
      rw [hseq]
      rfl
    show (applyToF (f + 2) (.sequence segs) ⟨r, cur, sc, pe⟩ st .expr NodeBuf.new).map
        NodeBuf.intoNodeSet = .ok (.one (.ref n))
    rw [hfinal]
    rfl

/-- C5 witness: the canonical path of child 1 of the example array store is
`$[0]`, and it evaluates back to exactly that child. -/
theorem c5_canonical_path_roundtrip_witness :
    opathFrom 2 c4Store (.ref 1) = some (.sequence [.root, .index 0]) ∧
    applyF (0 + 2) (.sequence [.root, .index 0]) ⟨0, .ref 0, none, []⟩ c4Store .expr =
      .ok (.one (.ref 1)) :=
  ⟨rfl,
    c5_canonical_path_roundtrip c4Store 0 1
      (.arrayStep (.root rfl) rfl rfl rfl) 2 (.sequence [.root, .index 0]) rfl 0 none []
      (.ref 0)⟩
